import Mathlib

/-!
Drone flight path planner: the path-finding core.

A shallow embedding of `Common.h` (Vector3D, Obstacle), `Map.h` (Map3D),
`PathFinder.h` (PathNode, PathCacheEntry, PathFinder3D) and `Battery.h`
(Battery).

Modelling conventions.

* `double` is an arbitrary ordered field `α` with a floor function (so it is
  Archimedean); rounding, infinities and NaN are not modelled.  `sqrt` from
  `<cmath>` is a parameter `sqrt : α → α` of every definition that calls it;
  statements that hold for every `sqrt` are stated so, the others are stated
  over `ℝ` with `Real.sqrt`.
* Rounding is modelled for `Map3D::isPathClear` only (`roundDouble`,
  `Map3D.isPathClearD`), to evaluate the line-of-sight test between two points
  next to the faces of the map, where the exact and the rounded test differ.
* `int` and `size_t` counters are `Nat` or `Int` without wrap-around (the
  cache capacity would need more than `10 * 2 ^ 27` insertions to overflow).
* A loop whose termination is not syntactically evident carries a fuel
  argument and returns `none` when the fuel runs out while the source loop
  would still continue; the theorems show that this does not happen.
* Arrays are lists; a read is `getD` with the default-constructed value and a
  write is `List.set`.  The statements about the cache show that the indices
  used are in range (`PathFinder3D.CacheWF`).
* `std::priority_queue` is library code: `findPath` takes the queue as a
  parameter, see `PriorityQueue`.  `heapQueue` is the binary heap of
  libstdc++, used where the order among elements of equal priority matters.
* The strings built by `posKey` are modelled by the triple of integers they
  print; the map name and the obstacle type string are omitted.
-/

namespace DronePlanner

/-! ## Common.h -/

/-- Class `Vector3D`: three `double` coordinates. -/
structure Vector3D (α : Type) where
  x : α
  y : α
  z : α
deriving DecidableEq, Repr

section Geometry

variable {α : Type} [LinearOrderedField α]

/-- The default constructor `Vector3D()`. -/
def Vector3D.zero : Vector3D α := ⟨0, 0, 0⟩

/-- Member `operator+`. -/
def Vector3D.add (a v : Vector3D α) : Vector3D α :=
  ⟨a.x + v.x, a.y + v.y, a.z + v.z⟩

/-- Member `operator-`. -/
def Vector3D.sub (a v : Vector3D α) : Vector3D α :=
  ⟨a.x - v.x, a.y - v.y, a.z - v.z⟩

/-- Member `operator*(double)`. -/
def Vector3D.mul (a : Vector3D α) (scalar : α) : Vector3D α :=
  ⟨a.x * scalar, a.y * scalar, a.z * scalar⟩

/-- Member `operator/(double)`. -/
def Vector3D.div (a : Vector3D α) (scalar : α) : Vector3D α :=
  ⟨a.x / scalar, a.y / scalar, a.z / scalar⟩

/-- Member `operator==`: equality up to `0.1` on every axis. -/
def Vector3D.eq (a v : Vector3D α) : Bool :=
  decide (|a.x - v.x| < 0.1) && decide (|a.y - v.y| < 0.1) && decide (|a.z - v.z| < 0.1)

/-- Member `distanceTo`. -/
def Vector3D.distanceTo (sqrt : α → α) (a v : Vector3D α) : α :=
  sqrt ((a.x - v.x) ^ 2 + (a.y - v.y) ^ 2 + (a.z - v.z) ^ 2)

/-- Member `magnitude`. -/
def Vector3D.magnitude (sqrt : α → α) (a : Vector3D α) : α :=
  sqrt (a.x * a.x + a.y * a.y + a.z * a.z)

/-- Member `normalize`. -/
def Vector3D.normalize (sqrt : α → α) (a : Vector3D α) : Vector3D α :=
  let mag := a.magnitude sqrt
  if mag > 0 then a.div mag else Vector3D.zero

/-- Class `Obstacle`: an axis-aligned box given by a corner and three sizes. -/
structure Obstacle (α : Type) where
  position : Vector3D α
  length : α
  width : α
  height : α

/-- Member `Obstacle::containsPoint(p, margin)`. -/
def Obstacle.containsPoint (o : Obstacle α) (p : Vector3D α) (margin : α) : Bool :=
  decide (p.x ≥ o.position.x - margin) &&
  decide (p.x ≤ o.position.x + o.length + margin) &&
  decide (p.y ≥ o.position.y - margin) &&
  decide (p.y ≤ o.position.y + o.width + margin) &&
  decide (p.z ≥ o.position.z - margin) &&
  decide (p.z ≤ o.position.z + o.height + margin)

end Geometry

/-! ## Map.h -/

/-- Class `Map3D`: integer extents and the obstacle list. -/
structure Map3D (α : Type) where
  width : Int
  depth : Int
  height : Int
  obstacles : List (Obstacle α)

section Map

variable {α : Type} [LinearOrderedField α]

/-- Member `Map3D::isBlocked(point, margin)`. -/
def Map3D.isBlocked (m : Map3D α) (point : Vector3D α) (margin : α) : Bool :=
  if point.x < 0 ∨ point.x ≥ (m.width : α) ∨
     point.y < 0 ∨ point.y ≥ (m.depth : α) ∨
     point.z < 0 ∨ point.z ≥ (m.height : α) then true
  else m.obstacles.any (fun obs => obs.containsPoint point margin)

/-- The `for (t = 0; t <= dist; t += step)` loop of `Map3D::isPathClear`,
started at `t`; `isBlocked(point)` uses its default margin `0.5`.  The result
is `none` when the fuel is used up and `t <= dist` still holds. -/
def Map3D.isPathClearLoop (m : Map3D α) (src unitDir : Vector3D α) (dist step : α) :
    Nat → α → Option Bool
  | 0, t => if t ≤ dist then none else some true
  | fuel + 1, t =>
    if t ≤ dist then
      let point := src.add (unitDir.mul t)
      if m.isBlocked point 0.5 then some false
      else Map3D.isPathClearLoop m src unitDir dist step fuel (t + step)
    else some true

variable [FloorRing α]

/-- Member `Map3D::isPathClear(from, to, step)`.  The loop gets
`⌊dist / step⌋ + 1` rounds of fuel, which is the number of samples
`0, step, 2 * step, … ≤ dist` when `step > 0`.  For `step ≤ 0` the source loop
makes no forward progress; the model then answers `some false` when the first
sample is blocked and `none` otherwise. -/
def Map3D.isPathClear (sqrt : α → α) (m : Map3D α) (src dst : Vector3D α) (step : α) :
    Option Bool :=
  let dir := dst.sub src
  let dist := dir.magnitude sqrt
  if dist < 0.01 then some true
  else
    let unitDir := dir.normalize sqrt
    m.isPathClearLoop src unitDir dist step (⌊dist / step⌋₊ + 1) 0

/-- Member `Map3D::getSafeAltitude`. -/
def Map3D.getSafeAltitude (m : Map3D α) : α :=
  let maxH := m.obstacles.foldl
    (fun maxH obs =>
      let top := obs.position.z + obs.height
      if top > maxH then top else maxH) 0
  maxH + 2

end Map

/-! ## PathFinder.h -/

/-- Struct `PathNode`. -/
structure PathNode (α : Type) where
  pos : Vector3D α
  gCost : α
  hCost : α
  parentIdx : Int

/-- The interface of `std::priority_queue<PathNode, vector<PathNode>,
greater<PathNode>>` as `findPath` uses it: the empty queue, `push`, and `pop`,
which stands for the sequence `empty()`, `top()`, `pop()` and answers `none`
on an empty queue. -/
structure PriorityQueue (N : Type) where
  Q : Type
  empty : Q
  push : Q → N → Q
  pop : Q → Option (N × Q)

/-- The contract of a priority queue ordered by `gt` (the comparator
`greater`, so the top is a least element): the queue holds a multiset of
elements, `push` adds one, `pop` removes one that no remaining element is
smaller than, and `pop` fails exactly on the empty multiset. -/
def PriorityQueue.Lawful {N : Type} (pq : PriorityQueue N) (gt : N → N → Bool) : Prop :=
  ∃ content : pq.Q → Multiset N,
    content pq.empty = 0 ∧
    (∀ q n, content (pq.push q n) = n ::ₘ content q) ∧
    (∀ q, pq.pop q = none ↔ content q = 0) ∧
    (∀ q n r, pq.pop q = some (n, r) →
      content q = n ::ₘ content r ∧ ∀ m ∈ content r, gt n m = false)

/-- Splits a non-empty list `n :: rest` into its first least element and the
other elements, in their order. -/
def extractMin {N : Type} (gt : N → N → Bool) : N → List N → N × List N
  | n, [] => (n, [])
  | n, m :: rest =>
    let r := extractMin gt m rest
    if gt n r.1 then (r.1, n :: r.2) else (n, m :: rest)

/-- A reference implementation of `PriorityQueue` on a list: `pop` removes a
least element.  It serves to instantiate the statements below at concrete
inputs; the order in which the library heap returns elements of equal
priority is not modelled by it. -/
def listQueue {N : Type} (gt : N → N → Bool) : PriorityQueue N where
  Q := List N
  empty := []
  push q n := q ++ [n]
  pop q :=
    match q with
    | [] => none
    | n :: rest => some (extractMin gt n rest)

/-- Struct `PathCacheEntry`: `waypoints` is the owned array (`none` for
`nullptr`). -/
structure PathCacheEntry (α : Type) where
  waypoints : Option (List (Vector3D α))
  waypointCount : Nat
  totalDistance : α

/-- Class `PathFinder3D`: `pathCache` is the array of `cacheCapacity`
entries. -/
structure PathFinder3D (α : Type) where
  map : Map3D α
  gridStep : α
  pathCache : List (PathCacheEntry α)
  cacheSize : Nat
  cacheCapacity : Nat

/-- What one call of `findPath` yields: the returned path, the final value of
the local counter `iterations` (0 when the search loop is not entered) and the
engine with its cache updated. -/
structure FindResult (α : Type) where
  path : List (Vector3D α)
  iterations : Nat
  finder : PathFinder3D α

/-- How the `while` loop of `findPath` ends: by the `return` inside the goal
test (with the accepted node and the exploration history at that moment), or
by its condition becoming false. -/
inductive SearchOutcome (α : Type) where
  | accepted (current : PathNode α) (allNodes : List (PathNode α)) (iterations : Nat)
  | exhausted (iterations : Nat)

section PathFinder

variable {α : Type} [LinearOrderedField α]

/-- Member `PathNode::fCost`. -/
def PathNode.fCost (n : PathNode α) : α := n.gCost + n.hCost

/-- Member `PathNode::operator>`. -/
def PathNode.gt (n other : PathNode α) : Bool := decide (n.fCost > other.fCost)

/-- The default constructor `PathCacheEntry()`. -/
def PathCacheEntry.empty : PathCacheEntry α := ⟨none, 0, 0⟩

/-- The loop `for (i = 0; i < count; i++) dst[i] = src[i]` into a fresh
array of `count` elements. -/
def copyWaypoints (src : List (Vector3D α)) (count : Nat) : List (Vector3D α) :=
  (List.range count).map (fun i => src.getD i Vector3D.zero)

/-- The copy constructor `PathCacheEntry(const PathCacheEntry&)`. -/
def PathCacheEntry.copy (other : PathCacheEntry α) : PathCacheEntry α :=
  { waypointCount := other.waypointCount
    totalDistance := other.totalDistance
    waypoints :=
      match other.waypoints with
      | some w => if other.waypointCount > 0 then some (copyWaypoints w other.waypointCount)
                  else none
      | none => none }

/-- Member `PathCacheEntry::operator=` (for `this != &other`): the old array of
`self` is released and the fields are copied from `other`. -/
def PathCacheEntry.assign (_self other : PathCacheEntry α) : PathCacheEntry α :=
  { waypointCount := other.waypointCount
    totalDistance := other.totalDistance
    waypoints :=
      match other.waypoints with
      | some w => if other.waypointCount > 0 then some (copyWaypoints w other.waypointCount)
                  else none
      | none => none }

/-- Member `PathCacheEntry::storePath(path, dist)`. -/
def PathCacheEntry.storePath (_self : PathCacheEntry α) (path : List (Vector3D α)) (dist : α) :
    PathCacheEntry α :=
  let waypointCount := path.length
  { waypointCount := waypointCount
    totalDistance := dist
    waypoints := if waypointCount > 0 then some (copyWaypoints path waypointCount) else none }

/-- Member `PathCacheEntry::retrievePath`: pushes `waypoints[i]` for
`i < waypointCount`. -/
def PathCacheEntry.retrievePath (e : PathCacheEntry α) : List (Vector3D α) :=
  (List.range e.waypointCount).map (fun i => (e.waypoints.getD []).getD i Vector3D.zero)

/-- The constructor `PathFinder3D(m, step)`. -/
def PathFinder3D.new (m : Map3D α) (step : α) : PathFinder3D α :=
  { map := m, gridStep := step, cacheSize := 0, cacheCapacity := 10
    pathCache := List.replicate 10 PathCacheEntry.empty }

/-- The loop `for (i = 0; i < cacheSize; i++) newCache[i] = pathCache[i]` of
`addToCache`. -/
def copyCache (pathCache : List (PathCacheEntry α)) (cacheSize : Nat)
    (newCache : List (PathCacheEntry α)) : List (PathCacheEntry α) :=
  (List.range cacheSize).foldl
    (fun nc i => nc.set i ((nc.getD i PathCacheEntry.empty).assign
      (pathCache.getD i PathCacheEntry.empty))) newCache

/-- Member `PathFinder3D::addToCache`. -/
def PathFinder3D.addToCache (pf : PathFinder3D α) (_start _end : Vector3D α)
    (path : List (Vector3D α)) (distance : α) : PathFinder3D α :=
  let pf1 :=
    if pf.cacheSize ≥ pf.cacheCapacity then
      let newCapacity := pf.cacheCapacity * 2
      let newCache := List.replicate newCapacity PathCacheEntry.empty
      { pf with pathCache := copyCache pf.pathCache pf.cacheSize newCache
                cacheCapacity := newCapacity }
    else pf
  { pf1 with
    pathCache := pf1.pathCache.set pf1.cacheSize
      ((pf1.pathCache.getD pf1.cacheSize PathCacheEntry.empty).storePath path distance)
    cacheSize := pf1.cacheSize + 1 }

/-- Member `PathFinder3D::calculatePathDistance`. -/
def calculatePathDistance (sqrt : α → α) (path : List (Vector3D α)) : α :=
  (List.range' 1 (path.length - 1)).foldl
    (fun total i =>
      total + (path.getD (i - 1) Vector3D.zero).distanceTo sqrt (path.getD i Vector3D.zero)) 0

/-- The 26 offsets in the order of the three nested loops of `getNeighbors`
(`dx` outermost, `dz` innermost, the zero offset skipped). -/
def neighborOffsets : List (Int × Int × Int) :=
  ([-1, 0, 1] : List Int).flatMap fun dx =>
    ([-1, 0, 1] : List Int).flatMap fun dy =>
      ([-1, 0, 1] : List Int).filterMap fun dz =>
        if dx = 0 ∧ dy = 0 ∧ dz = 0 then none else some (dx, dy, dz)

/-- Member `PathFinder3D::getNeighbors`. -/
def PathFinder3D.getNeighbors (pf : PathFinder3D α) (pos : Vector3D α) : List (Vector3D α) :=
  neighborOffsets.filterMap fun d =>
    let next : Vector3D α :=
      ⟨pos.x + (d.1 : α) * pf.gridStep, pos.y + (d.2.1 : α) * pf.gridStep,
       pos.z + (d.2.2 : α) * pf.gridStep⟩
    if !pf.map.isBlocked next 0.5 then some next else none

variable [FloorRing α]

/-- The conversion `(int)` of a `double`: truncation toward zero. -/
def toInt (v : α) : Int := if 0 ≤ v then ⌊v⌋ else ⌈v⌉

/-- Member `PathFinder3D::posKey`; the key string is represented by the three
integers it prints. -/
def posKey (v : Vector3D α) : Int × Int × Int := (toInt v.x, toInt v.y, toInt v.z)

/-- The inner loop of `smoothPath` for the cursor `i`, entered with the
candidate index `j`: the index at which it stops. -/
def smoothInner (sqrt : α → α) (m : Map3D α) (path : List (Vector3D α)) (i : Nat) :
    Nat → Option Nat
  | 0 => some 0
  | j + 1 =>
    if j + 1 > i + 1 then
      match m.isPathClear sqrt (path.getD i Vector3D.zero) (path.getD (j + 1) Vector3D.zero)
          0.5 with
      | none => none
      | some true => some (j + 1)
      | some false => smoothInner sqrt m path i j
    else some (j + 1)

/-- The outer loop of `smoothPath`, entered with cursor `i` and the output
built so far. -/
def smoothOuter (sqrt : α → α) (m : Map3D α) (path : List (Vector3D α)) :
    Nat → Nat → List (Vector3D α) → Option (List (Vector3D α))
  | 0, i, smoothed => if i < path.length - 1 then none else some smoothed
  | fuel + 1, i, smoothed =>
    if i < path.length - 1 then
      match smoothInner sqrt m path i (path.length - 1) with
      | none => none
      | some j =>
        smoothOuter sqrt m path fuel j (smoothed ++ [path.getD j Vector3D.zero])
    else some smoothed

/-- Member `PathFinder3D::smoothPath`; the outer loop gets one round of fuel
for each element of the path. -/
def smoothPath (sqrt : α → α) (m : Map3D α) (path : List (Vector3D α)) :
    Option (List (Vector3D α)) :=
  if path.length ≤ 2 then some path
  else smoothOuter sqrt m path path.length 0 [path.getD 0 Vector3D.zero]

end PathFinder

section FindPath

variable {α : Type} [LinearOrderedField α] [FloorRing α]

/-- The test `closedSet.find(key) != closedSet.end()` on the closed set, kept
as the list of its (key, cost) pairs. -/
def closedContains (closedSet : List ((Int × Int × Int) × α)) (key : Int × Int × Int) : Bool :=
  closedSet.any (fun e => decide (e.1 = key))

/-- The neighbour loop of `findPath` over the remaining neighbours: each one
whose key is not closed is pushed on the open set and appended to
`allNodes`. -/
def exploreNeighbors (pq : PriorityQueue (PathNode α)) (sqrt : α → α) (target : Vector3D α)
    (closedSet : List ((Int × Int × Int) × α)) (current : PathNode α) (currentIdx : Int) :
    List (Vector3D α) → pq.Q → List (PathNode α) → pq.Q × List (PathNode α)
  | [], openSet, allNodes => (openSet, allNodes)
  | neighbor :: rest, openSet, allNodes =>
    let nKey := posKey neighbor
    if closedContains closedSet nKey then
      exploreNeighbors pq sqrt target closedSet current currentIdx rest openSet allNodes
    else
      let newG := current.gCost + current.pos.distanceTo sqrt neighbor
      let newNode : PathNode α := ⟨neighbor, newG, neighbor.distanceTo sqrt target, currentIdx⟩
      exploreNeighbors pq sqrt target closedSet current currentIdx rest
        (pq.push openSet newNode) (allNodes ++ [newNode])

/-- The constant `maxIter` of `findPath`. -/
def maxIter : Nat := 10000

/-- The `while (!openSet.empty() && iterations < maxIter)` loop of `findPath`.
The first argument is the number of rounds still allowed, `maxIter -
iterations`. -/
def searchLoop (pq : PriorityQueue (PathNode α)) (sqrt : α → α) (pf : PathFinder3D α)
    (target : Vector3D α) :
    Nat → Nat → pq.Q → List ((Int × Int × Int) × α) → List (PathNode α) → SearchOutcome α
  | 0, iterations, _, _, _ => SearchOutcome.exhausted iterations
  | left + 1, iterations, openSet, closedSet, allNodes =>
    match pq.pop openSet with
    | none => SearchOutcome.exhausted iterations
    | some (current, openSet1) =>
      let key := posKey current.pos
      if closedContains closedSet key then
        searchLoop pq sqrt pf target left (iterations + 1) openSet1 closedSet allNodes
      else
        let closedSet1 := (key, current.gCost) :: closedSet
        if current.pos.distanceTo sqrt target < pf.gridStep * 1.5 then
          SearchOutcome.accepted current allNodes (iterations + 1)
        else
          let currentIdx : Int := (allNodes.length : Int) - 1
          let next := exploreNeighbors pq sqrt target closedSet1 current currentIdx
            (pf.getNeighbors current.pos) openSet1 allNodes
          searchLoop pq sqrt pf target left (iterations + 1) next.1 closedSet1 next.2

/-- The index at which the reconstruction starts: the first node whose
position `==` the accepted one, the last node when there is none. -/
def startIndex (allNodes : List (PathNode α)) (current : PathNode α) : Int :=
  match allNodes.findIdx? (fun n => n.pos.eq current.pos) with
  | some i => (i : Int)
  | none => (allNodes.length : Int) - 1

/-- The loop `while (idx != -1 && idx < size)` that walks the parent indices,
appending to `path`.  It answers `none` when the fuel runs out before the loop
ends and when `idx` is a negative index other than `-1` (an out-of-bounds
read in the source). -/
def reconstruct (allNodes : List (PathNode α)) :
    Nat → Int → List (Vector3D α) → Option (List (Vector3D α))
  | 0, idx, path => if idx ≠ -1 ∧ idx < (allNodes.length : Int) then none else some path
  | fuel + 1, idx, path =>
    if idx ≠ -1 ∧ idx < (allNodes.length : Int) then
      if idx < 0 then none
      else
        match allNodes.get? idx.toNat with
        | none => none
        | some node => reconstruct allNodes fuel node.parentIdx (path ++ [node.pos])
    else some path

/-- Member `PathFinder3D::findPath`. -/
def PathFinder3D.findPath (pq : PriorityQueue (PathNode α)) (sqrt : α → α)
    (pf : PathFinder3D α) (start target : Vector3D α) : Option (FindResult α) :=
  match pf.map.isPathClear sqrt start target 0.5 with
  | none => none
  | some true =>
    let path := [start, target]
    let dist := start.distanceTo sqrt target
    some ⟨path, 0, pf.addToCache start target path dist⟩
  | some false =>
    let startNode : PathNode α := ⟨start, 0, start.distanceTo sqrt target, -1⟩
    match searchLoop pq sqrt pf target maxIter 0 (pq.push pq.empty startNode) [] [startNode] with
    | SearchOutcome.accepted current allNodes iterations =>
      match reconstruct allNodes allNodes.length (startIndex allNodes current) [] with
      | none => none
      | some walked =>
        let path := walked.reverse ++ [target]
        match smoothPath sqrt pf.map path with
        | none => none
        | some smoothedPath =>
          let dist := calculatePathDistance sqrt smoothedPath
          some ⟨smoothedPath, iterations, pf.addToCache start target smoothedPath dist⟩
    | SearchOutcome.exhausted iterations =>
      let safeAlt := pf.map.getSafeAltitude
      let path := [start, ⟨start.x, start.y, safeAlt⟩, ⟨target.x, target.y, safeAlt⟩, target]
      let dist := calculatePathDistance sqrt path
      some ⟨path, iterations, pf.addToCache start target path dist⟩

/-- A caller that issues the given (start, end) queries in order on one
engine: the engine after the last call and the paths returned, in order. -/
def runQueries (pq : PriorityQueue (PathNode α)) (sqrt : α → α) :
    PathFinder3D α → List (Vector3D α × Vector3D α) →
      Option (PathFinder3D α × List (List (Vector3D α)))
  | pf, [] => some (pf, [])
  | pf, q :: rest =>
    match pf.findPath pq sqrt q.1 q.2 with
    | none => none
    | some r =>
      match runQueries pq sqrt r.finder rest with
      | none => none
      | some out => some (out.1, r.path :: out.2)

end FindPath

/-! ## Predicates used in the statements -/

section Predicates

variable {α : Type} [LinearOrderedField α]

/-- The point lies inside the declared extents of the map: `0 ≤ x < width`,
`0 ≤ y < depth`, `0 ≤ z < height`. -/
def Map3D.inExtents (m : Map3D α) (p : Vector3D α) : Prop :=
  0 ≤ p.x ∧ p.x < (m.width : α) ∧ 0 ≤ p.y ∧ p.y < (m.depth : α) ∧
  0 ≤ p.z ∧ p.z < (m.height : α)

/-- The cache array has `cacheCapacity` slots, of which `cacheSize` are in
use, and the capacity is positive. -/
def PathFinder3D.CacheWF (pf : PathFinder3D α) : Prop :=
  pf.pathCache.length = pf.cacheCapacity ∧ pf.cacheSize ≤ pf.cacheCapacity ∧
  0 < pf.cacheCapacity

/-- What a reader of a cache entry sees: the retrieved waypoints and the
stored distance. -/
def PathCacheEntry.view (e : PathCacheEntry α) : List (Vector3D α) × α :=
  (e.retrievePath, e.totalDistance)

/-- Every recorded parent index is `-1` or the index of an earlier node. -/
def ParentsBelow (allNodes : List (PathNode α)) : Prop :=
  ∀ (k : Nat) (node : PathNode α), allNodes.get? k = some node →
    -1 ≤ node.parentIdx ∧ node.parentIdx < (k : Int)

/-- A hop of a smoothed path: its segment passes the line-of-sight test, or it
joins two neighbouring waypoints of the raw path (which `smoothPath` does not
test). -/
def SmoothHop [FloorRing α] (sqrt : α → α) (m : Map3D α) (raw : List (Vector3D α))
    (p q : Vector3D α) : Prop :=
  m.isPathClear sqrt p q 0.5 = some true ∨
    ∃ k, k + 1 < raw.length ∧ p = raw.getD k Vector3D.zero ∧ q = raw.getD (k + 1) Vector3D.zero

/-- The indices `smoothPath` visits after the cursor `i`: each next index `b`
lies beyond the cursor, every candidate tested before it (the indices above
`b`) failed the line-of-sight test, and `b` itself passed it or is the
untested fall-through `i + 1`; the list ends when the cursor has reached the
last index. -/
def SmoothTrace [FloorRing α] (sqrt : α → α) (m : Map3D α) (path : List (Vector3D α)) :
    Nat → List Nat → Prop
  | i, [] => ¬ i < path.length - 1
  | i, b :: rest =>
    i < path.length - 1 ∧ i < b ∧ b ≤ path.length - 1 ∧
    (∀ j, b < j → j ≤ path.length - 1 →
      m.isPathClear sqrt (path.getD i Vector3D.zero) (path.getD j Vector3D.zero) 0.5
        = some false) ∧
    (b = i + 1 ∨
      m.isPathClear sqrt (path.getD i Vector3D.zero) (path.getD b Vector3D.zero) 0.5
        = some true) ∧
    SmoothTrace sqrt m path b rest

/-- No waypoint of `q` sees a later one other than its successor: every
shortcut `smoothPath` would test on `q` fails. -/
def NoShortcut [FloorRing α] (sqrt : α → α) (m : Map3D α) (q : List (Vector3D α)) : Prop :=
  ∀ t u, t + 1 < u → u < q.length →
    m.isPathClear sqrt (q.getD t Vector3D.zero) (q.getD u Vector3D.zero) 0.5 = some false

/-- The states in which the `while` test of `findPath` is evaluated during the
search from `start` to `target`, as the values of `iterations`, `openSet`,
`closedSet` and `allNodes`: `init` is the state before the first round, `skip`
a round whose popped node has a closed key (the `continue`), and `expand` a
round whose popped node fails the goal test and has its neighbours explored. -/
inductive LoopReaches [FloorRing α] (pq : PriorityQueue (PathNode α)) (sqrt : α → α)
    (pf : PathFinder3D α) (start target : Vector3D α) :
    Nat → pq.Q → List ((Int × Int × Int) × α) → List (PathNode α) → Prop where
  | init : LoopReaches pq sqrt pf start target 0
      (pq.push pq.empty ⟨start, 0, start.distanceTo sqrt target, -1⟩) []
      [⟨start, 0, start.distanceTo sqrt target, -1⟩]
  | skip {iterations : Nat} {openSet : pq.Q} {closedSet : List ((Int × Int × Int) × α)}
      {allNodes : List (PathNode α)} {current : PathNode α} {openSet1 : pq.Q} :
      LoopReaches pq sqrt pf start target iterations openSet closedSet allNodes →
      iterations < maxIter → pq.pop openSet = some (current, openSet1) →
      closedContains closedSet (posKey current.pos) = true →
      LoopReaches pq sqrt pf start target (iterations + 1) openSet1 closedSet allNodes
  | expand {iterations : Nat} {openSet : pq.Q} {closedSet : List ((Int × Int × Int) × α)}
      {allNodes : List (PathNode α)} {current : PathNode α} {openSet1 : pq.Q} :
      LoopReaches pq sqrt pf start target iterations openSet closedSet allNodes →
      iterations < maxIter → pq.pop openSet = some (current, openSet1) →
      closedContains closedSet (posKey current.pos) = false →
      ¬ current.pos.distanceTo sqrt target < pf.gridStep * 1.5 →
      LoopReaches pq sqrt pf start target (iterations + 1)
        (exploreNeighbors pq sqrt target ((posKey current.pos, current.gCost) :: closedSet)
          current ((allNodes.length : Int) - 1) (pf.getNeighbors current.pos) openSet1
          allNodes).1
        ((posKey current.pos, current.gCost) :: closedSet)
        (exploreNeighbors pq sqrt target ((posKey current.pos, current.gCost) :: closedSet)
          current ((allNodes.length : Int) - 1) (pf.getNeighbors current.pos) openSet1
          allNodes).2

end Predicates

/-! ## Battery.h -/

/-- Class `Battery` (the implementation of the interface `PowerSource`).  The
derived class `HighCapacityBattery` is a `Battery(200.0, 0.4, type)` with one
more flag, read by its `getStatus` only; it is not modelled separately. -/
structure Battery (α : Type) where
  capacity : α
  currentCharge : α
  consumptionRate : α
  batteryType : String

/-- A call of one of the two mutating members of `Battery`. -/
inductive BatteryCall (α : Type) where
  | consume (distance : α)
  | recharge

section BatteryOps

variable {α : Type} [LinearOrderedField α]

/-- The constructor `Battery()`. -/
def Battery.default : Battery α := ⟨100.0, 100.0, 0.5, "Li-Ion"⟩

/-- The constructor `Battery(double cap)`. -/
def Battery.ofCapacity (cap : α) : Battery α := ⟨cap, cap, 0.5, "Li-Ion"⟩

/-- The constructor `Battery(double cap, double rate, string type)`. -/
def Battery.new (cap rate : α) (type : String) : Battery α := ⟨cap, cap, rate, type⟩

/-- Member `Battery::getCharge`. -/
def Battery.getCharge (b : Battery α) : α := b.currentCharge

/-- Member `Battery::consume`. -/
def Battery.consume (b : Battery α) (distance : α) : Battery α :=
  let consumption := distance * b.consumptionRate
  { b with currentCharge := max 0.0 (b.currentCharge - consumption) }

/-- Member `Battery::recharge`. -/
def Battery.recharge (b : Battery α) : Battery α :=
  { b with currentCharge := b.capacity }

/-- Member `Battery::isLow`. -/
def Battery.isLow (b : Battery α) : Bool := decide (b.currentCharge < b.capacity * 0.2)

/-- Member `Battery::getStatus`. -/
def Battery.getStatus (b : Battery α) : String :=
  if b.currentCharge > b.capacity * 0.6 then "Good"
  else if b.currentCharge > b.capacity * 0.3 then "Moderate"
  else if b.currentCharge > b.capacity * 0.1 then "Low"
  else "Critical"

/-- Member `Battery::getCapacity`. -/
def Battery.getCapacity (b : Battery α) : α := b.capacity

/-- Member `Battery::getPercentage`. -/
def Battery.getPercentage (b : Battery α) : α := (b.currentCharge / b.capacity) * 100.0

/-- Member `Battery::canTravel`. -/
def Battery.canTravel (b : Battery α) (distance : α) : Bool :=
  decide (b.currentCharge - distance * b.consumptionRate > b.capacity * 0.1)

/-- One call applied to a battery. -/
def Battery.call (b : Battery α) : BatteryCall α → Battery α
  | BatteryCall.consume distance => b.consume distance
  | BatteryCall.recharge => b.recharge

/-- A sequence of calls applied to a battery, in order. -/
def Battery.run (b : Battery α) (calls : List (BatteryCall α)) : Battery α :=
  calls.foldl Battery.call b

end BatteryOps

/-! ## The library heap behind `std::priority_queue`

The order in which `std::priority_queue` returns elements of equal priority is
not fixed by the C++ standard; it follows from the binary heap of the library.
The definitions below follow `bits/stl_heap.h` and `bits/stl_queue.h` of
libstdc++ (GCC 12), specialised to `PathNode` and `greater<PathNode>`. -/

section LibraryHeap

variable {α : Type} [LinearOrderedField α]

/-- The default constructor `PathNode()`. -/
def PathNode.default : PathNode α := ⟨Vector3D.zero, 0, 0, -1⟩

/-- The loop of `std::__push_heap(first, holeIndex, topIndex, value, comp)` in
`bits/stl_heap.h` of libstdc++, which `std::priority_queue::push` runs after
`c.push_back(x)`; `comp` is `greater<PathNode>`, that is `operator>`, and `c`
is the underlying vector.  The hole index decreases in every round, so
`holeIndex` rounds of fuel are enough. -/
def pushHeap (topIndex : Nat) (value : PathNode α) :
    Nat → Nat → List (PathNode α) → List (PathNode α)
  | 0, holeIndex, c => c.set holeIndex value
  | fuel + 1, holeIndex, c =>
    let parent := (holeIndex - 1) / 2
    if holeIndex > topIndex ∧ (c.getD parent PathNode.default).gt value = true then
      pushHeap topIndex value fuel parent (c.set holeIndex (c.getD parent PathNode.default))
    else c.set holeIndex value

/-- The `while (secondChild < (len - 1) / 2)` loop of `std::__adjust_heap`:
the hole moves down to the child that `comp` does not rank above its sibling.
The result is the final hole index, `secondChild` and the vector. -/
def adjustHeapLoop (len : Nat) :
    Nat → Nat → Nat → List (PathNode α) → Nat × Nat × List (PathNode α)
  | 0, holeIndex, secondChild, c => (holeIndex, secondChild, c)
  | fuel + 1, holeIndex, secondChild, c =>
    if secondChild < (len - 1) / 2 then
      let secondChild1 := 2 * (secondChild + 1)
      let secondChild2 :=
        if (c.getD secondChild1 PathNode.default).gt
            (c.getD (secondChild1 - 1) PathNode.default) = true
        then secondChild1 - 1 else secondChild1
      adjustHeapLoop len fuel secondChild2 secondChild2
        (c.set holeIndex (c.getD secondChild2 PathNode.default))
    else (holeIndex, secondChild, c)

end LibraryHeap

/-! ## Rounded arithmetic for `Map3D::isPathClear`

The definitions above compute in an exact ordered field.  The ones below
repeat `Vector3D`, `Obstacle::containsPoint`, `Map3D::isBlocked` and
`Map3D::isPathClear` with every operation rounded as IEEE 754 binary64 rounds
it (round to nearest, ties to even), on the rationals: a `double` is the
rational it denotes.  Each operation of the source is rounded on its own, as
the compiler does when it does not fuse a product with a sum. -/

section RoundedArithmetic

/-- Rounding of a rational to the nearest integer, ties to the even one. -/
def roundHalfEven (q : ℚ) : Int :=
  let f := ⌊q⌋
  let r := q - f
  if r < 1 / 2 then f else if 1 / 2 < r then f + 1 else if f % 2 = 0 then f else f + 1

/-- The value of type `double` (IEEE 754 binary64, round to nearest, ties to
even) that an operation with the exact result `x` returns: `x` is rounded to
53 significant bits.  The exponent range is not modelled, so this is the
value the machine computes for results of magnitude between `2 ^ (-1022)` and
`2 ^ 1024`, and for 0. -/
def roundDouble (x : ℚ) : ℚ :=
  if x = 0 then 0
  else
    let e : Int := Int.log 2 |x|
    let ulp : ℚ := 2 ^ (e - 52)
    (roundHalfEven (x / ulp) : ℚ) * ulp

/-- Function `sqrt` of `<cmath>` on a `double`: the square root rounded to 53
significant bits (0 for arguments that are not positive, which `magnitude`
does not produce). -/
def sqrtDouble (x : ℚ) : ℚ :=
  if x ≤ 0 then 0
  else
    let e : Int := Int.log 2 x / 2
    let ulp : ℚ := 2 ^ (e - 52)
    let s := x / (ulp * ulp)
    let m0 : Nat := Nat.sqrt ⌊s⌋₊
    if s < ((m0 : ℚ) + 1 / 2) ^ 2 then (m0 : ℚ) * ulp else ((m0 : ℚ) + 1) * ulp

/-- Member `operator+` of `Vector3D` in `double` arithmetic. -/
def Vector3D.addD (a v : Vector3D ℚ) : Vector3D ℚ :=
  ⟨roundDouble (a.x + v.x), roundDouble (a.y + v.y), roundDouble (a.z + v.z)⟩

/-- Member `operator-` of `Vector3D` in `double` arithmetic. -/
def Vector3D.subD (a v : Vector3D ℚ) : Vector3D ℚ :=
  ⟨roundDouble (a.x - v.x), roundDouble (a.y - v.y), roundDouble (a.z - v.z)⟩

/-- Member `operator*(double)` of `Vector3D` in `double` arithmetic. -/
def Vector3D.mulD (a : Vector3D ℚ) (scalar : ℚ) : Vector3D ℚ :=
  ⟨roundDouble (a.x * scalar), roundDouble (a.y * scalar), roundDouble (a.z * scalar)⟩

/-- Member `operator/(double)` of `Vector3D` in `double` arithmetic. -/
def Vector3D.divD (a : Vector3D ℚ) (scalar : ℚ) : Vector3D ℚ :=
  ⟨roundDouble (a.x / scalar), roundDouble (a.y / scalar), roundDouble (a.z / scalar)⟩

/-- Member `magnitude` in `double` arithmetic: `sqrt(x*x + y*y + z*z)`, every
product and sum rounded. -/
def Vector3D.magnitudeD (a : Vector3D ℚ) : ℚ :=
  sqrtDouble (roundDouble (roundDouble (roundDouble (a.x * a.x) + roundDouble (a.y * a.y)) +
    roundDouble (a.z * a.z)))

/-- Member `normalize` in `double` arithmetic. -/
def Vector3D.normalizeD (a : Vector3D ℚ) : Vector3D ℚ :=
  let mag := a.magnitudeD
  if mag > 0 then a.divD mag else Vector3D.zero

/-- Member `Obstacle::containsPoint(p, margin)` in `double` arithmetic. -/
def Obstacle.containsPointD (o : Obstacle ℚ) (p : Vector3D ℚ) (margin : ℚ) : Bool :=
  decide (p.x ≥ roundDouble (o.position.x - margin)) &&
  decide (p.x ≤ roundDouble (roundDouble (o.position.x + o.length) + margin)) &&
  decide (p.y ≥ roundDouble (o.position.y - margin)) &&
  decide (p.y ≤ roundDouble (roundDouble (o.position.y + o.width) + margin)) &&
  decide (p.z ≥ roundDouble (o.position.z - margin)) &&
  decide (p.z ≤ roundDouble (roundDouble (o.position.z + o.height) + margin))

/-- Member `Map3D::isBlocked(point, margin)` in `double` arithmetic; the `int`
extents convert to `double` without rounding. -/
def Map3D.isBlockedD (m : Map3D ℚ) (point : Vector3D ℚ) (margin : ℚ) : Bool :=
  if point.x < 0 ∨ point.x ≥ (m.width : ℚ) ∨
     point.y < 0 ∨ point.y ≥ (m.depth : ℚ) ∨
     point.z < 0 ∨ point.z ≥ (m.height : ℚ) then true
  else m.obstacles.any (fun obs => obs.containsPointD point margin)

/-- The loop of `Map3D::isPathClear` in `double` arithmetic: the sample is
`from + unitDir * t` with the product and the sum rounded, and `t += step` is
rounded. -/
def Map3D.isPathClearLoopD (m : Map3D ℚ) (src unitDir : Vector3D ℚ) (dist step : ℚ) :
    Nat → ℚ → Option Bool
  | 0, t => if t ≤ dist then none else some true
  | fuel + 1, t =>
    if t ≤ dist then
      let point := src.addD (unitDir.mulD t)
      if m.isBlockedD point 0.5 then some false
      else Map3D.isPathClearLoopD m src unitDir dist step fuel (roundDouble (t + step))
    else some true

/-- Member `Map3D::isPathClear(from, to, step)` in `double` arithmetic.  The
literal `0.01` is the `double` nearest to 1/100; `0.5` is a `double`.  The
loop gets `⌊dist / step⌋ + 1` rounds of fuel, the number of samples when the
values of `t` are computed without rounding error, as they are for the step
`0.5` that every caller passes. -/
def Map3D.isPathClearD (m : Map3D ℚ) (src dst : Vector3D ℚ) (step : ℚ) : Option Bool :=
  let dir := dst.subD src
  let dist := dir.magnitudeD
  if dist < roundDouble 0.01 then some true
  else
    let unitDir := dir.normalizeD
    m.isPathClearLoopD src unitDir dist step (⌊dist / step⌋₊ + 1) 0

end RoundedArithmetic

/-! ## Path length and cache entries -/

section EntryTheorems

variable {α : Type} [LinearOrderedField α]

theorem foldl_add_eq_sum {β : Type} (f : β → α) (l : List β) (a : α) :
    l.foldl (fun total i => total + f i) a = a + (l.map f).sum := by
  induction l generalizing a with
  | nil => simp
  | cons b l ih => simp [ih, add_assoc]

theorem foldl_add_nonneg {β : Type} (f : β → α) (hf : ∀ b, 0 ≤ f b) (l : List β) (a : α)
    (ha : 0 ≤ a) : 0 ≤ l.foldl (fun total i => total + f i) a := by
  induction l generalizing a with
  | nil => simpa
  | cons b l ih => exact ih _ (add_nonneg ha (hf b))

theorem sum_map_range (g : Nat → α) (n : Nat) :
    ((List.range n).map g).sum = ∑ i in Finset.range n, g i := by
  induction n with
  | zero => simp
  | succ n ih => simp [List.range_succ, Finset.sum_range_succ, ih]

theorem calculatePathDistance_eq_sum (sqrt : α → α) (path : List (Vector3D α)) :
    calculatePathDistance sqrt path =
      ∑ i in Finset.Ico 1 path.length,
        (path.getD (i - 1) Vector3D.zero).distanceTo sqrt (path.getD i Vector3D.zero) := by
  unfold calculatePathDistance
  rw [foldl_add_eq_sum (fun i => (path.getD (i - 1) Vector3D.zero).distanceTo sqrt
    (path.getD i Vector3D.zero))]
  rw [zero_add, Finset.sum_Ico_eq_sum_range, List.range'_eq_map_range, List.map_map,
    sum_map_range]
  rfl

/-- C10: `calculatePathDistance` is the sum of the distances between consecutive
waypoints, it is 0 for a path of fewer than two points, and it is non-negative
(for a square root with non-negative values). -/
theorem calculatePathDistance_spec (sqrt : α → α) (hsqrt : ∀ v, 0 ≤ sqrt v)
    (path : List (Vector3D α)) :
    calculatePathDistance sqrt path =
        ∑ i in Finset.Ico 1 path.length,
          (path.getD (i - 1) Vector3D.zero).distanceTo sqrt (path.getD i Vector3D.zero) ∧
      (path.length < 2 → calculatePathDistance sqrt path = 0) ∧
      0 ≤ calculatePathDistance sqrt path := by
  refine ⟨calculatePathDistance_eq_sum sqrt path, ?_, ?_⟩
  · intro h
    rw [calculatePathDistance_eq_sum, Finset.Ico_eq_empty (by omega), Finset.sum_empty]
  · exact foldl_add_nonneg _ (fun i => hsqrt _) _ 0 le_rfl

/-- The statement of C10 at a concrete path over the reals: the legs have
lengths 5 and 12. -/
theorem calculatePathDistance_spec_witness :
    (∀ v : ℝ, 0 ≤ Real.sqrt v) ∧
    calculatePathDistance Real.sqrt [(⟨0, 0, 0⟩ : Vector3D ℝ), ⟨3, 4, 0⟩, ⟨3, 4, 12⟩] = 17 := by
  refine ⟨Real.sqrt_nonneg, ?_⟩
  have h := (calculatePathDistance_spec Real.sqrt Real.sqrt_nonneg
    [(⟨0, 0, 0⟩ : Vector3D ℝ), ⟨3, 4, 0⟩, ⟨3, 4, 12⟩]).1
  have h5 : Real.sqrt (3 ^ 2 + 4 ^ 2) = 5 := by
    rw [show (3 : ℝ) ^ 2 + 4 ^ 2 = 5 ^ 2 by norm_num]
    exact Real.sqrt_sq (by norm_num)
  rw [h]
  simp [Finset.sum_Ico_eq_sum_range, Finset.sum_range_succ, Vector3D.distanceTo, h5]
  norm_num

theorem copyWaypoints_getD (src : List (Vector3D α)) (count i : Nat) (h : i < count) :
    (copyWaypoints src count).getD i Vector3D.zero = src.getD i Vector3D.zero := by
  simp [copyWaypoints, List.getD_eq_getElem?_getD, List.getElem?_map, List.getElem?_range h]

theorem copyWaypoints_length_self (p : List (Vector3D α)) : copyWaypoints p p.length = p := by
  apply List.ext_getElem
  · simp [copyWaypoints]
  · intro i h1 h2
    simp [copyWaypoints, List.getD_eq_getElem?_getD, List.getElem?_eq_getElem h2]

theorem retrievePath_storePath (e : PathCacheEntry α) (p : List (Vector3D α)) (d : α) :
    (e.storePath p d).retrievePath = p := by
  unfold PathCacheEntry.storePath PathCacheEntry.retrievePath
  cases p with
  | nil => simp
  | cons a t =>
    have h := copyWaypoints_length_self (a :: t)
    simp only [List.length_cons, Nat.succ_pos, ↓reduceIte, gt_iff_lt, Option.getD_some] at h ⊢
    rw [h]
    exact h

theorem retrievePath_copy_aux (w : Option (List (Vector3D α))) (count : Nat) :
    (List.range count).map (fun i =>
        ((match w with
          | some w => if count > 0 then some (copyWaypoints w count) else none
          | none => none).getD []).getD i Vector3D.zero) =
      (List.range count).map (fun i => (w.getD []).getD i Vector3D.zero) := by
  apply List.map_congr_left
  intro i hi
  have hi2 : i < count := List.mem_range.mp hi
  cases w with
  | none => rfl
  | some w =>
    have hc : count > 0 := by omega
    simp only [hc, ↓reduceIte, Option.getD_some]
    exact copyWaypoints_getD w count i hi2

theorem retrievePath_copy (e : PathCacheEntry α) : e.copy.retrievePath = e.retrievePath :=
  retrievePath_copy_aux e.waypoints e.waypointCount

theorem retrievePath_assign (s e : PathCacheEntry α) :
    (s.assign e).retrievePath = e.retrievePath :=
  retrievePath_copy_aux e.waypoints e.waypointCount

/-- C8: `storePath(p, d)` followed by `retrievePath()` gives back `p`, with
`waypointCount = |p|` and `totalDistance = d`, whatever the entry held before;
a copy-constructed or assigned entry retrieves the same sequence and distance
as its source. -/
theorem cacheEntry_roundtrip (e s : PathCacheEntry α) (p : List (Vector3D α)) (d : α) :
    (e.storePath p d).retrievePath = p ∧
    (e.storePath p d).waypointCount = p.length ∧
    (e.storePath p d).totalDistance = d ∧
    e.copy.retrievePath = e.retrievePath ∧ e.copy.totalDistance = e.totalDistance ∧
    (s.assign e).retrievePath = e.retrievePath ∧ (s.assign e).totalDistance = e.totalDistance :=
  ⟨retrievePath_storePath e p d, rfl, rfl, retrievePath_copy e, rfl, retrievePath_assign s e, rfl⟩
end EntryTheorems

/-! ## Termination of the loops and the shape of the result -/

section Termination

variable {α : Type} [LinearOrderedField α]

theorem isPathClearLoop_terminates (m : Map3D α) (src unitDir : Vector3D α) (dist step : α) :
    ∀ (fuel : Nat) (t : α), dist < t + fuel * step →
      ∃ b, m.isPathClearLoop src unitDir dist step fuel t = some b := by
  intro fuel
  induction fuel with
  | zero =>
    intro t h
    simp only [Nat.cast_zero, zero_mul, add_zero] at h
    exact ⟨true, by simp [Map3D.isPathClearLoop, not_le.mpr h]⟩
  | succ fuel ih =>
    intro t h
    unfold Map3D.isPathClearLoop
    by_cases ht : t ≤ dist
    · simp only [ht, ↓reduceIte]
      by_cases hb : m.isBlocked (src.add (unitDir.mul t)) 0.5 = true
      · exact ⟨false, by simp [hb]⟩
      · simp only [hb]
        apply ih
        push_cast at h
        linarith
    · exact ⟨true, by simp [ht]⟩

variable [FloorRing α]

theorem isPathClear_terminates (sqrt : α → α) (m : Map3D α) (src dst : Vector3D α) (step : α)
    (hstep : 0 < step) : ∃ b, m.isPathClear sqrt src dst step = some b := by
  unfold Map3D.isPathClear
  by_cases hd : (dst.sub src).magnitude sqrt < 0.01
  · exact ⟨true, by simp [hd]⟩
  · simp only [hd, ↓reduceIte]
    apply isPathClearLoop_terminates m
    have h1 := Nat.lt_floor_add_one ((dst.sub src).magnitude sqrt / step)
    rw [div_lt_iff₀ hstep] at h1
    push_cast
    linarith

omit [FloorRing α] in
theorem half_pos_lit : (0 : α) < 0.5 := by norm_num

theorem smoothInner_spec (sqrt : α → α) (m : Map3D α) (path : List (Vector3D α)) (i : Nat) :
    ∀ j, i < j → ∃ k, smoothInner sqrt m path i j = some k ∧ i < k ∧ k ≤ j ∧
      (k = i + 1 ∨ m.isPathClear sqrt (path.getD i Vector3D.zero) (path.getD k Vector3D.zero) 0.5
        = some true) := by
  intro j
  induction j with
  | zero => intro h; omega
  | succ j ih =>
    intro h
    unfold smoothInner
    by_cases hj : j + 1 > i + 1
    · simp only [hj, ↓reduceIte]
      obtain ⟨b, hb⟩ := isPathClear_terminates sqrt m (path.getD i Vector3D.zero)
        (path.getD (j + 1) Vector3D.zero) 0.5 half_pos_lit
      rw [hb]
      cases b with
      | true => exact ⟨j + 1, rfl, h, le_rfl, Or.inr hb⟩
      | false =>
        obtain ⟨k, hk, h1, h2, h3⟩ := ih (by omega)
        exact ⟨k, hk, h1, by omega, h3⟩
    · simp only [hj, ↓reduceIte]
      exact ⟨j + 1, rfl, h, le_rfl, Or.inl (by omega)⟩

theorem smoothOuter_terminates (sqrt : α → α) (m : Map3D α) (path : List (Vector3D α)) :
    ∀ (fuel i : Nat) (sm : List (Vector3D α)), path.length - 1 - i ≤ fuel →
      ∃ out, smoothOuter sqrt m path fuel i sm = some out ∧ sm.length ≤ out.length ∧
        (i < path.length - 1 → sm.length < out.length) := by
  intro fuel
  induction fuel with
  | zero =>
    intro i sm h
    have : ¬ i < path.length - 1 := by omega
    exact ⟨sm, by simp [smoothOuter, this], le_rfl, fun h => absurd h this⟩
  | succ fuel ih =>
    intro i sm h
    unfold smoothOuter
    by_cases hi : i < path.length - 1
    · simp only [hi, ↓reduceIte]
      obtain ⟨j, hj, h1, h2, _⟩ := smoothInner_spec sqrt m path i (path.length - 1) hi
      rw [hj]
      obtain ⟨out, ho, hl, _⟩ := ih j (sm ++ [path.getD j Vector3D.zero]) (by omega)
      simp only [List.length_append, List.length_singleton] at hl
      exact ⟨out, ho, by omega, fun _ => by omega⟩
    · exact ⟨sm, by simp [hi], le_rfl, fun h => absurd h hi⟩

theorem smoothPath_terminates (sqrt : α → α) (m : Map3D α) (path : List (Vector3D α)) :
    ∃ out, smoothPath sqrt m path = some out ∧ (2 ≤ path.length → 2 ≤ out.length) ∧
      (path.length ≤ 2 → out = path) := by
  unfold smoothPath
  by_cases h : path.length ≤ 2
  · exact ⟨path, by simp [h], fun h => h, fun _ => rfl⟩
  · simp only [h, ↓reduceIte]
    obtain ⟨out, ho, _, hl⟩ := smoothOuter_terminates sqrt m path path.length 0
      [path.getD 0 Vector3D.zero] (by omega)
    have := hl (by omega)
    simp only [List.length_singleton] at this
    exact ⟨out, ho, fun _ => by omega, fun h2 => by simp_all⟩


omit [LinearOrderedField α] [FloorRing α] in
theorem parentsBelow_append (allNodes : List (PathNode α)) (node : PathNode α)
    (h : ParentsBelow allNodes) (h1 : -1 ≤ node.parentIdx)
    (h2 : node.parentIdx < (allNodes.length : Int)) : ParentsBelow (allNodes ++ [node]) := by
  intro k n hk
  by_cases hlt : k < allNodes.length
  · rw [List.get?_eq_getElem?, List.getElem?_append_left hlt] at hk
    exact h k n (by rw [List.get?_eq_getElem?]; exact hk)
  · rw [List.get?_eq_getElem?, List.getElem?_append_right (by omega)] at hk
    have hk0 : k - allNodes.length = 0 := by
      by_contra hne
      rw [List.getElem?_eq_none (by simp; omega)] at hk
      cases hk
    rw [hk0] at hk
    simp only [List.getElem?_cons_zero, Option.some.injEq] at hk
    subst hk
    exact ⟨h1, by omega⟩

theorem exploreNeighbors_parentsBelow (pq : PriorityQueue (PathNode α)) (sqrt : α → α)
    (target : Vector3D α) (closedSet : List ((Int × Int × Int) × α)) (current : PathNode α)
    (currentIdx : Int) (h1 : -1 ≤ currentIdx) :
    ∀ (nbs : List (Vector3D α)) (openSet : pq.Q) (allNodes : List (PathNode α)),
      ParentsBelow allNodes → currentIdx < (allNodes.length : Int) →
      ParentsBelow (exploreNeighbors pq sqrt target closedSet current currentIdx nbs openSet
        allNodes).2 ∧
      allNodes.length ≤ (exploreNeighbors pq sqrt target closedSet current currentIdx nbs openSet
        allNodes).2.length := by
  intro nbs
  induction nbs with
  | nil => intro openSet allNodes h _; exact ⟨h, le_rfl⟩
  | cons nb rest ih =>
    intro openSet allNodes h h2
    unfold exploreNeighbors
    by_cases hc : closedContains closedSet (posKey nb) = true
    · simp only [hc, ↓reduceIte]
      exact ih openSet allNodes h h2
    · simp only [hc]
      have := ih (pq.push openSet ⟨nb, current.gCost + current.pos.distanceTo sqrt nb,
          nb.distanceTo sqrt target, currentIdx⟩)
        (allNodes ++ [⟨nb, current.gCost + current.pos.distanceTo sqrt nb,
          nb.distanceTo sqrt target, currentIdx⟩])
        (parentsBelow_append _ _ h h1 h2) (by simp; omega)
      refine ⟨this.1, ?_⟩
      have h3 := this.2
      simp only [List.length_append, List.length_singleton] at h3
      exact Nat.le_of_succ_le h3

theorem searchLoop_accepted_inv (pq : PriorityQueue (PathNode α)) (sqrt : α → α)
    (pf : PathFinder3D α) (target : Vector3D α) :
    ∀ (left iterations : Nat) (openSet : pq.Q) (closedSet : List ((Int × Int × Int) × α))
      (allNodes : List (PathNode α)) (current : PathNode α) (nodes : List (PathNode α))
      (it : Nat),
      ParentsBelow allNodes → allNodes ≠ [] →
      searchLoop pq sqrt pf target left iterations openSet closedSet allNodes =
        SearchOutcome.accepted current nodes it →
      ParentsBelow nodes ∧ nodes ≠ [] := by
  intro left
  induction left with
  | zero =>
    intro iterations openSet closedSet allNodes current nodes it _ _ h
    simp [searchLoop] at h
  | succ left ih =>
    intro iterations openSet closedSet allNodes current nodes it hp hne h
    unfold searchLoop at h
    cases hpop : pq.pop openSet with
    | none => simp [hpop] at h
    | some top =>
      obtain ⟨cur, open1⟩ := top
      simp only [hpop] at h
      by_cases hc : closedContains closedSet (posKey cur.pos) = true
      · simp only [hc, ↓reduceIte] at h
        exact ih _ _ _ _ _ _ _ hp hne h
      · simp only [hc] at h
        by_cases hg : cur.pos.distanceTo sqrt target < pf.gridStep * 1.5
        · simp only [hg, ↓reduceIte] at h
          simp only [Bool.false_eq_true, ↓reduceIte, SearchOutcome.accepted.injEq] at h
          obtain ⟨_, h2, _⟩ := h
          subst h2
          exact ⟨hp, hne⟩
        · simp only [hg, ↓reduceIte, Bool.false_eq_true] at h
          have hlen : 0 < allNodes.length := List.length_pos.mpr hne
          have hx := exploreNeighbors_parentsBelow pq sqrt target
            ((posKey cur.pos, cur.gCost) :: closedSet) cur ((allNodes.length : Int) - 1)
            (by omega) (pf.getNeighbors cur.pos) open1 allNodes hp (by omega)
          refine ih _ _ _ _ _ _ _ hx.1 ?_ h
          intro hnil
          have := hx.2
          rw [hnil] at this
          exact hne (List.eq_nil_of_length_eq_zero (Nat.le_zero.mp this))

omit [LinearOrderedField α] [FloorRing α] in
theorem reconstruct_terminates (allNodes : List (PathNode α)) (hp : ParentsBelow allNodes) :
    ∀ (fuel : Nat) (idx : Int) (path : List (Vector3D α)), -1 ≤ idx → idx < (fuel : Int) →
      ∃ out, reconstruct allNodes fuel idx path = some out ∧ path.length ≤ out.length ∧
        (0 ≤ idx → idx < (allNodes.length : Int) → path.length < out.length) := by
  intro fuel
  induction fuel with
  | zero =>
    intro idx path h1 h2
    have : idx = -1 := by omega
    subst this
    exact ⟨path, by simp [reconstruct], le_rfl, fun h => by omega⟩
  | succ fuel ih =>
    intro idx path h1 h2
    unfold reconstruct
    by_cases hc : idx ≠ -1 ∧ idx < (allNodes.length : Int)
    · have h0 : ¬ idx < 0 := by omega
      have hlt : idx.toNat < allNodes.length := by omega
      have hget : allNodes.get? idx.toNat = some (allNodes.get ⟨idx.toNat, hlt⟩) :=
        List.get?_eq_get hlt
      rw [if_pos hc, if_neg h0, hget]
      have hpb := hp _ _ hget
      obtain ⟨out, ho, hl, _⟩ := ih (allNodes.get ⟨idx.toNat, hlt⟩).parentIdx
        (path ++ [(allNodes.get ⟨idx.toNat, hlt⟩).pos]) hpb.1 (by omega)
      simp only [List.length_append, List.length_singleton] at hl
      exact ⟨out, ho, by omega, fun _ _ => by omega⟩
    · rw [if_neg hc]
      exact ⟨path, rfl, le_rfl, fun h3 h4 => absurd ⟨by omega, h4⟩ hc⟩

omit [FloorRing α] in
theorem startIndex_bounds (allNodes : List (PathNode α)) (current : PathNode α)
    (hne : allNodes ≠ []) :
    0 ≤ startIndex allNodes current ∧ startIndex allNodes current < (allNodes.length : Int) := by
  unfold startIndex
  have hlen : 0 < allNodes.length := List.length_pos.mpr hne
  cases h : allNodes.findIdx? (fun n => n.pos.eq current.pos) with
  | none => simp only; omega
  | some i =>
    obtain ⟨hi, _⟩ := List.findIdx?_eq_some_iff_getElem.mp h
    simp only
    omega


omit [LinearOrderedField α] [FloorRing α] in
theorem parentsBelow_start (startNode : PathNode α) (h : startNode.parentIdx = -1) :
    ParentsBelow [startNode] := by
  intro k n hk
  cases k with
  | zero =>
    simp only [List.get?_cons_zero, Option.some.injEq] at hk
    subst hk
    rw [h]
    exact ⟨le_rfl, by norm_num⟩
  | succ k => simp at hk

end Termination

/-! ## The direct branch, the cache and its independence from the result -/

section DirectAndCache

variable {α : Type} [LinearOrderedField α]

theorem convex_bounds (a b lam lo hi : α) (h0 : 0 ≤ lam) (h1 : lam ≤ 1)
    (ha : lo ≤ a) (hb : lo ≤ b) (ha2 : a < hi) (hb2 : b < hi) :
    lo ≤ a + (b - a) * lam ∧ a + (b - a) * lam < hi := by
  rcases le_total a b with hab | hab
  · have h2 : 0 ≤ (b - a) * lam := mul_nonneg (by linarith) h0
    have h3 : (b - a) * lam ≤ (b - a) * 1 := mul_le_mul_of_nonneg_left h1 (by linarith)
    constructor <;> linarith
  · have h2 : (b - a) * lam ≤ 0 := mul_nonpos_of_nonpos_of_nonneg (by linarith) h0
    have h3 : (a - b) * lam ≤ (a - b) * 1 := mul_le_mul_of_nonneg_left h1 (by linarith)
    have h4 : (b - a) * lam = -((a - b) * lam) := by ring
    constructor <;> linarith

theorem isBlocked_of_inExtents (m : Map3D α) (hobs : m.obstacles = []) (p : Vector3D α)
    (margin : α) (hp : m.inExtents p) : m.isBlocked p margin = false := by
  obtain ⟨h1, h2, h3, h4, h5, h6⟩ := hp
  unfold Map3D.isBlocked
  rw [if_neg (by
    simp only [not_or, not_lt, ge_iff_le, not_le]
    exact ⟨h1, h2, h3, h4, h5, h6⟩), hobs]
  rfl

theorem isPathClearLoop_unblocked (m : Map3D α) (src unitDir : Vector3D α) (dist step : α)
    (hstep : 0 ≤ step)
    (hfree : ∀ t, 0 ≤ t → t ≤ dist → m.isBlocked (src.add (unitDir.mul t)) 0.5 = false) :
    ∀ (fuel : Nat) (t : α), 0 ≤ t →
      m.isPathClearLoop src unitDir dist step fuel t ≠ some false := by
  intro fuel
  induction fuel with
  | zero =>
    intro t _
    unfold Map3D.isPathClearLoop
    split <;> simp
  | succ fuel ih =>
    intro t ht
    unfold Map3D.isPathClearLoop
    by_cases hd : t ≤ dist
    · rw [if_pos hd]
      simp only [hfree t ht hd, Bool.false_eq_true, ↓reduceIte]
      exact ih _ (by linarith)
    · rw [if_neg hd]
      simp

variable [FloorRing α]

theorem isPathClear_of_inExtents (sqrt : α → α) (m : Map3D α) (hobs : m.obstacles = [])
    (src dst : Vector3D α) (hs : m.inExtents src) (hd : m.inExtents dst) :
    m.isPathClear sqrt src dst 0.5 = some true := by
  obtain ⟨b, hb⟩ := isPathClear_terminates sqrt m src dst 0.5 half_pos_lit
  cases b with
  | true => exact hb
  | false =>
    exfalso
    unfold Map3D.isPathClear at hb
    by_cases hlt : (dst.sub src).magnitude sqrt < 0.01
    · simp [hlt] at hb
    · simp only [hlt, ↓reduceIte] at hb
      have hpos : 0 < (dst.sub src).magnitude sqrt := by
        have : (0.01 : α) ≤ (dst.sub src).magnitude sqrt := not_lt.mp hlt
        have h2 : (0 : α) < 0.01 := by norm_num
        linarith
      have hn : (dst.sub src).normalize sqrt =
          (dst.sub src).div ((dst.sub src).magnitude sqrt) := by
        unfold Vector3D.normalize
        exact if_pos hpos
      rw [hn] at hb
      generalize (dst.sub src).magnitude sqrt = d at hb hpos
      refine isPathClearLoop_unblocked m src _ _ 0.5 (by norm_num) ?_ _ 0 le_rfl hb
      intro t ht0 ht1
      apply isBlocked_of_inExtents m hobs
      have hl0 : 0 ≤ t / d := div_nonneg ht0 hpos.le
      have hl1 : t / d ≤ 1 := (div_le_one hpos).mpr ht1
      obtain ⟨s1, s2, s3, s4, s5, s6⟩ := hs
      obtain ⟨d1, d2, d3, d4, d5, d6⟩ := hd
      have hx := convex_bounds src.x dst.x _ 0 m.width hl0 hl1 s1 d1 s2 d2
      have hy := convex_bounds src.y dst.y _ 0 m.depth hl0 hl1 s3 d3 s4 d4
      have hz := convex_bounds src.z dst.z _ 0 m.height hl0 hl1 s5 d5 s6 d6
      have e : ∀ a b : α, a + (b - a) / d * t = a + (b - a) * (t / d) := by
        intro a b; ring
      simp only [Map3D.inExtents, Vector3D.add, Vector3D.mul, Vector3D.div, Vector3D.sub, e]
      exact ⟨hx.1, hx.2, hy.1, hy.2, hz.1, hz.2⟩


omit [FloorRing α] in
theorem copyCache_succ (old : List (PathCacheEntry α)) (n : Nat) (nc : List (PathCacheEntry α)) :
    copyCache old (n + 1) nc =
      (copyCache old n nc).set n (((copyCache old n nc).getD n PathCacheEntry.empty).assign
        (old.getD n PathCacheEntry.empty)) := by
  simp [copyCache, List.range_succ, List.foldl_append]

omit [FloorRing α] in
theorem copyCache_length (old : List (PathCacheEntry α)) (n : Nat) (nc : List (PathCacheEntry α)) :
    (copyCache old n nc).length = nc.length := by
  induction n with
  | zero => simp [copyCache]
  | succ n ih => rw [copyCache_succ, List.length_set, ih]

omit [FloorRing α] in
theorem copyCache_getD_ge (old : List (PathCacheEntry α)) (n : Nat) (nc : List (PathCacheEntry α))
    (i : Nat) (hi : n ≤ i) :
    (copyCache old n nc).getD i PathCacheEntry.empty = nc.getD i PathCacheEntry.empty := by
  induction n with
  | zero => simp [copyCache]
  | succ n ih =>
    rw [copyCache_succ, List.getD_eq_getElem?_getD, List.getElem?_set_ne (by omega),
      ← List.getD_eq_getElem?_getD, ih (by omega)]

omit [FloorRing α] in
theorem copyCache_getD_lt (old : List (PathCacheEntry α)) (n : Nat) (nc : List (PathCacheEntry α))
    (hn : n ≤ nc.length) (i : Nat) (hi : i < n) :
    ((copyCache old n nc).getD i PathCacheEntry.empty).view =
      (old.getD i PathCacheEntry.empty).view := by
  induction n with
  | zero => omega
  | succ n ih =>
    rw [copyCache_succ, List.getD_eq_getElem?_getD]
    by_cases hin : i = n
    · subst hin
      rw [List.getElem?_set_self (by rw [copyCache_length]; omega)]
      simp only [Option.getD_some, PathCacheEntry.view, retrievePath_assign]
      rfl
    · rw [List.getElem?_set_ne (by omega), ← List.getD_eq_getElem?_getD]
      exact ih (by omega) (by omega)

omit [FloorRing α] in
theorem addToCache_cacheSize (pf : PathFinder3D α) (s e : Vector3D α) (p : List (Vector3D α))
    (d : α) : (pf.addToCache s e p d).cacheSize = pf.cacheSize + 1 := by
  unfold PathFinder3D.addToCache
  split <;> rfl

omit [FloorRing α] in
theorem addToCache_map (pf : PathFinder3D α) (s e : Vector3D α) (p : List (Vector3D α))
    (d : α) : (pf.addToCache s e p d).map = pf.map ∧
      (pf.addToCache s e p d).gridStep = pf.gridStep := by
  unfold PathFinder3D.addToCache
  split <;> exact ⟨rfl, rfl⟩

omit [FloorRing α] in
theorem addToCache_cacheCapacity (pf : PathFinder3D α) (s e : Vector3D α)
    (p : List (Vector3D α)) (d : α) :
    (pf.addToCache s e p d).cacheCapacity =
      if pf.cacheSize ≥ pf.cacheCapacity then pf.cacheCapacity * 2 else pf.cacheCapacity := by
  unfold PathFinder3D.addToCache
  split <;> rfl

omit [FloorRing α] in
theorem addToCache_view (pf : PathFinder3D α) (hwf : pf.CacheWF) (s e : Vector3D α)
    (p : List (Vector3D α)) (d : α) :
    (pf.addToCache s e p d).CacheWF ∧
    (∀ i, i < pf.cacheSize →
      ((pf.addToCache s e p d).pathCache.getD i PathCacheEntry.empty).view =
        (pf.pathCache.getD i PathCacheEntry.empty).view) ∧
    ((pf.addToCache s e p d).pathCache.getD pf.cacheSize PathCacheEntry.empty).view = (p, d) := by
  obtain ⟨h1, h2, h3⟩ := hwf
  unfold PathFinder3D.addToCache
  by_cases hg : pf.cacheSize ≥ pf.cacheCapacity
  · simp only [hg, ↓reduceIte]
    have hlen : (copyCache pf.pathCache pf.cacheSize
        (List.replicate (pf.cacheCapacity * 2) PathCacheEntry.empty)).length =
        pf.cacheCapacity * 2 := by
      rw [copyCache_length, List.length_replicate]
    refine ⟨⟨by dsimp only; rw [List.length_set, hlen], by dsimp only; omega,
      by dsimp only; omega⟩, ?_, ?_⟩
    · intro i hi
      rw [List.getD_eq_getElem?_getD, List.getElem?_set_ne (by omega),
        ← List.getD_eq_getElem?_getD]
      exact copyCache_getD_lt _ _ _ (by rw [List.length_replicate]; omega) i hi
    · rw [List.getD_eq_getElem?_getD, List.getElem?_set_self (by rw [hlen]; omega)]
      simp only [Option.getD_some, PathCacheEntry.view, retrievePath_storePath]
      rfl
  · simp only [hg, ↓reduceIte]
    refine ⟨⟨by dsimp only; rw [List.length_set, h1], by dsimp only; omega, h3⟩, ?_, ?_⟩
    · intro i hi
      rw [List.getD_eq_getElem?_getD, List.getElem?_set_ne (by omega),
        ← List.getD_eq_getElem?_getD]
    · rw [List.getD_eq_getElem?_getD, List.getElem?_set_self (by omega)]
      simp only [Option.getD_some, PathCacheEntry.view, retrievePath_storePath]
      rfl

omit [FloorRing α] in
theorem cacheWF_new (m : Map3D α) (step : α) : (PathFinder3D.new m step).CacheWF := by
  refine ⟨?_, ?_, ?_⟩ <;> simp [PathFinder3D.new]


omit [FloorRing α] in
theorem calculatePathDistance_pair (sqrt : α → α) (a b : Vector3D α) :
    calculatePathDistance sqrt [a, b] = a.distanceTo sqrt b := by
  simp [calculatePathDistance]

theorem findPath_finder (pq : PriorityQueue (PathNode α)) (sqrt : α → α)
    (pf : PathFinder3D α) (start target : Vector3D α) :
    ∃ r, pf.findPath pq sqrt start target = some r ∧ 2 ≤ r.path.length ∧
      r.finder = pf.addToCache start target r.path (calculatePathDistance sqrt r.path) := by
  unfold PathFinder3D.findPath
  obtain ⟨b, hb⟩ := isPathClear_terminates sqrt pf.map start target 0.5 half_pos_lit
  rw [hb]
  cases b with
  | true => exact ⟨_, rfl, by simp, by simp only [calculatePathDistance_pair]⟩
  | false =>
    simp only
    cases hs : searchLoop pq sqrt pf target maxIter 0
        (pq.push pq.empty ⟨start, 0, start.distanceTo sqrt target, -1⟩) []
        [⟨start, 0, start.distanceTo sqrt target, -1⟩] with
    | exhausted it => exact ⟨_, rfl, by simp, rfl⟩
    | accepted current allNodes it =>
      simp only
      obtain ⟨hp, hne⟩ := searchLoop_accepted_inv pq sqrt pf target _ _ _ _ _ _ _ _
        (parentsBelow_start _ rfl) (by simp) hs
      obtain ⟨h0, h1⟩ := startIndex_bounds allNodes current hne
      obtain ⟨walked, hw, _, hwl⟩ := reconstruct_terminates allNodes hp allNodes.length
        (startIndex allNodes current) [] (by omega) h1
      have hwl2 := hwl h0 h1
      simp only [List.length_nil] at hwl2
      rw [hw]
      simp only
      obtain ⟨out, ho, hol, _⟩ := smoothPath_terminates sqrt pf.map (walked.reverse ++ [target])
      rw [ho]
      have : 2 ≤ out.length := hol (by simp; omega)
      exact ⟨_, rfl, this, rfl⟩

omit [FloorRing α] in
theorem getNeighbors_congr (pf pf2 : PathFinder3D α) (hm : pf.map = pf2.map)
    (hg : pf.gridStep = pf2.gridStep) (pos : Vector3D α) :
    pf.getNeighbors pos = pf2.getNeighbors pos := by
  unfold PathFinder3D.getNeighbors
  rw [hm, hg]

theorem searchLoop_congr (pq : PriorityQueue (PathNode α)) (sqrt : α → α)
    (pf pf2 : PathFinder3D α) (hm : pf.map = pf2.map) (hg : pf.gridStep = pf2.gridStep)
    (target : Vector3D α) :
    ∀ (left iterations : Nat) (openSet : pq.Q) (closedSet : List ((Int × Int × Int) × α))
      (allNodes : List (PathNode α)),
      searchLoop pq sqrt pf target left iterations openSet closedSet allNodes =
        searchLoop pq sqrt pf2 target left iterations openSet closedSet allNodes := by
  intro left
  induction left with
  | zero => intro _ _ _ _; rfl
  | succ left ih =>
    intro iterations openSet closedSet allNodes
    unfold searchLoop
    simp only [hg, getNeighbors_congr pf pf2 hm hg, ih]

theorem findPath_path_congr (pq : PriorityQueue (PathNode α)) (sqrt : α → α)
    (pf pf2 : PathFinder3D α) (hm : pf.map = pf2.map) (hg : pf.gridStep = pf2.gridStep)
    (start target : Vector3D α) (r : FindResult α)
    (h : pf.findPath pq sqrt start target = some r) :
    ∃ r2, pf2.findPath pq sqrt start target = some r2 ∧ r2.path = r.path ∧
      r2.iterations = r.iterations := by
  unfold PathFinder3D.findPath at h ⊢
  simp only [searchLoop_congr pq sqrt pf pf2 hm hg, hm] at h
  cases hc : pf2.map.isPathClear sqrt start target 0.5 with
  | none => simp [hc] at h
  | some b =>
    rw [hc] at h
    cases b with
    | true =>
      simp only [Option.some.injEq] at h
      subst h
      exact ⟨_, rfl, rfl, rfl⟩
    | false =>
      simp only at h ⊢
      cases hs : searchLoop pq sqrt pf2 target maxIter 0
          (pq.push pq.empty ⟨start, 0, start.distanceTo sqrt target, -1⟩) []
          [⟨start, 0, start.distanceTo sqrt target, -1⟩] with
      | exhausted it =>
        rw [hs] at h
        simp only [Option.some.injEq] at h
        subst h
        exact ⟨_, rfl, rfl, rfl⟩
      | accepted current allNodes it =>
        rw [hs] at h
        simp only at h ⊢
        cases hw : reconstruct allNodes allNodes.length (startIndex allNodes current) [] with
        | none => simp [hw] at h
        | some walked =>
          rw [hw] at h
          simp only at h ⊢
          cases hsm : smoothPath sqrt pf2.map (walked.reverse ++ [target]) with
          | none => simp [hsm] at h
          | some out =>
            rw [hsm] at h
            simp only [Option.some.injEq] at h
            subst h
            exact ⟨_, rfl, rfl, rfl⟩


theorem findPath_of_clear (pq : PriorityQueue (PathNode α)) (sqrt : α → α)
    (pf : PathFinder3D α) (start target : Vector3D α)
    (hclear : pf.map.isPathClear sqrt start target 0.5 = some true) :
    pf.findPath pq sqrt start target =
      some ⟨[start, target], 0,
        pf.addToCache start target [start, target] (start.distanceTo sqrt target)⟩ := by
  unfold PathFinder3D.findPath
  rw [hclear]

/-- C2: when the segment from start to end is clear, `findPath` returns exactly
`[start, end]` without entering the search loop (no iteration is counted and
the queue is never consulted), and appends one cache entry that holds this
path with the distance `start.distanceTo(end)`, leaving the older entries as
they were. -/
theorem findPath_direct (pq : PriorityQueue (PathNode α)) (sqrt : α → α)
    (pf : PathFinder3D α) (start target : Vector3D α)
    (hclear : pf.map.isPathClear sqrt start target 0.5 = some true) (hwf : pf.CacheWF) :
    ∃ r, pf.findPath pq sqrt start target = some r ∧ r.path = [start, target] ∧
      r.iterations = 0 ∧
      (∀ pq2 : PriorityQueue (PathNode α), pf.findPath pq2 sqrt start target = some r) ∧
      r.finder.cacheSize = pf.cacheSize + 1 ∧
      (r.finder.pathCache.getD pf.cacheSize PathCacheEntry.empty).view =
        ([start, target], start.distanceTo sqrt target) ∧
      ∀ i, i < pf.cacheSize →
        (r.finder.pathCache.getD i PathCacheEntry.empty).view =
          (pf.pathCache.getD i PathCacheEntry.empty).view := by
  obtain ⟨_, hold, hnew⟩ := addToCache_view pf hwf start target [start, target]
    (start.distanceTo sqrt target)
  exact ⟨_, findPath_of_clear pq sqrt pf start target hclear, rfl, rfl,
    fun pq2 => findPath_of_clear pq2 sqrt pf start target hclear,
    addToCache_cacheSize pf start target _ _, hnew, hold⟩

theorem inExtents_witness_start :
    (⟨50, 25, 20, []⟩ : Map3D ℝ).inExtents ⟨2, 2, 1⟩ := by
  simp only [Map3D.inExtents]
  norm_num

theorem inExtents_witness_target :
    (⟨50, 25, 20, []⟩ : Map3D ℝ).inExtents ⟨45, 20, 2⟩ := by
  simp only [Map3D.inExtents]
  norm_num

/-- The statement of C2 on a fresh engine for the empty 50×25×20 volume. -/
theorem findPath_direct_witness :
    (PathFinder3D.new (⟨50, 25, 20, []⟩ : Map3D ℝ) 1).map.isPathClear Real.sqrt
        ⟨2, 2, 1⟩ ⟨45, 20, 2⟩ 0.5 = some true ∧
    (PathFinder3D.new (⟨50, 25, 20, []⟩ : Map3D ℝ) 1).CacheWF ∧
    ∃ r, (PathFinder3D.new (⟨50, 25, 20, []⟩ : Map3D ℝ) 1).findPath (listQueue PathNode.gt)
        Real.sqrt ⟨2, 2, 1⟩ ⟨45, 20, 2⟩ = some r ∧
      r.path = [⟨2, 2, 1⟩, ⟨45, 20, 2⟩] ∧ r.finder.cacheSize = 1 :=
  have hclear := isPathClear_of_inExtents Real.sqrt (⟨50, 25, 20, []⟩ : Map3D ℝ) rfl
    ⟨2, 2, 1⟩ ⟨45, 20, 2⟩ inExtents_witness_start inExtents_witness_target
  have hwf := cacheWF_new (⟨50, 25, 20, []⟩ : Map3D ℝ) 1
  ⟨hclear, hwf,
    match findPath_direct (listQueue PathNode.gt) Real.sqrt
      (PathFinder3D.new (⟨50, 25, 20, []⟩ : Map3D ℝ) 1) ⟨2, 2, 1⟩ ⟨45, 20, 2⟩ hclear hwf with
    | ⟨r, h1, h2, _, _, h5, _, _⟩ => ⟨r, h1, h2, h5⟩⟩

/-- With exact arithmetic (the ordered field `α`): on a map without obstacles,
for start and end inside the extents, `findPath` returns exactly
`[start, end]` and `calculatePathDistance` of the result is
`start.distanceTo(end)`.  The rounding of `double` is outside this statement;
for its effect see the section on rounding at the boundary of the map. -/
theorem findPath_obstacle_free (pq : PriorityQueue (PathNode α)) (sqrt : α → α)
    (pf : PathFinder3D α) (start target : Vector3D α) (hobs : pf.map.obstacles = [])
    (hs : pf.map.inExtents start) (ht : pf.map.inExtents target) :
    ∃ r, pf.findPath pq sqrt start target = some r ∧ r.path = [start, target] ∧
      calculatePathDistance sqrt r.path = start.distanceTo sqrt target :=
  ⟨_, findPath_of_clear pq sqrt pf start target
      (isPathClear_of_inExtents sqrt pf.map hobs start target hs ht),
    rfl, calculatePathDistance_pair sqrt start target⟩

/-- The exact-arithmetic statement for an obstacle-free map at the scenario of
the specification: the empty 50×25×20 volume, start `(2, 2, 1)`, end
`(45, 20, 2)`. -/
theorem findPath_obstacle_free_witness :
    (PathFinder3D.new (⟨50, 25, 20, []⟩ : Map3D ℝ) 1).map.obstacles = [] ∧
    (PathFinder3D.new (⟨50, 25, 20, []⟩ : Map3D ℝ) 1).map.inExtents ⟨2, 2, 1⟩ ∧
    (PathFinder3D.new (⟨50, 25, 20, []⟩ : Map3D ℝ) 1).map.inExtents ⟨45, 20, 2⟩ ∧
    ∃ r, (PathFinder3D.new (⟨50, 25, 20, []⟩ : Map3D ℝ) 1).findPath (listQueue PathNode.gt)
        Real.sqrt ⟨2, 2, 1⟩ ⟨45, 20, 2⟩ = some r ∧
      r.path = [⟨2, 2, 1⟩, ⟨45, 20, 2⟩] ∧
      calculatePathDistance Real.sqrt r.path =
        (⟨2, 2, 1⟩ : Vector3D ℝ).distanceTo Real.sqrt ⟨45, 20, 2⟩ :=
  ⟨rfl, inExtents_witness_start, inExtents_witness_target,
    findPath_obstacle_free (listQueue PathNode.gt) Real.sqrt
      (PathFinder3D.new (⟨50, 25, 20, []⟩ : Map3D ℝ) 1) ⟨2, 2, 1⟩ ⟨45, 20, 2⟩ rfl
      inExtents_witness_start inExtents_witness_target⟩

/-- C9: the path `findPath` returns is determined by the map, the grid step,
start and end, whatever the cache holds; a second call with the same start and
end on the same engine returns the same path; and each call, the repeated
one included, makes the cache one entry longer. -/
theorem findPath_ignores_cache (pq : PriorityQueue (PathNode α)) (sqrt : α → α)
    (m : Map3D α) (gridStep : α) (start target : Vector3D α)
    (cache cache2 : List (PathCacheEntry α)) (size cap size2 cap2 : Nat) :
    (∃ r r2, (⟨m, gridStep, cache, size, cap⟩ : PathFinder3D α).findPath pq sqrt start target
          = some r ∧
        (⟨m, gridStep, cache2, size2, cap2⟩ : PathFinder3D α).findPath pq sqrt start target
          = some r2 ∧
        r2.path = r.path ∧ r.finder.cacheSize = size + 1 ∧ r2.finder.cacheSize = size2 + 1) ∧
    (∃ r r2, (⟨m, gridStep, cache, size, cap⟩ : PathFinder3D α).findPath pq sqrt start target
          = some r ∧
        r.finder.findPath pq sqrt start target = some r2 ∧
        r2.path = r.path ∧ r.finder.cacheSize = size + 1 ∧ r2.finder.cacheSize = size + 2) := by
  obtain ⟨r, hr, _, hf⟩ := findPath_finder pq sqrt ⟨m, gridStep, cache, size, cap⟩ start target
  have hsz : r.finder.cacheSize = size + 1 := by rw [hf, addToCache_cacheSize]
  have hmg : r.finder.map = m ∧ r.finder.gridStep = gridStep := by
    rw [hf]; exact addToCache_map _ _ _ _ _
  constructor
  · obtain ⟨r2, hr2, hp, _⟩ := findPath_path_congr pq sqrt ⟨m, gridStep, cache, size, cap⟩
      ⟨m, gridStep, cache2, size2, cap2⟩ rfl rfl start target r hr
    obtain ⟨r3, hr3, _, hf3⟩ := findPath_finder pq sqrt ⟨m, gridStep, cache2, size2, cap2⟩
      start target
    rw [hr2] at hr3
    cases hr3
    exact ⟨r, r2, hr, hr2, hp, hsz, by rw [hf3, addToCache_cacheSize]⟩
  · obtain ⟨r2, hr2, hp, _⟩ := findPath_path_congr pq sqrt ⟨m, gridStep, cache, size, cap⟩
      r.finder hmg.1.symm hmg.2.symm start target r hr
    obtain ⟨r3, hr3, _, hf3⟩ := findPath_finder pq sqrt r.finder start target
    rw [hr2] at hr3
    cases hr3
    exact ⟨r, r2, hr, hr2, hp, hsz, by rw [hf3, addToCache_cacheSize, hsz]⟩

end DirectAndCache

/-! ## Sequences of calls: the cache as a history -/

section History

variable {α : Type} [LinearOrderedField α] [FloorRing α]

theorem runQueries_append (pq : PriorityQueue (PathNode α)) (sqrt : α → α) :
    ∀ (qs more : List (Vector3D α × Vector3D α)) (pf : PathFinder3D α),
      runQueries pq sqrt pf (qs ++ more) =
        match runQueries pq sqrt pf qs with
        | none => none
        | some out =>
          match runQueries pq sqrt out.1 more with
          | none => none
          | some out2 => some (out2.1, out.2 ++ out2.2) := by
  intro qs
  induction qs with
  | nil =>
    intro more pf
    simp only [List.nil_append, runQueries]
    cases runQueries pq sqrt pf more <;> simp
  | cons q rest ih =>
    intro more pf
    simp only [List.cons_append, runQueries]
    cases hf : pf.findPath pq sqrt q.1 q.2 with
    | none => rfl
    | some r =>
      simp only
      rw [List.append_eq, ih]
      cases runQueries pq sqrt r.finder rest with
      | none => rfl
      | some out =>
        simp only
        cases runQueries pq sqrt out.1 more <;> simp

theorem runQueries_history (pq : PriorityQueue (PathNode α)) (sqrt : α → α) :
    ∀ (queries : List (Vector3D α × Vector3D α)) (pf : PathFinder3D α), pf.CacheWF →
      ∃ pf2 paths, runQueries pq sqrt pf queries = some (pf2, paths) ∧
        paths.length = queries.length ∧ pf2.CacheWF ∧
        pf2.cacheSize = pf.cacheSize + queries.length ∧
        (∀ i, i < pf.cacheSize →
          (pf2.pathCache.getD i PathCacheEntry.empty).view =
            (pf.pathCache.getD i PathCacheEntry.empty).view) ∧
        (∀ j, j < queries.length →
          (pf2.pathCache.getD (pf.cacheSize + j) PathCacheEntry.empty).view =
            (paths.getD j [], calculatePathDistance sqrt (paths.getD j []))) := by
  intro queries
  induction queries with
  | nil =>
    intro pf hwf
    exact ⟨pf, [], rfl, rfl, hwf, rfl, fun _ _ => rfl, fun j hj => by simp at hj⟩
  | cons q rest ih =>
    intro pf hwf
    obtain ⟨r, hr, _, hf⟩ := findPath_finder pq sqrt pf q.1 q.2
    obtain ⟨hwf2, hold, hnew⟩ := addToCache_view pf hwf q.1 q.2 r.path
      (calculatePathDistance sqrt r.path)
    rw [← hf] at hwf2 hold hnew
    have hsz : r.finder.cacheSize = pf.cacheSize + 1 := by rw [hf, addToCache_cacheSize]
    obtain ⟨pf2, paths, hrun, hlen, hwf3, hsz3, hold3, hnew3⟩ := ih r.finder hwf2
    refine ⟨pf2, r.path :: paths, ?_, by simp [hlen], hwf3, ?_, ?_, ?_⟩
    · simp only [runQueries, hr, hrun]
    · rw [hsz3, hsz, List.length_cons]; omega
    · intro i hi
      rw [hold3 i (by omega), hold i hi]
    · intro j hj
      cases j with
      | zero =>
        rw [Nat.add_zero, hold3 _ (by omega), hnew]
        rfl
      | succ j =>
        have := hnew3 j (by simpa using hj)
        rw [hsz] at this
        rw [show pf.cacheSize + (j + 1) = pf.cacheSize + 1 + j by omega, this]
        rfl

/-- C6: on a freshly constructed engine, after any sequence of N `findPath`
calls the cache has size N and capacity at least N, and for every `i < N` entry
`i` holds the waypoints returned by call `i` with stored distance
`calculatePathDistance` of that path; the entries stay so under any further
calls, capacity doublings included. -/
theorem cache_keeps_history (pq : PriorityQueue (PathNode α)) (sqrt : α → α)
    (m : Map3D α) (step : α) (queries : List (Vector3D α × Vector3D α)) :
    ∃ pf paths, runQueries pq sqrt (PathFinder3D.new m step) queries = some (pf, paths) ∧
      paths.length = queries.length ∧ pf.cacheSize = queries.length ∧
      queries.length ≤ pf.cacheCapacity ∧
      (∀ i, i < queries.length →
        (pf.pathCache.getD i PathCacheEntry.empty).retrievePath = paths.getD i [] ∧
        (pf.pathCache.getD i PathCacheEntry.empty).totalDistance =
          calculatePathDistance sqrt (paths.getD i [])) ∧
      (∀ more, ∃ pf3 paths3,
        runQueries pq sqrt (PathFinder3D.new m step) (queries ++ more) = some (pf3, paths3) ∧
        ∀ i, i < queries.length →
          paths3.getD i [] = paths.getD i [] ∧
          (pf3.pathCache.getD i PathCacheEntry.empty).retrievePath = paths.getD i [] ∧
          (pf3.pathCache.getD i PathCacheEntry.empty).totalDistance =
            calculatePathDistance sqrt (paths.getD i [])) := by
  obtain ⟨pf, paths, hrun, hlen, hwf, hsz, _, hnew⟩ :=
    runQueries_history pq sqrt queries (PathFinder3D.new m step) (cacheWF_new m step)
  have hsz0 : (PathFinder3D.new m step).cacheSize = 0 := rfl
  rw [hsz0, Nat.zero_add] at hsz
  have hview : ∀ i, i < queries.length →
      (pf.pathCache.getD i PathCacheEntry.empty).view =
        (paths.getD i [], calculatePathDistance sqrt (paths.getD i [])) := by
    intro i hi
    have := hnew i hi
    rwa [hsz0, Nat.zero_add] at this
  refine ⟨pf, paths, hrun, hlen, hsz, ?_, ?_, ?_⟩
  · rw [← hsz]; exact hwf.2.1
  · intro i hi
    have := hview i hi
    simp only [PathCacheEntry.view, Prod.mk.injEq] at this
    exact this
  · intro more
    obtain ⟨pf3, paths3, hrun3, _, _, _, hold3, _⟩ := runQueries_history pq sqrt more pf hwf
    refine ⟨pf3, paths ++ paths3, ?_, ?_⟩
    · rw [runQueries_append, hrun]
      simp only [hrun3]
    · intro i hi
      have h1 := hold3 i (by omega)
      rw [hview i hi] at h1
      simp only [PathCacheEntry.view, Prod.mk.injEq] at h1
      refine ⟨?_, h1.1, h1.2⟩
      rw [List.getD_eq_getElem?_getD, List.getElem?_append_left (by omega),
        ← List.getD_eq_getElem?_getD]


omit [FloorRing α] in
theorem addToCache_capacity_inv (pf : PathFinder3D α) (hwf : pf.CacheWF) (s e : Vector3D α)
    (p : List (Vector3D α)) (d : α)
    (h : ∃ k, pf.cacheCapacity = 10 * 2 ^ k ∧ ∀ j, j < k → 10 * 2 ^ j < pf.cacheSize) :
    ∃ k, (pf.addToCache s e p d).cacheCapacity = 10 * 2 ^ k ∧
      ∀ j, j < k → 10 * 2 ^ j < (pf.addToCache s e p d).cacheSize := by
  obtain ⟨k, hk, hj⟩ := h
  obtain ⟨_, h2, _⟩ := hwf
  rw [addToCache_cacheCapacity, addToCache_cacheSize]
  by_cases hg : pf.cacheSize ≥ pf.cacheCapacity
  · rw [if_pos hg]
    refine ⟨k + 1, by rw [hk, pow_succ]; ring, ?_⟩
    intro j hjk
    have h3 : 2 ^ j ≤ 2 ^ k := Nat.pow_le_pow_right (by norm_num) (by omega)
    omega
  · rw [if_neg hg]
    exact ⟨k, hk, fun j hjk => Nat.lt_succ_of_lt (hj j hjk)⟩

theorem runQueries_capacity (pq : PriorityQueue (PathNode α)) (sqrt : α → α) :
    ∀ (queries : List (Vector3D α × Vector3D α)) (pf : PathFinder3D α), pf.CacheWF →
      (∃ k, pf.cacheCapacity = 10 * 2 ^ k ∧ ∀ j, j < k → 10 * 2 ^ j < pf.cacheSize) →
      ∀ pf2 paths, runQueries pq sqrt pf queries = some (pf2, paths) →
        ∃ k, pf2.cacheCapacity = 10 * 2 ^ k ∧ ∀ j, j < k → 10 * 2 ^ j < pf2.cacheSize := by
  intro queries
  induction queries with
  | nil =>
    intro pf _ h pf2 paths hrun
    simp only [runQueries, Option.some.injEq, Prod.mk.injEq] at hrun
    rw [← hrun.1]
    exact h
  | cons q rest ih =>
    intro pf hwf h pf2 paths hrun
    obtain ⟨r, hr, _, hf⟩ := findPath_finder pq sqrt pf q.1 q.2
    simp only [runQueries, hr] at hrun
    cases hrest : runQueries pq sqrt r.finder rest with
    | none => simp [hrest] at hrun
    | some out =>
      rw [hrest] at hrun
      simp only [Option.some.injEq, Prod.mk.injEq] at hrun
      rw [← hrun.1]
      have hwf2 := (addToCache_view pf hwf q.1 q.2 r.path
        (calculatePathDistance sqrt r.path)).1
      have hcap := addToCache_capacity_inv pf hwf q.1 q.2 r.path
        (calculatePathDistance sqrt r.path) h
      rw [← hf] at hwf2 hcap
      exact ih r.finder hwf2 hcap out.1 out.2 hrest

/-- C7: the capacity is 10 at construction; a call doubles it exactly when it
finds size = capacity and leaves it unchanged otherwise, so it never
decreases; after N insertions it is `10 * 2 ^ k` for the least `k` with
`N ≤ 10 * 2 ^ k`; and size ≤ capacity holds after construction and after every
call. -/
theorem cache_capacity_doubling (pq : PriorityQueue (PathNode α)) (sqrt : α → α)
    (m : Map3D α) (step : α) (queries : List (Vector3D α × Vector3D α)) :
    (PathFinder3D.new m step).cacheCapacity = 10 ∧ (PathFinder3D.new m step).cacheSize = 0 ∧
    ∃ pf paths, runQueries pq sqrt (PathFinder3D.new m step) queries = some (pf, paths) ∧
      pf.cacheSize = queries.length ∧ pf.cacheSize ≤ pf.cacheCapacity ∧
      (∃ k, pf.cacheCapacity = 10 * 2 ^ k ∧ queries.length ≤ 10 * 2 ^ k ∧
        ∀ j, j < k → 10 * 2 ^ j < queries.length) ∧
      ∀ q : Vector3D α × Vector3D α, ∃ r, pf.findPath pq sqrt q.1 q.2 = some r ∧
        r.finder.cacheSize = pf.cacheSize + 1 ∧
        r.finder.cacheCapacity =
          (if pf.cacheSize = pf.cacheCapacity then 2 * pf.cacheCapacity
           else pf.cacheCapacity) ∧
        pf.cacheCapacity ≤ r.finder.cacheCapacity ∧
        r.finder.cacheSize ≤ r.finder.cacheCapacity := by
  refine ⟨rfl, rfl, ?_⟩
  obtain ⟨pf, paths, hrun, _, hwf, hsz, _, _⟩ :=
    runQueries_history pq sqrt queries (PathFinder3D.new m step) (cacheWF_new m step)
  have hsz0 : (PathFinder3D.new m step).cacheSize = 0 := rfl
  rw [hsz0, Nat.zero_add] at hsz
  obtain ⟨k, hk, hj⟩ := runQueries_capacity pq sqrt queries (PathFinder3D.new m step)
    (cacheWF_new m step) ⟨0, rfl, fun j hj => by omega⟩ pf paths hrun
  refine ⟨pf, paths, hrun, hsz, hwf.2.1, ⟨k, hk, ?_, ?_⟩, ?_⟩
  · rw [← hk, ← hsz]; exact hwf.2.1
  · intro j hjk; rw [← hsz]; exact hj j hjk
  · intro q
    obtain ⟨r, hr, _, hf⟩ := findPath_finder pq sqrt pf q.1 q.2
    have hwf2 := (addToCache_view pf hwf q.1 q.2 r.path
      (calculatePathDistance sqrt r.path)).1
    rw [← hf] at hwf2
    have hcap : r.finder.cacheCapacity =
        (if pf.cacheSize = pf.cacheCapacity then 2 * pf.cacheCapacity
         else pf.cacheCapacity) := by
      rw [hf, addToCache_cacheCapacity]
      have := hwf.2.1
      by_cases he : pf.cacheSize = pf.cacheCapacity
      · rw [if_pos (by omega), if_pos he]; omega
      · rw [if_neg (by omega), if_neg he]
    refine ⟨r, hr, by rw [hf, addToCache_cacheSize], hcap, ?_, hwf2.2.1⟩
    rw [hcap]
    split <;> omega

end History

/-! ## The open set, the fallback branch and immediate acceptance -/

section Search

variable {α : Type} [LinearOrderedField α]

theorem extractMin_spec : ∀ (rest : List (PathNode α)) (n : PathNode α),
    List.Perm (n :: rest) ((extractMin PathNode.gt n rest).1 :: (extractMin PathNode.gt n rest).2) ∧
    ∀ m ∈ (extractMin PathNode.gt n rest).2,
      PathNode.gt (extractMin PathNode.gt n rest).1 m = false := by
  intro rest
  induction rest with
  | nil => intro n; simp [extractMin]
  | cons m rest ih =>
    intro n
    obtain ⟨hperm, hmin⟩ := ih m
    unfold extractMin
    by_cases hg : PathNode.gt n (extractMin PathNode.gt m rest).1 = true
    · simp only [hg, ↓reduceIte]
      refine ⟨?_, ?_⟩
      · exact (List.Perm.cons n hperm).trans (List.Perm.swap _ _ _)
      · intro x hx
        rcases List.mem_cons.mp hx with rfl | hx
        · simp only [PathNode.gt, decide_eq_true_eq, decide_eq_false_iff_not, not_lt] at hg ⊢
          exact le_of_lt hg
        · exact hmin x hx
    · simp only [hg]
      refine ⟨List.Perm.refl _, ?_⟩
      intro x hx
      have hx2 : x ∈ (extractMin PathNode.gt m rest).1 :: (extractMin PathNode.gt m rest).2 :=
        hperm.mem_iff.mp hx
      simp only [PathNode.gt, decide_eq_true_eq, not_lt, decide_eq_false_iff_not] at hg ⊢
      rcases List.mem_cons.mp hx2 with rfl | hx3
      · exact hg
      · have := hmin x hx3
        simp only [PathNode.gt, decide_eq_false_iff_not, not_lt] at this
        exact le_trans hg this

theorem listQueue_lawful :
    (listQueue (PathNode.gt : PathNode α → PathNode α → Bool)).Lawful PathNode.gt := by
  refine ⟨fun q => ((show List (PathNode α) from q) : Multiset (PathNode α)), rfl, ?_, ?_, ?_⟩
  · intro q n
    show (((show List (PathNode α) from q) ++ [n] : List (PathNode α)) : Multiset (PathNode α)) = _
    rw [← Multiset.coe_add, add_comm]
    rfl
  · intro q
    cases q with
    | nil => simp [listQueue]
    | cons n rest => simp [listQueue]
  · intro q n r h
    cases q with
    | nil => simp [listQueue] at h
    | cons a rest =>
      simp only [listQueue, Option.some.injEq] at h
      obtain ⟨hperm, hmin⟩ := extractMin_spec rest a
      rw [h] at hperm hmin
      refine ⟨?_, ?_⟩
      · exact Multiset.coe_eq_coe.mpr hperm
      · intro m hm
        exact hmin m hm

theorem lawful_pop_single (pq : PriorityQueue (PathNode α)) (hpq : pq.Lawful PathNode.gt)
    (n : PathNode α) :
    ∃ r, pq.pop (pq.push pq.empty n) = some (n, r) ∧ pq.pop r = none := by
  obtain ⟨content, h0, hpush, hnone, hpop⟩ := hpq
  have hc : content (pq.push pq.empty n) = {n} := by rw [hpush, h0]; rfl
  cases h : pq.pop (pq.push pq.empty n) with
  | none =>
    have := (hnone _).mp h
    rw [hc] at this
    simp at this
  | some top =>
    obtain ⟨n2, r⟩ := top
    obtain ⟨h1, _⟩ := hpop _ _ _ h
    rw [hc] at h1
    have hn : n2 = n := by
      have : n2 ∈ ({n} : Multiset (PathNode α)) := by rw [h1]; exact Multiset.mem_cons_self _ _
      exact Multiset.mem_singleton.mp this
    subst hn
    have hr : content r = 0 := by
      have := congrArg Multiset.card h1
      simp only [Multiset.card_singleton, Multiset.card_cons] at this
      exact Multiset.card_eq_zero.mp (by omega)
    exact ⟨r, rfl, (hnone r).mpr hr⟩


theorem mem_getNeighbors (pf : PathFinder3D α) (pos nb : Vector3D α)
    (h : nb ∈ pf.getNeighbors pos) : pf.map.isBlocked nb 0.5 = false := by
  unfold PathFinder3D.getNeighbors at h
  obtain ⟨d, _, hd⟩ := List.mem_filterMap.mp h
  by_cases hb : pf.map.isBlocked ⟨pos.x + (d.1 : α) * pf.gridStep,
      pos.y + (d.2.1 : α) * pf.gridStep, pos.z + (d.2.2 : α) * pf.gridStep⟩ 0.5 = true
  · simp [hb] at hd
  · simp only [hb, Bool.not_false, ↓reduceIte, Option.some.injEq] at hd
    rw [← hd]
    simpa using hb

theorem getNeighbors_eq_nil (pf : PathFinder3D α) (pos : Vector3D α)
    (h : ∀ d ∈ neighborOffsets, pf.map.isBlocked ⟨pos.x + ((d.1 : Int) : α) * pf.gridStep,
      pos.y + ((d.2.1 : Int) : α) * pf.gridStep, pos.z + ((d.2.2 : Int) : α) * pf.gridStep⟩ 0.5
        = true) :
    pf.getNeighbors pos = [] := by
  unfold PathFinder3D.getNeighbors
  rw [List.filterMap_eq_nil_iff]
  intro d hd
  simp [h d hd]

variable [FloorRing α]

theorem exploreNeighbors_content (pq : PriorityQueue (PathNode α)) (sqrt : α → α)
    (target : Vector3D α) (closedSet : List ((Int × Int × Int) × α)) (current : PathNode α)
    (currentIdx : Int) (content : pq.Q → Multiset (PathNode α))
    (hpush : ∀ q n, content (pq.push q n) = n ::ₘ content q) :
    ∀ (nbs : List (Vector3D α)) (openSet : pq.Q) (allNodes : List (PathNode α)) (n : PathNode α),
      n ∈ content (exploreNeighbors pq sqrt target closedSet current currentIdx nbs openSet
        allNodes).1 → n ∈ content openSet ∨ n.pos ∈ nbs := by
  intro nbs
  induction nbs with
  | nil => intro openSet allNodes n h; exact Or.inl h
  | cons nb rest ih =>
    intro openSet allNodes n h
    unfold exploreNeighbors at h
    by_cases hc : closedContains closedSet (posKey nb) = true
    · simp only [hc, ↓reduceIte] at h
      rcases ih _ _ _ h with h1 | h1
      · exact Or.inl h1
      · exact Or.inr (List.mem_cons_of_mem _ h1)
    · simp only [hc] at h
      rcases ih _ _ _ h with h1 | h1
      · rw [hpush] at h1
        rcases Multiset.mem_cons.mp h1 with h2 | h2
        · right; rw [h2]; exact List.mem_cons_self _ _
        · exact Or.inl h2
      · exact Or.inr (List.mem_cons_of_mem _ h1)

theorem searchLoop_exhausted (pq : PriorityQueue (PathNode α)) (hpq : pq.Lawful PathNode.gt)
    (sqrt : α → α) (pf : PathFinder3D α) (target : Vector3D α) (S : Vector3D α → Prop)
    (hgoal : ∀ p, S p → ¬ p.distanceTo sqrt target < pf.gridStep * 1.5)
    (hclosed : ∀ p, S p → ∀ nb ∈ pf.getNeighbors p, S nb) :
    ∃ content : pq.Q → Multiset (PathNode α),
      (∀ n, content (pq.push pq.empty n) = {n}) ∧
      ∀ (left iterations : Nat) (openSet : pq.Q) (closedSet : List ((Int × Int × Int) × α))
        (allNodes : List (PathNode α)), (∀ n ∈ content openSet, S n.pos) →
        ∃ it, searchLoop pq sqrt pf target left iterations openSet closedSet allNodes =
          SearchOutcome.exhausted it := by
  obtain ⟨content, h0, hpush, hnone, hpop⟩ := hpq
  refine ⟨content, fun n => by rw [hpush, h0]; rfl, ?_⟩
  intro left
  induction left with
  | zero => intro it _ _ _ _; exact ⟨it, rfl⟩
  | succ left ih =>
    intro it openSet closedSet allNodes hS
    unfold searchLoop
    cases hp : pq.pop openSet with
    | none => exact ⟨it, rfl⟩
    | some top =>
      obtain ⟨cur, open1⟩ := top
      obtain ⟨hc, _⟩ := hpop _ _ _ hp
      have hcur : S cur.pos := hS cur (by rw [hc]; exact Multiset.mem_cons_self _ _)
      have hS1 : ∀ n ∈ content open1, S n.pos :=
        fun n hn => hS n (by rw [hc]; exact Multiset.mem_cons_of_mem hn)
      simp only
      by_cases hcl : closedContains closedSet (posKey cur.pos) = true
      · simp only [hcl, ↓reduceIte]
        exact ih _ _ _ _ hS1
      · simp only [hcl, hgoal _ hcur, Bool.false_eq_true, ↓reduceIte]
        apply ih
        intro n hn
        rcases exploreNeighbors_content pq sqrt target _ cur _ content hpush _ _ _ n hn with h1 | h1
        · exact hS1 n h1
        · exact hclosed _ hcur _ h1

theorem findPath_fallback_of (pq : PriorityQueue (PathNode α)) (hpq : pq.Lawful PathNode.gt)
    (sqrt : α → α) (pf : PathFinder3D α) (start target : Vector3D α) (S : Vector3D α → Prop)
    (hblocked : pf.map.isPathClear sqrt start target 0.5 = some false)
    (hstart : S start)
    (hgoal : ∀ p, S p → ¬ p.distanceTo sqrt target < pf.gridStep * 1.5)
    (hclosed : ∀ p, S p → ∀ nb ∈ pf.getNeighbors p, S nb) :
    ∃ r, pf.findPath pq sqrt start target = some r ∧
      r.path = [start, ⟨start.x, start.y, pf.map.getSafeAltitude⟩,
        ⟨target.x, target.y, pf.map.getSafeAltitude⟩, target] := by
  obtain ⟨content, hsingle, hloop⟩ := searchLoop_exhausted pq hpq sqrt pf target S hgoal hclosed
  obtain ⟨it, hit⟩ := hloop maxIter 0
    (pq.push pq.empty ⟨start, 0, start.distanceTo sqrt target, -1⟩) []
    [⟨start, 0, start.distanceTo sqrt target, -1⟩]
    (fun n hn => by
      rw [hsingle] at hn
      rw [Multiset.mem_singleton.mp hn]
      exact hstart)
  unfold PathFinder3D.findPath
  rw [hblocked]
  simp only [hit]
  exact ⟨_, rfl, rfl⟩


omit [FloorRing α] in
theorem vector_eq_self (v : Vector3D α) : v.eq v = true := by
  have h : (0 : α) < 0.1 := by norm_num
  simp [Vector3D.eq, h]

omit [FloorRing α] in
theorem startIndex_single (n : PathNode α) : startIndex [n] n = 0 := by
  simp [startIndex, List.findIdx?_cons, vector_eq_self]

omit [LinearOrderedField α] [FloorRing α] in
theorem reconstruct_single (n : PathNode α) (h : n.parentIdx = -1) :
    reconstruct [n] 1 0 [] = some [n.pos] := by
  simp [reconstruct, h]

theorem findPath_accept_start (pq : PriorityQueue (PathNode α)) (hpq : pq.Lawful PathNode.gt)
    (sqrt : α → α) (pf : PathFinder3D α) (start target : Vector3D α)
    (hblocked : pf.map.isPathClear sqrt start target 0.5 = some false)
    (hnear : start.distanceTo sqrt target < pf.gridStep * 1.5) :
    pf.findPath pq sqrt start target =
      some ⟨[start, target], 1,
        pf.addToCache start target [start, target]
          (calculatePathDistance sqrt [start, target])⟩ := by
  obtain ⟨r, hr, _⟩ := lawful_pop_single pq hpq ⟨start, 0, start.distanceTo sqrt target, -1⟩
  have hloop : searchLoop pq sqrt pf target maxIter 0
      (pq.push pq.empty ⟨start, 0, start.distanceTo sqrt target, -1⟩) []
      [⟨start, 0, start.distanceTo sqrt target, -1⟩] =
      SearchOutcome.accepted ⟨start, 0, start.distanceTo sqrt target, -1⟩
        [⟨start, 0, start.distanceTo sqrt target, -1⟩] 1 := by
    show searchLoop pq sqrt pf target (9999 + 1) 0 _ _ _ = _
    unfold searchLoop
    simp [hr, closedContains, hnear]
  unfold PathFinder3D.findPath
  rw [hblocked]
  simp only [hloop, startIndex_single, List.length_singleton, reconstruct_single,
    List.reverse_singleton, List.singleton_append]
  simp [smoothPath]

omit [FloorRing α] in
theorem add_mul_zero (src u : Vector3D α) : src.add (u.mul 0) = src := by
  cases src
  simp [Vector3D.add, Vector3D.mul]

theorem isPathClear_of_src_blocked (sqrt : α → α) (m : Map3D α) (src dst : Vector3D α)
    (step : α) (hb : m.isBlocked src 0.5 = true)
    (hd : ¬ (dst.sub src).magnitude sqrt < 0.01) :
    m.isPathClear sqrt src dst step = some false := by
  have h1 : (0.01 : α) ≤ (dst.sub src).magnitude sqrt := not_lt.mp hd
  have h2 : (0 : α) ≤ (dst.sub src).magnitude sqrt := le_trans (by norm_num) h1
  unfold Map3D.isPathClear
  simp only [hd, ↓reduceIte]
  unfold Map3D.isPathClearLoop
  simp [h2, add_mul_zero, hb]


end Search

/-! ## Concrete runs over the reals -/

section Concrete

theorem offsets_bounded : ∀ d ∈ neighborOffsets, d.1 ≤ 1 := by decide

theorem outside_neighbors_blocked (m : Map3D ℝ) (x y z : ℝ) (hx : x + 1 < 0) :
    ∀ d ∈ neighborOffsets,
      m.isBlocked ⟨x + ((d.1 : Int) : ℝ) * 1, y + ((d.2.1 : Int) : ℝ) * 1,
        z + ((d.2.2 : Int) : ℝ) * 1⟩ 0.5 = true := by
  intro d hd
  have h1 : ((d.1 : Int) : ℝ) ≤ 1 := by exact_mod_cast offsets_bounded d hd
  unfold Map3D.isBlocked
  rw [if_pos]
  left
  show x + ((d.1 : Int) : ℝ) * 1 < 0
  linarith

theorem outside_blocked (m : Map3D ℝ) (p : Vector3D ℝ) (hx : p.x < 0) :
    m.isBlocked p 0.5 = true := by
  unfold Map3D.isBlocked
  rw [if_pos (Or.inl hx)]

theorem sqrt_hundred : Real.sqrt 100 = 10 := by
  rw [show (100 : ℝ) = 10 ^ 2 by norm_num]
  exact Real.sqrt_sq (by norm_num)

theorem outside_far_distance :
    Vector3D.distanceTo Real.sqrt (⟨-5, -5, -5⟩ : Vector3D ℝ) ⟨1, 3, -5⟩ = 10 := by
  simp only [Vector3D.distanceTo]
  norm_num
  exact sqrt_hundred

theorem outside_far_blocked :
    (PathFinder3D.new (⟨50, 25, 20, []⟩ : Map3D ℝ) 1).map.isPathClear Real.sqrt
      ⟨-5, -5, -5⟩ ⟨1, 3, -5⟩ 0.5 = some false := by
  have hm : Vector3D.magnitude Real.sqrt
      ((⟨1, 3, -5⟩ : Vector3D ℝ).sub ⟨-5, -5, -5⟩) = 10 := by
    simp only [Vector3D.magnitude, Vector3D.sub]
    norm_num
    exact sqrt_hundred
  exact isPathClear_of_src_blocked Real.sqrt _ _ _ _ (outside_blocked _ _ (by norm_num))
    (by rw [hm]; norm_num)

theorem outside_near_distance :
    Vector3D.distanceTo Real.sqrt (⟨-5, -5, -5⟩ : Vector3D ℝ) ⟨-5, -5, -4⟩ = 1 := by
  simp only [Vector3D.distanceTo]
  norm_num

theorem outside_near_blocked :
    (PathFinder3D.new (⟨50, 25, 20, []⟩ : Map3D ℝ) 1).map.isPathClear Real.sqrt
      ⟨-5, -5, -5⟩ ⟨-5, -5, -4⟩ 0.5 = some false := by
  have hm : Vector3D.magnitude Real.sqrt
      ((⟨-5, -5, -4⟩ : Vector3D ℝ).sub ⟨-5, -5, -5⟩) = 1 := by
    simp only [Vector3D.magnitude, Vector3D.sub]
    norm_num
  exact isPathClear_of_src_blocked Real.sqrt _ _ _ _ (outside_blocked _ _ (by norm_num))
    (by rw [hm]; norm_num)

theorem outside_climb_blocked :
    (PathFinder3D.new (⟨50, 25, 20, []⟩ : Map3D ℝ) 1).map.isPathClear Real.sqrt
      ⟨-5, -5, -5⟩ ⟨-5, -5, 2⟩ 0.5 = some false := by
  have hm : Vector3D.magnitude Real.sqrt
      ((⟨-5, -5, 2⟩ : Vector3D ℝ).sub ⟨-5, -5, -5⟩) = 7 := by
    simp only [Vector3D.magnitude, Vector3D.sub]
    norm_num
    rw [show (49 : ℝ) = 7 ^ 2 by norm_num]
    exact Real.sqrt_sq (by norm_num)
  exact isPathClear_of_src_blocked Real.sqrt _ _ _ _ (outside_blocked _ _ (by norm_num))
    (by rw [hm]; norm_num)

theorem emptyCity_safeAltitude :
    (PathFinder3D.new (⟨50, 25, 20, []⟩ : Map3D ℝ) 1).map.getSafeAltitude = 2 := by
  simp [PathFinder3D.new, Map3D.getSafeAltitude]

/-- The distance condition cannot be dropped from the boxed-in case: with start
`(-5, -5, -5)` and end `(-5, -5, -4)` outside the 50×25×20 volume the direct
segment is not clear and all 26 lattice neighbours of the start are blocked,
yet the start node passes the goal test (its distance to the end is 1 < 1.5)
and `findPath` returns `[start, end]`. -/
theorem findPath_boxed_in_near_target :
    (PathFinder3D.new (⟨50, 25, 20, []⟩ : Map3D ℝ) 1).map.isPathClear Real.sqrt
        ⟨-5, -5, -5⟩ ⟨-5, -5, -4⟩ 0.5 = some false ∧
    (∀ d ∈ neighborOffsets,
      (PathFinder3D.new (⟨50, 25, 20, []⟩ : Map3D ℝ) 1).map.isBlocked
        ⟨-5 + ((d.1 : Int) : ℝ) * 1, -5 + ((d.2.1 : Int) : ℝ) * 1,
          -5 + ((d.2.2 : Int) : ℝ) * 1⟩ 0.5 = true) ∧
    ∃ r, (PathFinder3D.new (⟨50, 25, 20, []⟩ : Map3D ℝ) 1).findPath (listQueue PathNode.gt)
        Real.sqrt ⟨-5, -5, -5⟩ ⟨-5, -5, -4⟩ = some r ∧
      r.path = [⟨-5, -5, -5⟩, ⟨-5, -5, -4⟩] ∧ r.path.length ≠ 4 := by
  refine ⟨outside_near_blocked, outside_neighbors_blocked _ _ _ _ (by norm_num), ?_⟩
  have h := findPath_accept_start (listQueue PathNode.gt) listQueue_lawful Real.sqrt
    (PathFinder3D.new (⟨50, 25, 20, []⟩ : Map3D ℝ) 1) ⟨-5, -5, -5⟩ ⟨-5, -5, -4⟩
    outside_near_blocked (by rw [outside_near_distance]; norm_num [PathFinder3D.new])
  exact ⟨_, h, rfl, by simp⟩

end Concrete

/-! ## Line of sight along the returned path -/

section Segments

variable {α : Type} [LinearOrderedField α] [FloorRing α]

theorem smoothOuter_chain (sqrt : α → α) (m : Map3D α) (path : List (Vector3D α)) :
    ∀ (fuel i : Nat) (sm out : List (Vector3D α)),
      sm.getLast? = some (path.getD i Vector3D.zero) →
      List.Chain' (SmoothHop sqrt m path) sm →
      smoothOuter sqrt m path fuel i sm = some out →
      List.Chain' (SmoothHop sqrt m path) out := by
  intro fuel
  induction fuel with
  | zero =>
    intro i sm out _ hc h
    unfold smoothOuter at h
    split at h
    · cases h
    · cases h; exact hc
  | succ fuel ih =>
    intro i sm out hlast hc h
    unfold smoothOuter at h
    by_cases hi : i < path.length - 1
    · rw [if_pos hi] at h
      obtain ⟨j, hj, h1, h2, h3⟩ := smoothInner_spec sqrt m path i (path.length - 1) hi
      rw [hj] at h
      refine ih j (sm ++ [path.getD j Vector3D.zero]) out (by simp) ?_ h
      rw [List.chain'_append]
      refine ⟨hc, List.chain'_singleton _, ?_⟩
      intro x hx y hy
      rw [hlast] at hx
      simp only [Option.mem_def, Option.some.injEq, List.head?_cons] at hx hy
      subst hx hy
      rcases h3 with h3 | h3
      · exact Or.inr ⟨i, by omega, rfl, by rw [h3]⟩
      · exact Or.inl h3
    · rw [if_neg hi] at h
      cases h
      exact hc

theorem smoothPath_chain (sqrt : α → α) (m : Map3D α) (path out : List (Vector3D α))
    (h : smoothPath sqrt m path = some out) : List.Chain' (SmoothHop sqrt m path) out := by
  unfold smoothPath at h
  by_cases hl : path.length ≤ 2
  · rw [if_pos hl] at h
    cases h
    match path, hl with
    | [], _ => exact List.chain'_nil
    | [_], _ => exact List.chain'_singleton _
    | [a, b], _ =>
      exact List.chain'_pair.mpr (Or.inr ⟨0, by simp, rfl, rfl⟩)
    | _ :: _ :: _ :: _, hl => simp at hl
  · rw [if_neg hl] at h
    exact smoothOuter_chain sqrt m path _ 0 _ out (by simp) (List.chain'_singleton _) h

/-- C4 (amended): in the direct branch the returned pair passes the
line-of-sight test; in the search branch every consecutive pair of the result
either passes it or joins two neighbouring waypoints of the raw reconstructed
path, which `smoothPath` does not test.  Nothing is claimed for the fallback
path, whose legs are not tested. -/
theorem findPath_segments (pq : PriorityQueue (PathNode α)) (sqrt : α → α)
    (pf : PathFinder3D α) (start target : Vector3D α) :
    ∃ r, pf.findPath pq sqrt start target = some r ∧
      (pf.map.isPathClear sqrt start target 0.5 = some true →
        List.Chain' (fun p q => pf.map.isPathClear sqrt p q 0.5 = some true) r.path) ∧
      (∀ cur nodes it walked,
        searchLoop pq sqrt pf target maxIter 0
          (pq.push pq.empty ⟨start, 0, start.distanceTo sqrt target, -1⟩) []
          [⟨start, 0, start.distanceTo sqrt target, -1⟩] = SearchOutcome.accepted cur nodes it →
        reconstruct nodes nodes.length (startIndex nodes cur) [] = some walked →
        List.Chain' (SmoothHop sqrt pf.map (walked.reverse ++ [target])) r.path) := by
  obtain ⟨r, hr, _⟩ := findPath_finder pq sqrt pf start target
  refine ⟨r, hr, ?_, ?_⟩
  · intro hclear
    rw [findPath_of_clear pq sqrt pf start target hclear] at hr
    cases hr
    exact List.chain'_pair.mpr hclear
  · intro cur nodes it walked hs hw
    unfold PathFinder3D.findPath at hr
    cases hc : pf.map.isPathClear sqrt start target 0.5 with
    | none => simp [hc] at hr
    | some b =>
      rw [hc] at hr
      cases b with
      | true =>
        simp only [Option.some.injEq] at hr
        subst hr
        exact List.chain'_pair.mpr (Or.inl hc)
      | false =>
        simp only [hs, hw] at hr
        cases hsm : smoothPath sqrt pf.map (walked.reverse ++ [target]) with
        | none => simp [hsm] at hr
        | some out =>
          rw [hsm] at hr
          simp only [Option.some.injEq] at hr
          subst hr
          exact smoothPath_chain sqrt pf.map _ _ hsm

/-- C4, the claim as stated fails, in the fallback branch and in the search
branch: outside the empty 50×25×20 volume the fallback path from `(-5, -5, -5)`
to `(1, 3, -5)` starts with the leg `(-5, -5, -5)` to `(-5, -5, 2)`, which is
not clear; and from `(-5, -5, -5)` to `(-5, -5, -4)` the search accepts the
start node and returns `[start, end]`, a pair that is not clear. -/
theorem findPath_segments_counterexample :
    (∃ r, (PathFinder3D.new (⟨50, 25, 20, []⟩ : Map3D ℝ) 1).findPath (listQueue PathNode.gt)
        Real.sqrt ⟨-5, -5, -5⟩ ⟨1, 3, -5⟩ = some r ∧
      r.path = [⟨-5, -5, -5⟩, ⟨-5, -5, 2⟩, ⟨1, 3, 2⟩, ⟨1, 3, -5⟩] ∧
      (PathFinder3D.new (⟨50, 25, 20, []⟩ : Map3D ℝ) 1).map.isPathClear Real.sqrt
        ⟨-5, -5, -5⟩ ⟨-5, -5, 2⟩ 0.5 = some false) ∧
    (∃ r, (PathFinder3D.new (⟨50, 25, 20, []⟩ : Map3D ℝ) 1).findPath (listQueue PathNode.gt)
        Real.sqrt ⟨-5, -5, -5⟩ ⟨-5, -5, -4⟩ = some r ∧
      r.path = [⟨-5, -5, -5⟩, ⟨-5, -5, -4⟩] ∧ r.iterations = 1 ∧
      (PathFinder3D.new (⟨50, 25, 20, []⟩ : Map3D ℝ) 1).map.isPathClear Real.sqrt
        ⟨-5, -5, -5⟩ ⟨-5, -5, -4⟩ 0.5 = some false) := by
  constructor
  · obtain ⟨r, hr, hp⟩ := findPath_fallback_of (listQueue PathNode.gt) listQueue_lawful
      Real.sqrt (PathFinder3D.new (⟨50, 25, 20, []⟩ : Map3D ℝ) 1) ⟨-5, -5, -5⟩ ⟨1, 3, -5⟩
      (fun p => p = ⟨-5, -5, -5⟩) outside_far_blocked rfl
      (fun p hp hlt => by
        rw [hp, outside_far_distance] at hlt
        norm_num [PathFinder3D.new] at hlt)
      (fun p hp nb hnb => by
        rw [hp, getNeighbors_eq_nil _ _ (outside_neighbors_blocked _ _ _ _ (by norm_num))] at hnb
        cases hnb)
    rw [emptyCity_safeAltitude] at hp
    exact ⟨r, hr, hp, outside_climb_blocked⟩
  · have h := findPath_accept_start (listQueue PathNode.gt) listQueue_lawful Real.sqrt
      (PathFinder3D.new (⟨50, 25, 20, []⟩ : Map3D ℝ) 1) ⟨-5, -5, -5⟩ ⟨-5, -5, -4⟩
      outside_near_blocked (by rw [outside_near_distance]; norm_num [PathFinder3D.new])
    exact ⟨_, h, rfl, rfl, outside_near_blocked⟩

end Segments

/-! ## The path smoother -/

section Smoother

variable {α : Type} [LinearOrderedField α] [FloorRing α]

theorem smoothInner_scan (sqrt : α → α) (m : Map3D α) (path : List (Vector3D α)) (i : Nat) :
    ∀ j, i < j → ∃ k, smoothInner sqrt m path i j = some k ∧ i < k ∧ k ≤ j ∧
      (∀ c, k < c → c ≤ j →
        m.isPathClear sqrt (path.getD i Vector3D.zero) (path.getD c Vector3D.zero) 0.5
          = some false) ∧
      (k = i + 1 ∨ m.isPathClear sqrt (path.getD i Vector3D.zero) (path.getD k Vector3D.zero) 0.5
        = some true) := by
  intro j
  induction j with
  | zero => intro h; omega
  | succ j ih =>
    intro h
    unfold smoothInner
    by_cases hj : j + 1 > i + 1
    · simp only [hj, ↓reduceIte]
      obtain ⟨b, hb⟩ := isPathClear_terminates sqrt m (path.getD i Vector3D.zero)
        (path.getD (j + 1) Vector3D.zero) 0.5 half_pos_lit
      rw [hb]
      cases b with
      | true => exact ⟨j + 1, rfl, h, le_rfl, fun c h1 h2 => by omega, Or.inr hb⟩
      | false =>
        obtain ⟨k, hk, h1, h2, h3, h4⟩ := ih (by omega)
        refine ⟨k, hk, h1, by omega, ?_, h4⟩
        intro c hc1 hc2
        by_cases hcj : c = j + 1
        · rw [hcj]; exact hb
        · exact h3 c hc1 (by omega)
    · simp only [hj, ↓reduceIte]
      exact ⟨j + 1, rfl, h, le_rfl, fun c h1 h2 => by omega, Or.inl (by omega)⟩

theorem smoothOuter_trace (sqrt : α → α) (m : Map3D α) (path : List (Vector3D α)) :
    ∀ (fuel i : Nat) (sm out : List (Vector3D α)),
      smoothOuter sqrt m path fuel i sm = some out →
      ∃ idxs, SmoothTrace sqrt m path i idxs ∧
        out = sm ++ idxs.map (fun k => path.getD k Vector3D.zero) := by
  intro fuel
  induction fuel with
  | zero =>
    intro i sm out h
    unfold smoothOuter at h
    by_cases hi : i < path.length - 1
    · rw [if_pos hi] at h; cases h
    · rw [if_neg hi] at h; cases h
      exact ⟨[], hi, by simp⟩
  | succ fuel ih =>
    intro i sm out h
    unfold smoothOuter at h
    by_cases hi : i < path.length - 1
    · rw [if_pos hi] at h
      obtain ⟨j, hj, h1, h2, h3, h4⟩ := smoothInner_scan sqrt m path i (path.length - 1) hi
      rw [hj] at h
      obtain ⟨idxs, ht, ho⟩ := ih j _ out h
      refine ⟨j :: idxs, ⟨hi, h1, h2, h3, h4, ht⟩, ?_⟩
      rw [ho]
      simp
    · rw [if_neg hi] at h; cases h
      exact ⟨[], hi, by simp⟩

theorem smoothTrace_bounds (sqrt : α → α) (m : Map3D α) (path : List (Vector3D α)) :
    ∀ (idxs : List Nat) (i : Nat), SmoothTrace sqrt m path i idxs →
      List.Chain (· < ·) i idxs ∧ (∀ k ∈ idxs, k ≤ path.length - 1) ∧
      (i ≤ path.length - 1 → (i :: idxs).getLast? = some (path.length - 1)) := by
  intro idxs
  induction idxs with
  | nil =>
    intro i h
    refine ⟨List.Chain.nil, fun k hk => (by simp at hk), fun hi => ?_⟩
    have : ¬ i < path.length - 1 := h
    simp only [List.getLast?_singleton, Option.some.injEq]
    omega
  | cons b rest ih =>
    intro i h
    obtain ⟨_, h1, h2, _, _, h5⟩ := h
    obtain ⟨hc, hb, hl⟩ := ih b h5
    refine ⟨List.Chain.cons h1 hc, ?_, fun _ => ?_⟩
    · intro k hk
      rcases List.mem_cons.mp hk with rfl | hk
      · exact h2
      · exact hb k hk
    · rw [List.getLast?_cons_cons]
      exact hl h2


omit [LinearOrderedField α] [FloorRing α] in
theorem map_pmap_getD {β : Type} (d : β) (l : List β) :
    ∀ (idxs : List Nat) (hb : ∀ i ∈ idxs, i < l.length),
      (idxs.pmap (fun i h => (⟨i, h⟩ : Fin l.length)) hb).map (fun i => l[i]) =
        idxs.map (fun i => l.getD i d) := by
  intro idxs
  induction idxs with
  | nil => intro _; rfl
  | cons a rest ih =>
    intro hb
    have ha : a < l.length := hb a (List.mem_cons_self _ _)
    simp only [List.pmap, List.map_cons, ih, List.cons.injEq, and_true]
    rw [List.getD_eq_getElem?_getD, List.getElem?_eq_getElem ha]
    rfl

omit [LinearOrderedField α] [FloorRing α] in
theorem map_getD_sublist {β : Type} (d : β) (l : List β) (idxs : List Nat)
    (hp : idxs.Pairwise (· < ·)) (hb : ∀ i ∈ idxs, i < l.length) :
    List.Sublist (idxs.map (fun i => l.getD i d)) l := by
  have h := @List.map_getElem_sublist _ l
    (idxs.pmap (fun i h => (⟨i, h⟩ : Fin l.length)) hb)
    (by
      rw [List.pairwise_pmap]
      exact hp.imp (fun h _ _ => h))
  rw [map_pmap_getD d l idxs hb] at h
  exact h

theorem smoothPath_trace (sqrt : α → α) (m : Map3D α) (path : List (Vector3D α))
    (hlen : ¬ path.length ≤ 2) :
    ∃ idxs, SmoothTrace sqrt m path 0 idxs ∧
      smoothPath sqrt m path = some ((0 :: idxs).map (fun k => path.getD k Vector3D.zero)) := by
  obtain ⟨out, ho, _⟩ := smoothOuter_terminates sqrt m path path.length 0
    [path.getD 0 Vector3D.zero] (by omega)
  obtain ⟨idxs, ht, he⟩ := smoothOuter_trace sqrt m path _ _ _ _ ho
  refine ⟨idxs, ht, ?_⟩
  unfold smoothPath
  rw [if_neg hlen, ho, he]
  rfl

/-- C11: `smoothPath` returns the input's waypoints at strictly increasing
indices, so a subsequence no longer than the input, with the same first and
last point; an input of at most two points (the empty one included) is
returned unchanged. -/
theorem smoothPath_subsequence (sqrt : α → α) (m : Map3D α) (path : List (Vector3D α)) :
    ∃ out idxs, smoothPath sqrt m path = some out ∧
      List.Chain' (· < ·) idxs ∧ (∀ i ∈ idxs, i < path.length) ∧
      out = idxs.map (fun i => path.getD i Vector3D.zero) ∧
      out.head? = path.head? ∧ out.getLast? = path.getLast? ∧
      List.Sublist out path ∧ out.length ≤ path.length ∧
      (path.length ≤ 2 → out = path) := by
  by_cases hlen : path.length ≤ 2
  · refine ⟨path, List.range path.length, by simp [smoothPath, hlen], ?_, ?_, ?_, rfl, rfl,
      List.Sublist.refl _, le_rfl, fun _ => rfl⟩
    · exact List.chain'_iff_pairwise.mpr (List.pairwise_lt_range _)
    · intro i hi; exact List.mem_range.mp hi
    · exact (copyWaypoints_length_self path).symm
  · obtain ⟨idxs, ht, hs⟩ := smoothPath_trace sqrt m path hlen
    obtain ⟨hc, hb, hl⟩ := smoothTrace_bounds sqrt m path idxs 0 ht
    have hpos : 0 < path.length := by omega
    have hbound : ∀ i ∈ 0 :: idxs, i < path.length := by
      intro i hi
      rcases List.mem_cons.mp hi with rfl | hi
      · exact hpos
      · have := hb i hi; omega
    have hsub : List.Sublist ((0 :: idxs).map (fun k => path.getD k Vector3D.zero)) path :=
      map_getD_sublist Vector3D.zero path (0 :: idxs) (List.chain_iff_pairwise.mp hc) hbound
    refine ⟨_, 0 :: idxs, hs, hc, hbound, rfl, ?_, ?_, hsub, hsub.length_le,
      fun h => absurd h hlen⟩
    · cases path with
      | nil => simp at hpos
      | cons a t => simp
    · rw [List.getLast?_map, hl (by omega), List.getLast?_eq_getElem?, Option.map_some',
        List.getD_eq_getElem?_getD, List.getElem?_eq_getElem (by omega)]
      rfl


theorem noShortcut_of_trace (sqrt : α → α) (m : Map3D α) (path : List (Vector3D α)) :
    ∀ (idxs : List Nat) (i : Nat), SmoothTrace sqrt m path i idxs →
      NoShortcut sqrt m ((i :: idxs).map (fun k => path.getD k Vector3D.zero)) := by
  intro idxs
  induction idxs with
  | nil =>
    intro i _ t u h1 h2
    simp only [List.map_cons, List.map_nil, List.length_singleton] at h2
    omega
  | cons b rest ih =>
    intro i h t u h1 h2
    obtain ⟨_, _, _, h3, _, h5⟩ := h
    obtain ⟨hc, hb, _⟩ := smoothTrace_bounds sqrt m path rest b h5
    have hpw := List.chain_iff_pairwise.mp hc
    simp only [List.map_cons, List.length_cons, List.length_map] at h2
    cases t with
    | zero =>
      obtain ⟨v, rfl⟩ : ∃ v, u = v + 2 := ⟨u - 2, by omega⟩
      have hv : v < rest.length := by omega
      have hmem : rest[v] ∈ rest := List.getElem_mem _
      have e : (rest.map (fun k => path.getD k Vector3D.zero)).getD v Vector3D.zero =
          path.getD rest[v] Vector3D.zero := by
        rw [List.getD_eq_getElem?_getD, List.getElem?_map, List.getElem?_eq_getElem hv]
        rfl
      show m.isPathClear sqrt (path.getD i Vector3D.zero)
        ((rest.map (fun k => path.getD k Vector3D.zero)).getD v Vector3D.zero) 0.5 = some false
      rw [e]
      exact h3 _ (List.rel_of_pairwise_cons hpw hmem) (hb _ hmem)
    | succ t =>
      obtain ⟨v, rfl⟩ : ∃ v, u = v + 1 := ⟨u - 1, by omega⟩
      have := ih b h5 t v (by omega) (by simp; omega)
      simpa only [List.map_cons, List.getD_cons_succ] using this

theorem smoothInner_fallthrough (sqrt : α → α) (m : Map3D α) (q : List (Vector3D α)) (t : Nat) :
    ∀ j, t + 1 ≤ j →
      (∀ c, t + 1 < c → c ≤ j →
        m.isPathClear sqrt (q.getD t Vector3D.zero) (q.getD c Vector3D.zero) 0.5 = some false) →
      smoothInner sqrt m q t j = some (t + 1) := by
  intro j
  induction j with
  | zero => intro h; omega
  | succ j ih =>
    intro h hno
    unfold smoothInner
    by_cases hj : j + 1 > t + 1
    · rw [if_pos hj, hno (j + 1) hj le_rfl]
      exact ih (by omega) (fun c h1 h2 => hno c h1 (by omega))
    · rw [if_neg hj]
      congr 1
      omega

theorem smoothOuter_fixed (sqrt : α → α) (m : Map3D α) (q : List (Vector3D α))
    (hq : NoShortcut sqrt m q) :
    ∀ (fuel t : Nat), t < q.length → q.length - 1 - t ≤ fuel →
      smoothOuter sqrt m q fuel t (q.take (t + 1)) = some q := by
  intro fuel
  induction fuel with
  | zero =>
    intro t ht hf
    unfold smoothOuter
    rw [if_neg (by omega), List.take_of_length_le (by omega)]
  | succ fuel ih =>
    intro t ht hf
    unfold smoothOuter
    by_cases hlt : t < q.length - 1
    · rw [if_pos hlt, smoothInner_fallthrough sqrt m q t (q.length - 1) (by omega)
        (fun c h1 h2 => hq t c h1 (by omega))]
      simp only
      have htake : q.take (t + 1) ++ [q.getD (t + 1) Vector3D.zero] = q.take (t + 1 + 1) := by
        rw [@List.take_succ _ q (t + 1), List.getD_eq_getElem?_getD,
          List.getElem?_eq_getElem (by omega)]
        rfl
      rw [htake]
      exact ih (t + 1) (by omega) (by omega)
    · rw [if_neg hlt, List.take_of_length_le (by omega)]

theorem smoothPath_of_noShortcut (sqrt : α → α) (m : Map3D α) (q : List (Vector3D α))
    (hq : NoShortcut sqrt m q) : smoothPath sqrt m q = some q := by
  unfold smoothPath
  by_cases hlen : q.length ≤ 2
  · rw [if_pos hlen]
  · rw [if_neg hlen]
    have h := smoothOuter_fixed sqrt m q hq q.length 0 (by omega) (by omega)
    have e : q.take (0 + 1) = [q.getD 0 Vector3D.zero] := by
      cases q with
      | nil => simp at hlen
      | cons a r => simp
    rw [e] at h
    exact h

/-- C13: smoothing is idempotent: smoothing the output of `smoothPath` again
returns it unchanged. -/
theorem smoothPath_idempotent (sqrt : α → α) (m : Map3D α) (path : List (Vector3D α)) :
    ∃ q, smoothPath sqrt m path = some q ∧ smoothPath sqrt m q = some q := by
  by_cases hlen : path.length ≤ 2
  · have h : smoothPath sqrt m path = some path := by simp [smoothPath, hlen]
    exact ⟨path, h, h⟩
  · obtain ⟨idxs, ht, hs⟩ := smoothPath_trace sqrt m path hlen
    exact ⟨_, hs, smoothPath_of_noShortcut sqrt m _ (noShortcut_of_trace sqrt m path idxs 0 ht)⟩

end Smoother

/-! ## The occupancy volume, vector equality and the hops of the smoother -/

section Volume

variable {α : Type} [LinearOrderedField α]

/-- C15: `isBlocked(p, margin)` is true for every point with a coordinate
outside the declared extents, whatever the margin and the obstacles; for a
point inside the extents it is true exactly when some obstacle's box, enlarged
by `margin` on every side, contains the point. -/
theorem isBlocked_spec (m : Map3D α) (p : Vector3D α) (margin : α) :
    ((p.x < 0 ∨ p.x ≥ (m.width : α) ∨ p.y < 0 ∨ p.y ≥ (m.depth : α) ∨
        p.z < 0 ∨ p.z ≥ (m.height : α)) → m.isBlocked p margin = true) ∧
    (m.inExtents p →
      (m.isBlocked p margin = true ↔
        ∃ obs ∈ m.obstacles,
          obs.position.x - margin ≤ p.x ∧ p.x ≤ obs.position.x + obs.length + margin ∧
          obs.position.y - margin ≤ p.y ∧ p.y ≤ obs.position.y + obs.width + margin ∧
          obs.position.z - margin ≤ p.z ∧ p.z ≤ obs.position.z + obs.height + margin)) := by
  constructor
  · intro h
    unfold Map3D.isBlocked
    rw [if_pos h]
  · intro ⟨h1, h2, h3, h4, h5, h6⟩
    unfold Map3D.isBlocked
    rw [if_neg (by
      simp only [not_or, not_lt, ge_iff_le, not_le]
      exact ⟨h1, h2, h3, h4, h5, h6⟩)]
    simp only [List.any_eq_true, Obstacle.containsPoint, Bool.and_eq_true, decide_eq_true_eq,
      ge_iff_le, and_assoc]

theorem isPathClearLoop_samples (m : Map3D α) (src u : Vector3D α) (dist step : α)
    (hstep : 0 < step) :
    ∀ (fuel k : Nat),
      (m.isPathClearLoop src u dist step fuel ((k : α) * step) = some true →
        ∀ j : Nat, k ≤ j → (j : α) * step ≤ dist →
          m.isBlocked (src.add (u.mul ((j : α) * step))) 0.5 = false) ∧
      (m.isPathClearLoop src u dist step fuel ((k : α) * step) = some false →
        ∃ j : Nat, k ≤ j ∧ (j : α) * step ≤ dist ∧
          m.isBlocked (src.add (u.mul ((j : α) * step))) 0.5 = true) := by
  have hmono : ∀ k j : Nat, k ≤ j → (k : α) * step ≤ (j : α) * step := by
    intro k j hkj
    exact mul_le_mul_of_nonneg_right (by exact_mod_cast hkj) hstep.le
  intro fuel
  induction fuel with
  | zero =>
    intro k
    unfold Map3D.isPathClearLoop
    by_cases ht : (k : α) * step ≤ dist
    · rw [if_pos ht]
      exact ⟨fun h => (by cases h), fun h => (by cases h)⟩
    · rw [if_neg ht]
      refine ⟨fun _ j hkj hj => ?_, fun h => (by cases h)⟩
      exact absurd (le_trans (hmono k j hkj) hj) ht
  | succ fuel ih =>
    intro k
    unfold Map3D.isPathClearLoop
    by_cases ht : (k : α) * step ≤ dist
    · rw [if_pos ht]
      by_cases hb : m.isBlocked (src.add (u.mul ((k : α) * step))) 0.5 = true
      · simp only [hb, ↓reduceIte]
        exact ⟨fun h => (by cases h), fun _ => ⟨k, le_rfl, ht, hb⟩⟩
      · simp only [hb, Bool.false_eq_true, ↓reduceIte]
        have e : (k : α) * step + step = ((k + 1 : Nat) : α) * step := by push_cast; ring
        rw [e]
        obtain ⟨ih1, ih2⟩ := ih (k + 1)
        constructor
        · intro h j hkj hj
          by_cases hjk : j = k
          · rw [hjk]; simpa using hb
          · exact ih1 h j (by omega) hj
        · intro h
          obtain ⟨j, h1, h2, h3⟩ := ih2 h
          exact ⟨j, by omega, h2, h3⟩
    · rw [if_neg ht]
      refine ⟨fun _ j hkj hj => ?_, fun h => (by cases h)⟩
      exact absurd (le_trans (hmono k j hkj) hj) ht

theorem foldl_top_spec (tops : List (Obstacle α)) :
    ∀ init : α,
      init ≤ tops.foldl (fun maxH obs =>
        if obs.position.z + obs.height > maxH then obs.position.z + obs.height else maxH) init ∧
      (∀ o ∈ tops, o.position.z + o.height ≤ tops.foldl (fun maxH obs =>
        if obs.position.z + obs.height > maxH then obs.position.z + obs.height else maxH) init) ∧
      (tops.foldl (fun maxH obs =>
        if obs.position.z + obs.height > maxH then obs.position.z + obs.height else maxH) init
          = init ∨
        ∃ o ∈ tops, o.position.z + o.height = tops.foldl (fun maxH obs =>
          if obs.position.z + obs.height > maxH then obs.position.z + obs.height else maxH)
            init) := by
  induction tops with
  | nil => intro init; exact ⟨le_rfl, fun o ho => (by simp at ho), Or.inl rfl⟩
  | cons a rest ih =>
    intro init
    simp only [List.foldl_cons]
    by_cases hgt : a.position.z + a.height > init
    · simp only [hgt, ↓reduceIte]
      obtain ⟨h1, h2, h3⟩ := ih (a.position.z + a.height)
      refine ⟨le_trans hgt.le h1, ?_, ?_⟩
      · intro o ho
        rcases List.mem_cons.mp ho with rfl | ho
        · exact h1
        · exact h2 o ho
      · right
        rcases h3 with h3 | ⟨o, ho, h3⟩
        · exact ⟨a, List.mem_cons_self _ _, h3.symm⟩
        · exact ⟨o, List.mem_cons_of_mem _ ho, h3⟩
    · simp only [hgt, ↓reduceIte]
      obtain ⟨h1, h2, h3⟩ := ih init
      refine ⟨h1, ?_, ?_⟩
      · intro o ho
        rcases List.mem_cons.mp ho with rfl | ho
        · exact le_trans (not_lt.mp hgt) h1
        · exact h2 o ho
      · rcases h3 with h3 | ⟨o, ho, h3⟩
        · exact Or.inl h3
        · exact Or.inr ⟨o, List.mem_cons_of_mem _ ho, h3⟩

/-- C17 (amended): `getSafeAltitude()` is the larger of 0 and the highest
obstacle top, plus 2: it is at least 2, at least every top plus 2, and it is 2
or some top plus 2; when some obstacle top is non-negative it is the highest
top plus 2. -/
theorem getSafeAltitude_spec (m : Map3D α) :
    2 ≤ m.getSafeAltitude ∧
    (∀ o ∈ m.obstacles, o.position.z + o.height + 2 ≤ m.getSafeAltitude) ∧
    (m.getSafeAltitude = 2 ∨
      ∃ o ∈ m.obstacles, m.getSafeAltitude = o.position.z + o.height + 2) ∧
    ((∃ o ∈ m.obstacles, 0 ≤ o.position.z + o.height) →
      ∃ o ∈ m.obstacles, m.getSafeAltitude = o.position.z + o.height + 2 ∧
        ∀ o2 ∈ m.obstacles, o2.position.z + o2.height ≤ o.position.z + o.height) := by
  obtain ⟨h1, h2, h3⟩ := foldl_top_spec m.obstacles (0 : α)
  unfold Map3D.getSafeAltitude
  simp only
  refine ⟨by linarith, fun o ho => (by linarith [h2 o ho]), ?_, ?_⟩
  · rcases h3 with h3 | ⟨o, ho, h3⟩
    · left; rw [h3]; ring
    · right; exact ⟨o, ho, by rw [← h3]⟩
  · rintro ⟨o, ho, hpos⟩
    rcases h3 with h3 | ⟨o3, ho3, h3⟩
    · have hle := h2 o ho
      rw [h3] at hle
      have he : o.position.z + o.height = 0 := le_antisymm hle hpos
      refine ⟨o, ho, by rw [h3, he], ?_⟩
      intro o2 ho2
      have := h2 o2 ho2
      rw [h3] at this
      rw [he]; exact this
    · refine ⟨o3, ho3, by rw [← h3], ?_⟩
      intro o2 ho2
      rw [h3]; exact h2 o2 ho2

/-- C18: `a == b` holds exactly when the three coordinate differences are below
0.1 in absolute value; the relation is reflexive and symmetric but not
transitive. -/
theorem vector_eq_spec :
    (∀ a b : Vector3D α, a.eq b = true ↔
      |a.x - b.x| < 0.1 ∧ |a.y - b.y| < 0.1 ∧ |a.z - b.z| < 0.1) ∧
    (∀ a : Vector3D α, a.eq a = true) ∧
    (∀ a b : Vector3D α, a.eq b = true → b.eq a = true) ∧
    ∃ a b c : Vector3D α, a.eq b = true ∧ b.eq c = true ∧ a.eq c = false := by
  have hiff : ∀ a b : Vector3D α, a.eq b = true ↔
      |a.x - b.x| < 0.1 ∧ |a.y - b.y| < 0.1 ∧ |a.z - b.z| < 0.1 := by
    intro a b
    simp only [Vector3D.eq, Bool.and_eq_true, decide_eq_true_eq, and_assoc]
  refine ⟨hiff, vector_eq_self, ?_, ?_⟩
  · intro a b h
    rw [hiff] at h ⊢
    rw [abs_sub_comm b.x, abs_sub_comm b.y, abs_sub_comm b.z]
    exact h
  · refine ⟨⟨0, 0, 0⟩, ⟨0.06, 0, 0⟩, ⟨0.12, 0, 0⟩, ?_, ?_, ?_⟩
    · rw [hiff]; norm_num [abs_lt]
    · rw [hiff]; norm_num [abs_lt]
    · have : ¬ (Vector3D.eq (⟨0, 0, 0⟩ : Vector3D α) ⟨0.12, 0, 0⟩ = true) := by
        rw [hiff]; norm_num [abs_lt]
      simpa using this


variable [FloorRing α]

/-- C12 (amended): every consecutive pair of the output of `smoothPath` passes
the line-of-sight test with step 0.5 or is a pair of neighbouring waypoints of
the input, which `smoothPath` hands on without testing. -/
theorem smoothPath_hops (sqrt : α → α) (m : Map3D α) (path : List (Vector3D α)) :
    ∃ out, smoothPath sqrt m path = some out ∧ List.Chain' (SmoothHop sqrt m path) out := by
  obtain ⟨out, ho, _⟩ := smoothPath_terminates sqrt m path
  exact ⟨out, ho, smoothPath_chain sqrt m path out ho⟩

omit [FloorRing α] in
theorem magnitude_sub_eq_distanceTo (sqrt : α → α) (src dst : Vector3D α) :
    (dst.sub src).magnitude sqrt = src.distanceTo sqrt dst := by
  unfold Vector3D.magnitude Vector3D.distanceTo Vector3D.sub
  congr 1
  ring

theorem isPathClear_of_short (sqrt : α → α) (m : Map3D α) (src dst : Vector3D α)
    (hb : m.isBlocked src 0.5 = false) (hd : (dst.sub src).magnitude sqrt < 0.5) :
    m.isPathClear sqrt src dst 0.5 = some true := by
  unfold Map3D.isPathClear
  by_cases h1 : (dst.sub src).magnitude sqrt < 0.01
  · simp only [h1, ↓reduceIte]
  · simp only [h1, ↓reduceIte]
    have h0 : (0 : α) ≤ (dst.sub src).magnitude sqrt :=
      le_trans (by norm_num) (not_lt.mp h1)
    have hfl : ⌊(dst.sub src).magnitude sqrt / 0.5⌋₊ = 0 := by
      rw [Nat.floor_eq_zero, div_lt_one (by norm_num)]
      exact hd
    rw [hfl]
    unfold Map3D.isPathClearLoop
    rw [if_pos h0, add_mul_zero]
    simp only [hb, Bool.false_eq_true, ↓reduceIte, zero_add]
    unfold Map3D.isPathClearLoop
    rw [if_neg (not_le.mpr hd)]

end Volume

/-! ## Scenarios over the reals -/

section FreeSegment

variable {α : Type} [LinearOrderedField α] [FloorRing α]

theorem isPathClear_of_free (sqrt : α → α) (m : Map3D α) (src dst : Vector3D α)
    (hfree : ∀ t, 0 ≤ t → t ≤ (dst.sub src).magnitude sqrt →
      m.isBlocked (src.add (((dst.sub src).normalize sqrt).mul t)) 0.5 = false) :
    m.isPathClear sqrt src dst 0.5 = some true := by
  obtain ⟨b, hb⟩ := isPathClear_terminates sqrt m src dst 0.5 half_pos_lit
  cases b with
  | true => exact hb
  | false =>
    exfalso
    unfold Map3D.isPathClear at hb
    by_cases hlt : (dst.sub src).magnitude sqrt < 0.01
    · simp [hlt] at hb
    · simp only [hlt, ↓reduceIte] at hb
      exact isPathClearLoop_unblocked m src _ _ 0.5 (by norm_num) hfree _ 0 le_rfl hb

end FreeSegment

section Scenarios

theorem outside_neighbors_blocked_step (m : Map3D ℝ) (x y z g : ℝ) (hg : 0 ≤ g)
    (hx : x + g < 0) :
    ∀ d ∈ neighborOffsets,
      m.isBlocked ⟨x + ((d.1 : Int) : ℝ) * g, y + ((d.2.1 : Int) : ℝ) * g,
        z + ((d.2.2 : Int) : ℝ) * g⟩ 0.5 = true := by
  intro d hd
  have h1 : ((d.1 : Int) : ℝ) ≤ 1 := by exact_mod_cast offsets_bounded d hd
  have h2 : ((d.1 : Int) : ℝ) * g ≤ 1 * g := mul_le_mul_of_nonneg_right h1 hg
  unfold Map3D.isBlocked
  rw [if_pos]
  left
  show x + ((d.1 : Int) : ℝ) * g < 0
  linarith

theorem square_lt_of_abs_lt (a : ℝ) (h : |a| < 0.1) : a ^ 2 < 0.01 := by
  obtain ⟨h1, h2⟩ := abs_lt.mp h
  nlinarith

theorem distance_lt_of_eq (a b : Vector3D ℝ) (h : a.eq b = true) :
    a.distanceTo Real.sqrt b < 0.18 := by
  simp only [Vector3D.eq, Bool.and_eq_true, decide_eq_true_eq] at h
  obtain ⟨⟨h1, h2⟩, h3⟩ := h
  unfold Vector3D.distanceTo
  rw [Real.sqrt_lt' (by norm_num)]
  have := square_lt_of_abs_lt _ h1
  have := square_lt_of_abs_lt _ h2
  have := square_lt_of_abs_lt _ h3
  norm_num
  linarith

/-- C14 (amended): for start and end equal within the tolerance (`start ==
end`), `findPath` returns exactly `[start, end]` when the start is not blocked,
or when `distance(start, end) < 1.5 * gridStep`, which is the case for every
grid step of at least 0.12; the queue is assumed to meet its contract. -/
theorem findPath_same_point (pq : PriorityQueue (PathNode ℝ)) (hpq : pq.Lawful PathNode.gt)
    (pf : PathFinder3D ℝ) (start target : Vector3D ℝ) (heq : start.eq target = true)
    (hg : pf.map.isBlocked start 0.5 = false ∨ 0.12 ≤ pf.gridStep ∨
      start.distanceTo Real.sqrt target < pf.gridStep * 1.5) :
    ∃ r, pf.findPath pq Real.sqrt start target = some r ∧ r.path = [start, target] := by
  have hd := distance_lt_of_eq start target heq
  obtain ⟨b, hb⟩ := isPathClear_terminates Real.sqrt pf.map start target 0.5 half_pos_lit
  cases b with
  | true => exact ⟨_, findPath_of_clear pq Real.sqrt pf start target hb, rfl⟩
  | false =>
    have hnear : start.distanceTo Real.sqrt target < pf.gridStep * 1.5 := by
      rcases hg with hg | hg | hg
      · have := isPathClear_of_short Real.sqrt pf.map start target hg
          (by rw [magnitude_sub_eq_distanceTo]; linarith)
        rw [hb] at this
        cases this
      · linarith
      · exact hg
    exact ⟨_, findPath_accept_start pq hpq Real.sqrt pf start target hb hnear, rfl⟩

theorem tiny_hop_distance :
    Vector3D.distanceTo Real.sqrt (⟨-5, -5, -5⟩ : Vector3D ℝ) ⟨-5, -5, -4.95⟩ = 0.05 := by
  simp only [Vector3D.distanceTo]
  rw [show ((-5 : ℝ) - -5) ^ 2 + (-5 - -5) ^ 2 + (-5 - -4.95) ^ 2 = 0.05 ^ 2 by norm_num]
  exact Real.sqrt_sq (by norm_num)

theorem tiny_hop_eq :
    Vector3D.eq (⟨-5, -5, -5⟩ : Vector3D ℝ) ⟨-5, -5, -4.95⟩ = true := by
  simp only [Vector3D.eq, Bool.and_eq_true, decide_eq_true_eq]
  norm_num [abs_lt]

theorem tiny_hop_blocked (g : ℝ) :
    (PathFinder3D.new (⟨50, 25, 20, []⟩ : Map3D ℝ) g).map.isPathClear Real.sqrt
      ⟨-5, -5, -5⟩ ⟨-5, -5, -4.95⟩ 0.5 = some false := by
  refine isPathClear_of_src_blocked Real.sqrt _ _ _ _ (outside_blocked _ _ (by norm_num)) ?_
  rw [magnitude_sub_eq_distanceTo, tiny_hop_distance]
  norm_num

/-- The statement of C14 at a blocked start with grid step 1. -/
theorem findPath_same_point_witness :
    (listQueue (PathNode.gt : PathNode ℝ → PathNode ℝ → Bool)).Lawful PathNode.gt ∧
    Vector3D.eq (⟨-5, -5, -5⟩ : Vector3D ℝ) ⟨-5, -5, -4.95⟩ = true ∧
    (PathFinder3D.new (⟨50, 25, 20, []⟩ : Map3D ℝ) 1).map.isBlocked ⟨-5, -5, -5⟩ 0.5 = true ∧
    ∃ r, (PathFinder3D.new (⟨50, 25, 20, []⟩ : Map3D ℝ) 1).findPath (listQueue PathNode.gt)
        Real.sqrt ⟨-5, -5, -5⟩ ⟨-5, -5, -4.95⟩ = some r ∧
      r.path = [⟨-5, -5, -5⟩, ⟨-5, -5, -4.95⟩] :=
  ⟨listQueue_lawful, tiny_hop_eq, outside_blocked _ _ (by norm_num),
    findPath_same_point (listQueue PathNode.gt) listQueue_lawful
      (PathFinder3D.new (⟨50, 25, 20, []⟩ : Map3D ℝ) 1) ⟨-5, -5, -5⟩ ⟨-5, -5, -4.95⟩
      tiny_hop_eq (Or.inr (Or.inl (by norm_num [PathFinder3D.new])))⟩

/-- C14, the claim as stated fails for a small grid step: with grid step 0.01,
start `(-5, -5, -5)` outside the 50×25×20 volume and end `(-5, -5, -4.95)`, the
two points are equal within the tolerance, yet the start node fails the goal
test (0.05 ≥ 0.015), has no unblocked neighbour, and `findPath` returns the
four fallback points. -/
theorem findPath_same_point_counterexample :
    Vector3D.eq (⟨-5, -5, -5⟩ : Vector3D ℝ) ⟨-5, -5, -4.95⟩ = true ∧
    (0 : ℝ) < (PathFinder3D.new (⟨50, 25, 20, []⟩ : Map3D ℝ) 0.01).gridStep ∧
    ∃ r, (PathFinder3D.new (⟨50, 25, 20, []⟩ : Map3D ℝ) 0.01).findPath
        (listQueue PathNode.gt) Real.sqrt ⟨-5, -5, -5⟩ ⟨-5, -5, -4.95⟩ = some r ∧
      r.path = [⟨-5, -5, -5⟩, ⟨-5, -5, 2⟩, ⟨-5, -5, 2⟩, ⟨-5, -5, -4.95⟩] ∧
      r.path ≠ [⟨-5, -5, -5⟩, ⟨-5, -5, -4.95⟩] := by
  refine ⟨tiny_hop_eq, by norm_num [PathFinder3D.new], ?_⟩
  obtain ⟨r, hr, hp⟩ := findPath_fallback_of (listQueue PathNode.gt) listQueue_lawful
    Real.sqrt (PathFinder3D.new (⟨50, 25, 20, []⟩ : Map3D ℝ) 0.01) ⟨-5, -5, -5⟩
    ⟨-5, -5, -4.95⟩ (fun p => p = ⟨-5, -5, -5⟩) (tiny_hop_blocked _) rfl
    (fun p hp hlt => by
      rw [hp, tiny_hop_distance] at hlt
      norm_num [PathFinder3D.new] at hlt)
    (fun p hp nb hnb => by
      rw [hp, getNeighbors_eq_nil _ _
        (outside_neighbors_blocked_step _ _ _ _ _ (by norm_num [PathFinder3D.new])
          (by norm_num [PathFinder3D.new]))] at hnb
      cases hnb)
  have hsafe : (PathFinder3D.new (⟨50, 25, 20, []⟩ : Map3D ℝ) 0.01).map.getSafeAltitude = 2 := by
    simp [PathFinder3D.new, Map3D.getSafeAltitude]
  rw [hsafe] at hp
  refine ⟨r, hr, hp, ?_⟩
  rw [hp]
  simp


theorem outside_two_blocked :
    (⟨50, 25, 20, []⟩ : Map3D ℝ).isPathClear Real.sqrt ⟨-5, -5, -5⟩ ⟨-5, -5, -3⟩ 0.5
      = some false := by
  refine isPathClear_of_src_blocked Real.sqrt _ _ _ _ (outside_blocked _ _ (by norm_num)) ?_
  rw [magnitude_sub_eq_distanceTo]
  simp only [Vector3D.distanceTo]
  rw [show ((-5 : ℝ) - -5) ^ 2 + (-5 - -5) ^ 2 + (-5 - -3) ^ 2 = 2 ^ 2 by norm_num,
    Real.sqrt_sq (by norm_num)]
  norm_num

/-- C12, the claim as stated fails: for three collinear points outside the
empty 50×25×20 volume the only shortcut is rejected, `smoothPath` falls through
to each successor and returns the input, whose first pair does not pass the
line-of-sight test. -/
theorem smoothPath_hops_counterexample :
    smoothPath Real.sqrt (⟨50, 25, 20, []⟩ : Map3D ℝ)
        [⟨-5, -5, -5⟩, ⟨-5, -5, -4⟩, ⟨-5, -5, -3⟩] =
      some [⟨-5, -5, -5⟩, ⟨-5, -5, -4⟩, ⟨-5, -5, -3⟩] ∧
    (⟨50, 25, 20, []⟩ : Map3D ℝ).isPathClear Real.sqrt ⟨-5, -5, -5⟩ ⟨-5, -5, -4⟩ 0.5
      = some false := by
  refine ⟨smoothPath_of_noShortcut Real.sqrt _ _ ?_, outside_near_blocked⟩
  intro t u h1 h2
  simp only [List.length_cons, List.length_nil] at h2
  obtain ⟨rfl, rfl⟩ : t = 0 ∧ u = 2 := by omega
  exact outside_two_blocked

/-- C17, the claim as stated fails when every obstacle top is negative: with
the single obstacle at `z = -10` of height 3 the highest top plus 2 is `-5`,
and `getSafeAltitude()` is 2. -/
theorem getSafeAltitude_counterexample :
    (⟨50, 25, 20, [⟨⟨0, 0, -10⟩, 1, 1, 3⟩]⟩ : Map3D ℝ).getSafeAltitude = 2 ∧
    (∀ o ∈ (⟨50, 25, 20, [⟨⟨0, 0, -10⟩, 1, 1, 3⟩]⟩ : Map3D ℝ).obstacles,
      o.position.z + o.height + 2 = -5) ∧
    (⟨50, 25, 20, [⟨⟨0, 0, -10⟩, 1, 1, 3⟩]⟩ : Map3D ℝ).getSafeAltitude ≠ -5 := by
  have h : (⟨50, 25, 20, [⟨⟨0, 0, -10⟩, 1, 1, 3⟩]⟩ : Map3D ℝ).getSafeAltitude = 2 := by
    simp only [Map3D.getSafeAltitude, List.foldl_cons, List.foldl_nil]
    norm_num
  refine ⟨h, ?_, by rw [h]; norm_num⟩
  intro o ho
  simp only [List.mem_singleton] at ho
  subst ho
  norm_num


theorem tower_distance :
    Vector3D.distanceTo Real.sqrt (⟨0, 0, 1⟩ : Vector3D ℝ) ⟨20, 0, 1⟩ = 20 := by
  simp only [Vector3D.distanceTo]
  rw [show ((0 : ℝ) - 20) ^ 2 + (0 - 0) ^ 2 + (1 - 1) ^ 2 = 20 ^ 2 by norm_num]
  exact Real.sqrt_sq (by norm_num)

theorem tower_clear :
    (PathFinder3D.new (⟨50, 25, 20, [⟨⟨5, 5, 0⟩, 4, 4, 12⟩]⟩ : Map3D ℝ) 1).map.isPathClear
      Real.sqrt ⟨0, 0, 1⟩ ⟨20, 0, 1⟩ 0.5 = some true := by
  have hm : ((⟨20, 0, 1⟩ : Vector3D ℝ).sub ⟨0, 0, 1⟩).magnitude Real.sqrt = 20 := by
    rw [magnitude_sub_eq_distanceTo, tower_distance]
  have hn : ((⟨20, 0, 1⟩ : Vector3D ℝ).sub ⟨0, 0, 1⟩).normalize Real.sqrt = ⟨1, 0, 0⟩ := by
    unfold Vector3D.normalize
    simp only [hm]
    norm_num [Vector3D.div, Vector3D.sub]
  apply isPathClear_of_free
  intro t ht0 ht1
  rw [hm] at ht1
  rw [hn]
  unfold Map3D.isBlocked
  rw [if_neg (by
    simp only [Vector3D.add, Vector3D.mul, PathFinder3D.new]
    norm_num
    exact ⟨ht0, by linarith⟩)]
  simp [PathFinder3D.new, Obstacle.containsPoint, Vector3D.add, Vector3D.mul]
  intro _ _
  norm_num

/-- C19 (amended): in the 50×25×20 volume with the single box at `(5, 5, 0)` of
size 4×4×12 and grid step 1, the direct line from `(0, 0, 1)` to `(20, 0, 1)`
is clear (it runs at `y = 0`, the enlarged box starts at `y = 4.5`), and
`findPath` returns exactly `[start, end]` without searching, of total length
20. -/
theorem findPath_tower_scenario :
    (PathFinder3D.new (⟨50, 25, 20, [⟨⟨5, 5, 0⟩, 4, 4, 12⟩]⟩ : Map3D ℝ) 1).map.isPathClear
      Real.sqrt ⟨0, 0, 1⟩ ⟨20, 0, 1⟩ 0.5 = some true ∧
    ∃ r, (PathFinder3D.new (⟨50, 25, 20, [⟨⟨5, 5, 0⟩, 4, 4, 12⟩]⟩ : Map3D ℝ) 1).findPath
        (listQueue PathNode.gt) Real.sqrt ⟨0, 0, 1⟩ ⟨20, 0, 1⟩ = some r ∧
      r.path = [⟨0, 0, 1⟩, ⟨20, 0, 1⟩] ∧ r.iterations = 0 ∧
      calculatePathDistance Real.sqrt r.path = 20 :=
  ⟨tower_clear, _, findPath_of_clear _ _ _ _ _ tower_clear, rfl, rfl,
    (calculatePathDistance_pair Real.sqrt _ _).trans tower_distance⟩

/-- C19, the claim as stated fails: in that scenario `findPath` does not return
a path of more than two waypoints with total length above 20. -/
theorem findPath_tower_counterexample :
    ¬ ∃ r, (PathFinder3D.new (⟨50, 25, 20, [⟨⟨5, 5, 0⟩, 4, 4, 12⟩]⟩ : Map3D ℝ) 1).findPath
        (listQueue PathNode.gt) Real.sqrt ⟨0, 0, 1⟩ ⟨20, 0, 1⟩ = some r ∧
      2 < r.path.length ∧ 20 < calculatePathDistance Real.sqrt r.path := by
  rintro ⟨r, hr, hlen, _⟩
  rw [findPath_of_clear _ _ _ _ _ tower_clear] at hr
  cases hr
  simp at hlen

theorem scenario_distance :
    Vector3D.distanceTo Real.sqrt (⟨2, 2, 1⟩ : Vector3D ℝ) ⟨45, 20, 2⟩ = Real.sqrt 2174 := by
  simp only [Vector3D.distanceTo]
  norm_num

theorem scenario_clear :
    (PathFinder3D.new (⟨50, 25, 20, []⟩ : Map3D ℝ) 1).map.isPathClear Real.sqrt
      ⟨2, 2, 1⟩ ⟨45, 20, 2⟩ 0.5 = some true :=
  isPathClear_of_inExtents Real.sqrt (⟨50, 25, 20, []⟩ : Map3D ℝ) rfl
    ⟨2, 2, 1⟩ ⟨45, 20, 2⟩ inExtents_witness_start inExtents_witness_target

/-- C20 (amended): in the empty 50×25×20 volume the path from `(2, 2, 1)` to
`(45, 20, 2)` has total length `distance(start, end)`, the square root of 2174,
which lies within 0.1 of 46.6. -/
theorem findPath_empty_scenario :
    ∃ r, (PathFinder3D.new (⟨50, 25, 20, []⟩ : Map3D ℝ) 1).findPath (listQueue PathNode.gt)
        Real.sqrt ⟨2, 2, 1⟩ ⟨45, 20, 2⟩ = some r ∧
      calculatePathDistance Real.sqrt r.path =
        Vector3D.distanceTo Real.sqrt (⟨2, 2, 1⟩ : Vector3D ℝ) ⟨45, 20, 2⟩ ∧
      |calculatePathDistance Real.sqrt r.path - 46.6| < 0.1 := by
  refine ⟨_, findPath_of_clear _ _ _ _ _ scenario_clear,
    calculatePathDistance_pair Real.sqrt _ _, ?_⟩
  show |calculatePathDistance Real.sqrt [(⟨2, 2, 1⟩ : Vector3D ℝ), ⟨45, 20, 2⟩] - 46.6| < 0.1
  rw [calculatePathDistance_pair, scenario_distance, abs_lt]
  constructor
  · have : (46.5 : ℝ) < Real.sqrt 2174 := (Real.lt_sqrt (by norm_num)).mpr (by norm_num)
    linarith
  · have : Real.sqrt 2174 < 46.7 := (Real.sqrt_lt' (by norm_num)).mpr (by norm_num)
    linarith

/-- C20, the claim as stated fails: the total length of that path is not within
0.1 of 48.4. -/
theorem findPath_empty_counterexample :
    ∃ r, (PathFinder3D.new (⟨50, 25, 20, []⟩ : Map3D ℝ) 1).findPath (listQueue PathNode.gt)
        Real.sqrt ⟨2, 2, 1⟩ ⟨45, 20, 2⟩ = some r ∧
      ¬ |calculatePathDistance Real.sqrt r.path - 48.4| ≤ 0.1 := by
  refine ⟨_, findPath_of_clear _ _ _ _ _ scenario_clear, ?_⟩
  show ¬ |calculatePathDistance Real.sqrt [(⟨2, 2, 1⟩ : Vector3D ℝ), ⟨45, 20, 2⟩] - 48.4| ≤ 0.1
  rw [calculatePathDistance_pair, scenario_distance, abs_le]
  have : Real.sqrt 2174 < 46.7 := (Real.sqrt_lt' (by norm_num)).mpr (by norm_num)
  rintro ⟨h1, _⟩
  linarith

end Scenarios

/-! ## The search loop as a step relation

`LoopReaches` describes the states in which the `while` test of `findPath` is
evaluated.  The lemmas below tie it to `searchLoop` and establish the
invariants of every reached state. -/

section LoopInvariants

variable {α : Type} [LinearOrderedField α] [FloorRing α]

theorem accepted_from_reached (pq : PriorityQueue (PathNode α)) (sqrt : α → α)
    (pf : PathFinder3D α) (start target : Vector3D α) (cur : PathNode α)
    (nodes : List (PathNode α)) (n : Nat) :
    ∀ (left it : Nat) (openSet : pq.Q) (closedSet : List ((Int × Int × Int) × α))
      (allNodes : List (PathNode α)),
      LoopReaches pq sqrt pf start target it openSet closedSet allNodes →
      it + left = maxIter →
      searchLoop pq sqrt pf target left it openSet closedSet allNodes =
        SearchOutcome.accepted cur nodes n →
      ∃ (i : Nat) (o : pq.Q) (c : List ((Int × Int × Int) × α)) (o1 : pq.Q),
        n = i + 1 ∧ i < maxIter ∧ LoopReaches pq sqrt pf start target i o c nodes ∧
        pq.pop o = some (cur, o1) ∧ closedContains c (posKey cur.pos) = false ∧
        cur.pos.distanceTo sqrt target < pf.gridStep * 1.5 := by
  intro left
  induction left with
  | zero =>
    intro it _ _ _ _ _ h
    simp [searchLoop] at h
  | succ left ih =>
    intro it openSet closedSet allNodes hr hsum h
    unfold searchLoop at h
    cases hpop : pq.pop openSet with
    | none => simp [hpop] at h
    | some top =>
      obtain ⟨c0, open1⟩ := top
      simp only [hpop] at h
      by_cases hc : closedContains closedSet (posKey c0.pos) = true
      · simp only [hc, ↓reduceIte] at h
        exact ih _ _ _ _ (LoopReaches.skip hr (by omega) hpop hc) (by omega) h
      · have hc2 : closedContains closedSet (posKey c0.pos) = false := by simpa using hc
        simp only [hc2, Bool.false_eq_true, ↓reduceIte] at h
        by_cases hg : c0.pos.distanceTo sqrt target < pf.gridStep * 1.5
        · simp only [hg, ↓reduceIte, SearchOutcome.accepted.injEq] at h
          obtain ⟨h1, h2, h3⟩ := h
          subst h1 h2
          exact ⟨it, openSet, closedSet, open1, h3.symm, by omega, hr, hpop, hc2, hg⟩
        · simp only [hg, ↓reduceIte] at h
          exact ih _ _ _ _ (LoopReaches.expand hr (by omega) hpop hc2 hg) (by omega) h

theorem exploreNeighbors_eq (pq : PriorityQueue (PathNode α)) (sqrt : α → α)
    (target : Vector3D α) (closedSet : List ((Int × Int × Int) × α)) (current : PathNode α)
    (currentIdx : Int) :
    ∀ (nbs : List (Vector3D α)) (openSet : pq.Q) (allNodes : List (PathNode α)),
      exploreNeighbors pq sqrt target closedSet current currentIdx nbs openSet allNodes =
        (((nbs.filter (fun nb => !closedContains closedSet (posKey nb))).map
            (fun nb => (⟨nb, current.gCost + current.pos.distanceTo sqrt nb,
              nb.distanceTo sqrt target, currentIdx⟩ : PathNode α))).foldl pq.push openSet,
          allNodes ++ (nbs.filter (fun nb => !closedContains closedSet (posKey nb))).map
            (fun nb => (⟨nb, current.gCost + current.pos.distanceTo sqrt nb,
              nb.distanceTo sqrt target, currentIdx⟩ : PathNode α))) := by
  intro nbs
  induction nbs with
  | nil => intro openSet allNodes; simp [exploreNeighbors]
  | cons nb rest ih =>
    intro openSet allNodes
    unfold exploreNeighbors
    by_cases hc : closedContains closedSet (posKey nb) = true
    · simp only [hc, ↓reduceIte, ih, List.filter_cons, Bool.not_true, Bool.false_eq_true]
    · have hc2 : closedContains closedSet (posKey nb) = false := by simpa using hc
      simp only [hc2, Bool.false_eq_true, ↓reduceIte, ih, List.filter_cons, Bool.not_false,
        List.map_cons, List.foldl_cons, List.append_assoc, List.singleton_append]

omit [FloorRing α] in
theorem getNeighbors_eq_filter (pf : PathFinder3D α) (pos : Vector3D α) :
    pf.getNeighbors pos =
      (neighborOffsets.map (fun d => (⟨pos.x + ((d.1 : Int) : α) * pf.gridStep,
        pos.y + ((d.2.1 : Int) : α) * pf.gridStep,
        pos.z + ((d.2.2 : Int) : α) * pf.gridStep⟩ : Vector3D α))).filter
        (fun p => !pf.map.isBlocked p 0.5) := by
  unfold PathFinder3D.getNeighbors
  induction neighborOffsets with
  | nil => rfl
  | cons d rest ih =>
    simp only [List.filterMap_cons, List.map_cons, List.filter_cons]
    by_cases hb : pf.map.isBlocked ⟨pos.x + ((d.1 : Int) : α) * pf.gridStep,
        pos.y + ((d.2.1 : Int) : α) * pf.gridStep,
        pos.z + ((d.2.2 : Int) : α) * pf.gridStep⟩ 0.5 = true
    · simp only [hb, Bool.not_true, Bool.false_eq_true, ↓reduceIte]
      exact ih
    · have hb2 : pf.map.isBlocked ⟨pos.x + ((d.1 : Int) : α) * pf.gridStep,
          pos.y + ((d.2.1 : Int) : α) * pf.gridStep,
          pos.z + ((d.2.2 : Int) : α) * pf.gridStep⟩ 0.5 = false := by simpa using hb
      simp only [hb2, Bool.not_false, ↓reduceIte]
      rw [ih]

theorem neighborOffsets_length : neighborOffsets.length = 26 := by decide

omit [FloorRing α] in
theorem getNeighbors_length_le (pf : PathFinder3D α) (pos : Vector3D α) :
    (pf.getNeighbors pos).length ≤ 26 := by
  rw [getNeighbors_eq_filter]
  refine le_trans (List.length_filter_le _ _) ?_
  rw [List.length_map, neighborOffsets_length]

theorem exploreNeighbors_length_le (pq : PriorityQueue (PathNode α)) (sqrt : α → α)
    (target : Vector3D α) (closedSet : List ((Int × Int × Int) × α)) (current : PathNode α)
    (currentIdx : Int) (nbs : List (Vector3D α)) (openSet : pq.Q)
    (allNodes : List (PathNode α)) :
    (exploreNeighbors pq sqrt target closedSet current currentIdx nbs openSet allNodes).2.length
      ≤ allNodes.length + nbs.length := by
  rw [exploreNeighbors_eq]
  simp only [List.length_append, List.length_map]
  exact Nat.add_le_add_left (List.length_filter_le _ _) _


omit [LinearOrderedField α] [FloorRing α] in
theorem closedContains_eq_false (closedSet : List ((Int × Int × Int) × α))
    (key : Int × Int × Int) :
    closedContains closedSet key = false ↔ key ∉ closedSet.map (fun e => e.1) := by
  unfold closedContains
  rw [← Bool.not_eq_true, List.any_eq_true]
  simp only [decide_eq_true_eq, List.mem_map, not_exists, not_and]

theorem reaches_inv (pq : PriorityQueue (PathNode α)) (sqrt : α → α) (pf : PathFinder3D α)
    (start target : Vector3D α) {it : Nat} {openSet : pq.Q}
    {closedSet : List ((Int × Int × Int) × α)} {allNodes : List (PathNode α)}
    (h : LoopReaches pq sqrt pf start target it openSet closedSet allNodes) :
    allNodes.length ≤ 1 + 26 * it ∧
    (∀ n ∈ allNodes, n.hCost = n.pos.distanceTo sqrt target) ∧
    (closedSet.map (fun e => e.1)).Nodup ∧
    (∃ rest, allNodes = ⟨start, 0, start.distanceTo sqrt target, -1⟩ :: rest ∧
      ∀ n ∈ rest, 0 ≤ n.parentIdx) ∧
    ParentsBelow allNodes := by
  induction h with
  | init =>
    refine ⟨by simp, ?_, by simp, ⟨[], rfl, fun n hn => (by simp at hn)⟩,
      parentsBelow_start _ rfl⟩
    intro n hn
    simp only [List.mem_singleton] at hn
    rw [hn]
  | skip _ _ _ _ ih =>
    obtain ⟨h1, h2, h3, h4, h5⟩ := ih
    exact ⟨by omega, h2, h3, h4, h5⟩
  | @expand it0 o c a cur o1 _ hlt hpop hc hg ih =>
    obtain ⟨h1, h2, h3, ⟨rest, h4, h4b⟩, h5⟩ := ih
    have hlen : 0 < a.length := by rw [h4]; simp
    have hx := exploreNeighbors_parentsBelow pq sqrt target ((posKey cur.pos, cur.gCost) :: c)
      cur ((a.length : Int) - 1) (by omega) (pf.getNeighbors cur.pos) o1 a h5 (by omega)
    have hl := exploreNeighbors_length_le pq sqrt target ((posKey cur.pos, cur.gCost) :: c)
      cur ((a.length : Int) - 1) (pf.getNeighbors cur.pos) o1 a
    have hn := getNeighbors_length_le pf cur.pos
    refine ⟨by omega, ?_, ?_, ?_, hx.1⟩
    · rw [exploreNeighbors_eq]
      intro n hn
      rcases List.mem_append.mp hn with hn | hn
      · exact h2 n hn
      · obtain ⟨nb, _, rfl⟩ := List.mem_map.mp hn
        rfl
    · rw [List.map_cons, List.nodup_cons]
      exact ⟨(closedContains_eq_false c _).mp hc, h3⟩
    · rw [exploreNeighbors_eq]
      refine ⟨rest ++ _, by rw [h4]; rfl, ?_⟩
      intro n hn
      rcases List.mem_append.mp hn with hn | hn
      · exact h4b n hn
      · obtain ⟨nb, _, rfl⟩ := List.mem_map.mp hn
        simp only [List.length_cons]
        push_cast
        omega

omit [LinearOrderedField α] [FloorRing α] in
theorem reconstruct_stop (allNodes : List (PathNode α)) (fuel : Nat)
    (path : List (Vector3D α)) : reconstruct allNodes fuel (-1) path = some path := by
  cases fuel <;> simp [reconstruct]

omit [LinearOrderedField α] [FloorRing α] in
theorem reconstruct_to_root (allNodes : List (PathNode α)) (hp : ParentsBelow allNodes)
    (root : PathNode α) (rest : List (PathNode α)) (hroot : allNodes = root :: rest)
    (hr : root.parentIdx = -1) (hrest : ∀ n ∈ rest, 0 ≤ n.parentIdx) :
    ∀ (fuel : Nat) (idx : Int) (path : List (Vector3D α)), 0 ≤ idx →
      idx < (allNodes.length : Int) → idx < (fuel : Int) →
      ∃ w, reconstruct allNodes fuel idx path = some (path ++ w) ∧
        w.getLast? = some root.pos ∧
        w.head? = (allNodes.get? idx.toNat).map (fun n => n.pos) := by
  intro fuel
  induction fuel with
  | zero => intro idx path h0 _ h2; omega
  | succ fuel ih =>
    intro idx path h0 h1 h2
    unfold reconstruct
    have hlt : idx.toNat < allNodes.length := by omega
    have hget : allNodes.get? idx.toNat = some (allNodes.get ⟨idx.toNat, hlt⟩) :=
      List.get?_eq_get hlt
    rw [if_pos ⟨by omega, h1⟩, if_neg (by omega), hget]
    simp only [Option.map_some']
    have hpb := hp _ _ hget
    by_cases hz : idx.toNat = 0
    · have hnode : allNodes.get ⟨idx.toNat, hlt⟩ = root := by
        have : allNodes.get? idx.toNat = some root := by rw [hz, hroot]; rfl
        rw [hget] at this
        exact Option.some.inj this
      rw [hnode, hr, reconstruct_stop]
      exact ⟨[root.pos], rfl, rfl, rfl⟩
    · have hmem : allNodes.get ⟨idx.toNat, hlt⟩ ∈ rest := by
        obtain ⟨k, hk⟩ : ∃ k, idx.toNat = k + 1 := ⟨idx.toNat - 1, by omega⟩
        have h3 : rest.get? k = some (allNodes.get ⟨idx.toNat, hlt⟩) := by
          rw [← hget, hk, hroot]
          rfl
        exact List.get?_mem h3
      obtain ⟨w, hw, hl, _⟩ := ih (allNodes.get ⟨idx.toNat, hlt⟩).parentIdx
        (path ++ [(allNodes.get ⟨idx.toNat, hlt⟩).pos]) (hrest _ hmem) (by omega) (by omega)
      refine ⟨(allNodes.get ⟨idx.toNat, hlt⟩).pos :: w, ?_, ?_, rfl⟩
      · rw [hw]; simp
      · cases w with
        | nil => simp at hl
        | cons x xs => rw [List.getLast?_cons_cons]; exact hl

end LoopInvariants

/-! ## The endpoints of a returned path -/

section Endpoints

variable {α : Type} [LinearOrderedField α] [FloorRing α]

theorem smoothPath_ends (sqrt : α → α) (m : Map3D α) (path out : List (Vector3D α))
    (h : smoothPath sqrt m path = some out) :
    out.head? = path.head? ∧ out.getLast? = path.getLast? := by
  by_cases hlen : path.length ≤ 2
  · have e : smoothPath sqrt m path = some path := by simp [smoothPath, hlen]
    rw [e] at h
    cases h
    exact ⟨rfl, rfl⟩
  · obtain ⟨idxs, ht, hs⟩ := smoothPath_trace sqrt m path hlen
    obtain ⟨_, _, hl⟩ := smoothTrace_bounds sqrt m path idxs 0 ht
    rw [hs] at h
    cases h
    have hpos : 0 < path.length := by omega
    constructor
    · cases path with
      | nil => simp at hpos
      | cons a t => simp
    · rw [List.getLast?_map, hl (by omega), List.getLast?_eq_getElem?, Option.map_some',
        List.getD_eq_getElem?_getD, List.getElem?_eq_getElem (by omega)]
      rfl

theorem accepted_walk (pq : PriorityQueue (PathNode α)) (sqrt : α → α)
    (pf : PathFinder3D α) (start target : Vector3D α) (cur : PathNode α)
    (nodes : List (PathNode α)) (it : Nat)
    (h : searchLoop pq sqrt pf target maxIter 0
      (pq.push pq.empty ⟨start, 0, start.distanceTo sqrt target, -1⟩) []
      [⟨start, 0, start.distanceTo sqrt target, -1⟩] = SearchOutcome.accepted cur nodes it) :
    ∃ walked, reconstruct nodes nodes.length (startIndex nodes cur) [] = some walked ∧
      walked.getLast? = some start ∧
      nodes.head? = some ⟨start, 0, start.distanceTo sqrt target, -1⟩ := by
  obtain ⟨i, o, c, o1, _, _, hr, _, _, _⟩ :=
    accepted_from_reached pq sqrt pf start target cur nodes it maxIter 0 _ _ _
      LoopReaches.init (by omega) h
  obtain ⟨_, _, _, ⟨rest, hroot, hrest⟩, hp⟩ := reaches_inv pq sqrt pf start target hr
  have hne : nodes ≠ [] := by rw [hroot]; simp
  obtain ⟨h0, h1⟩ := startIndex_bounds nodes cur hne
  obtain ⟨w, hw, hl, _⟩ := reconstruct_to_root nodes hp _ rest hroot rfl hrest nodes.length
    (startIndex nodes cur) [] h0 h1 h1
  refine ⟨w, by simpa using hw, hl, ?_⟩
  rw [hroot]; rfl

theorem findPath_ends (pq : PriorityQueue (PathNode α)) (sqrt : α → α)
    (pf : PathFinder3D α) (start target : Vector3D α) :
    ∃ r, pf.findPath pq sqrt start target = some r ∧
      r.path.head? = some start ∧ r.path.getLast? = some target := by
  obtain ⟨r, hr, _, _⟩ := findPath_finder pq sqrt pf start target
  refine ⟨r, hr, ?_⟩
  unfold PathFinder3D.findPath at hr
  cases hc : pf.map.isPathClear sqrt start target 0.5 with
  | none => rw [hc] at hr; simp at hr
  | some b =>
    rw [hc] at hr
    cases b with
    | true =>
      simp only [Option.some.injEq] at hr
      subst hr
      exact ⟨rfl, rfl⟩
    | false =>
      simp only at hr
      cases hs : searchLoop pq sqrt pf target maxIter 0
        (pq.push pq.empty ⟨start, 0, start.distanceTo sqrt target, -1⟩) []
        [⟨start, 0, start.distanceTo sqrt target, -1⟩] with
      | exhausted n =>
        rw [hs] at hr
        simp only [Option.some.injEq] at hr
        subst hr
        exact ⟨rfl, rfl⟩
      | accepted cur nodes n =>
        rw [hs] at hr
        obtain ⟨w, hw, hl, _⟩ := accepted_walk pq sqrt pf start target cur nodes n hs
        simp only [hw] at hr
        cases hsm : smoothPath sqrt pf.map (w.reverse ++ [target]) with
        | none => rw [hsm] at hr; simp at hr
        | some sm =>
          rw [hsm] at hr
          simp only [Option.some.injEq] at hr
          subst hr
          obtain ⟨e1, e2⟩ := smoothPath_ends sqrt pf.map _ _ hsm
          simp only
          rw [e1, e2]
          constructor
          · cases w with
            | nil => simp at hl
            | cons a t =>
              rw [List.head?_append_of_ne_nil _ (by simp), List.head?_reverse]
              exact hl
          · simp

/-- C21: for every map, grid step, start and end, `findPath` returns a path
whose first waypoint is exactly `start` and whose last waypoint is exactly
`end`.  In the search branch the walk over the parent indices, begun at the
accepted node, terminates, its last recorded position is that of node 0 of
the exploration history, which is the start node; the literal end is appended
afterwards and smoothing keeps both endpoints of its input. -/
theorem findPath_endpoints (pq : PriorityQueue (PathNode α)) (sqrt : α → α)
    (pf : PathFinder3D α) (start target : Vector3D α) :
    (∃ r, pf.findPath pq sqrt start target = some r ∧
      r.path.head? = some start ∧ r.path.getLast? = some target) ∧
    (∀ cur nodes it,
      searchLoop pq sqrt pf target maxIter 0
        (pq.push pq.empty ⟨start, 0, start.distanceTo sqrt target, -1⟩) []
        [⟨start, 0, start.distanceTo sqrt target, -1⟩] = SearchOutcome.accepted cur nodes it →
      ∃ walked, reconstruct nodes nodes.length (startIndex nodes cur) [] = some walked ∧
        walked.getLast? = some start ∧
        nodes.head? = some ⟨start, 0, start.distanceTo sqrt target, -1⟩ ∧
        (walked.reverse ++ [target]).head? = some start ∧
        (walked.reverse ++ [target]).getLast? = some target) ∧
    (∀ path out, smoothPath sqrt pf.map path = some out →
      out.head? = path.head? ∧ out.getLast? = path.getLast?) := by
  refine ⟨findPath_ends pq sqrt pf start target, ?_, fun path out h =>
    smoothPath_ends sqrt pf.map path out h⟩
  intro cur nodes it h
  obtain ⟨w, hw, hl, hh⟩ := accepted_walk pq sqrt pf start target cur nodes it h
  refine ⟨w, hw, hl, hh, ?_, by simp⟩
  cases w with
  | nil => simp at hl
  | cons a t =>
    rw [List.head?_append_of_ne_nil _ (by simp), List.head?_reverse]
    exact hl

end Endpoints

/-! ## Route length and the straight line

Over the reals `distanceTo` obeys the triangle inequality, so a chain of
waypoints is at least as long as the segment between its ends. -/

section Lengths

end Lengths

/-! ## Neighbour generation -/

section Neighbours

variable {α : Type} [LinearOrderedField α]

theorem neighborOffsets_eq :
    neighborOffsets =
      [(-1, -1, -1), (-1, -1, 0), (-1, -1, 1), (-1, 0, -1), (-1, 0, 0), (-1, 0, 1),
       (-1, 1, -1), (-1, 1, 0), (-1, 1, 1),
       (0, -1, -1), (0, -1, 0), (0, -1, 1), (0, 0, -1), (0, 0, 1),
       (0, 1, -1), (0, 1, 0), (0, 1, 1),
       (1, -1, -1), (1, -1, 0), (1, -1, 1), (1, 0, -1), (1, 0, 0), (1, 0, 1),
       (1, 1, -1), (1, 1, 0), (1, 1, 1)] := by decide

/-- C24: `getNeighbors(pos)` is the list of the points
`pos + (dx, dy, dz) · gridStep` over the 26 offsets of `{-1, 0, 1}³` other than
`(0, 0, 0)`, in the order of the nested loops (`dx` outermost, `dz`
innermost), of which exactly those are kept that `isBlocked` with margin `0.5`
rejects; so it has at most 26 elements, none of them blocked, and exactly 26
when none of the 26 offset points is blocked. -/
theorem getNeighbors_spec (pf : PathFinder3D α) (pos : Vector3D α) :
    pf.getNeighbors pos =
      (neighborOffsets.map (fun d => (⟨pos.x + ((d.1 : Int) : α) * pf.gridStep,
        pos.y + ((d.2.1 : Int) : α) * pf.gridStep,
        pos.z + ((d.2.2 : Int) : α) * pf.gridStep⟩ : Vector3D α))).filter
        (fun p => !pf.map.isBlocked p 0.5) ∧
    neighborOffsets =
      [(-1, -1, -1), (-1, -1, 0), (-1, -1, 1), (-1, 0, -1), (-1, 0, 0), (-1, 0, 1),
       (-1, 1, -1), (-1, 1, 0), (-1, 1, 1),
       (0, -1, -1), (0, -1, 0), (0, -1, 1), (0, 0, -1), (0, 0, 1),
       (0, 1, -1), (0, 1, 0), (0, 1, 1),
       (1, -1, -1), (1, -1, 0), (1, -1, 1), (1, 0, -1), (1, 0, 0), (1, 0, 1),
       (1, 1, -1), (1, 1, 0), (1, 1, 1)] ∧
    (∀ d : Int × Int × Int, d ∈ neighborOffsets ↔
      (d.1 = -1 ∨ d.1 = 0 ∨ d.1 = 1) ∧ (d.2.1 = -1 ∨ d.2.1 = 0 ∨ d.2.1 = 1) ∧
      (d.2.2 = -1 ∨ d.2.2 = 0 ∨ d.2.2 = 1) ∧ d ≠ (0, 0, 0)) ∧
    (pf.getNeighbors pos).length ≤ 26 ∧
    (∀ nb ∈ pf.getNeighbors pos, pf.map.isBlocked nb 0.5 = false) ∧
    ((∀ d ∈ neighborOffsets, pf.map.isBlocked ⟨pos.x + ((d.1 : Int) : α) * pf.gridStep,
        pos.y + ((d.2.1 : Int) : α) * pf.gridStep,
        pos.z + ((d.2.2 : Int) : α) * pf.gridStep⟩ 0.5 = false) →
      (pf.getNeighbors pos).length = 26) := by
  refine ⟨getNeighbors_eq_filter pf pos, neighborOffsets_eq, ?_, getNeighbors_length_le pf pos,
    fun nb h => mem_getNeighbors pf pos nb h, ?_⟩
  · rintro ⟨dx, dy, dz⟩
    rw [neighborOffsets_eq]
    simp only [List.mem_cons, Prod.mk.injEq, List.mem_singleton, ne_eq, List.mem_nil_iff,
      or_false]
    constructor
    · intro h
      rcases h with h | h | h | h | h | h | h | h | h | h | h | h | h | h | h | h | h | h | h |
        h | h | h | h | h | h | h <;> obtain ⟨rfl, rfl, rfl⟩ := h <;> simp
    · rintro ⟨hx, hy, hz, hne⟩
      rcases hx with rfl | rfl | rfl <;> rcases hy with rfl | rfl | rfl <;>
        rcases hz with rfl | rfl | rfl <;> simp at hne ⊢
  · intro h
    rw [getNeighbors_eq_filter, List.filter_eq_self.mpr, List.length_map,
      neighborOffsets_length]
    intro p hp
    obtain ⟨d, hd, rfl⟩ := List.mem_map.mp hp
    simp [h d hd]

end Neighbours

/-! ## One round of the search loop

What a round does with the node it removes from the open set: the goal test,
the closed-set test, the effort bound and the order of removal. -/

section Rounds

variable {α : Type} [LinearOrderedField α] [FloorRing α]

theorem searchLoop_accepted_count (pq : PriorityQueue (PathNode α)) (sqrt : α → α)
    (pf : PathFinder3D α) (target : Vector3D α) (cur : PathNode α)
    (nodes : List (PathNode α)) (n : Nat) :
    ∀ (left it : Nat) (openSet : pq.Q) (closedSet : List ((Int × Int × Int) × α))
      (allNodes : List (PathNode α)),
      searchLoop pq sqrt pf target left it openSet closedSet allNodes =
        SearchOutcome.accepted cur nodes n → it < n := by
  intro left
  induction left with
  | zero => intro it openSet closedSet allNodes h; simp [searchLoop] at h
  | succ left ih =>
    intro it openSet closedSet allNodes h
    unfold searchLoop at h
    cases hpop : pq.pop openSet with
    | none => simp [hpop] at h
    | some p =>
      obtain ⟨current, openSet1⟩ := p
      simp only [hpop] at h
      by_cases hc : closedContains closedSet (posKey current.pos) = true
      · simp only [hc, ↓reduceIte] at h
        have := ih _ _ _ _ h
        omega
      · have hc2 : closedContains closedSet (posKey current.pos) = false := by simpa using hc
        simp only [hc2, Bool.false_eq_true, ↓reduceIte] at h
        by_cases hg : current.pos.distanceTo sqrt target < pf.gridStep * 1.5
        · simp only [hg, ↓reduceIte, SearchOutcome.accepted.injEq] at h
          omega
        · simp only [hg, ↓reduceIte] at h
          have := ih _ _ _ _ h
          omega

theorem searchLoop_round (pq : PriorityQueue (PathNode α)) (sqrt : α → α)
    (pf : PathFinder3D α) (target : Vector3D α) (left it : Nat) (openSet : pq.Q)
    (closedSet : List ((Int × Int × Int) × α)) (allNodes : List (PathNode α))
    (current : PathNode α) (openSet1 : pq.Q)
    (hpop : pq.pop openSet = some (current, openSet1)) :
    (closedContains closedSet (posKey current.pos) = true →
      searchLoop pq sqrt pf target (left + 1) it openSet closedSet allNodes =
        searchLoop pq sqrt pf target left (it + 1) openSet1 closedSet allNodes) ∧
    (closedContains closedSet (posKey current.pos) = false →
      current.pos.distanceTo sqrt target < pf.gridStep * 1.5 →
      searchLoop pq sqrt pf target (left + 1) it openSet closedSet allNodes =
        SearchOutcome.accepted current allNodes (it + 1)) ∧
    (closedContains closedSet (posKey current.pos) = false →
      ¬ current.pos.distanceTo sqrt target < pf.gridStep * 1.5 →
      searchLoop pq sqrt pf target (left + 1) it openSet closedSet allNodes =
        searchLoop pq sqrt pf target left (it + 1)
          (exploreNeighbors pq sqrt target ((posKey current.pos, current.gCost) :: closedSet)
            current ((allNodes.length : Int) - 1) (pf.getNeighbors current.pos) openSet1
            allNodes).1
          ((posKey current.pos, current.gCost) :: closedSet)
          (exploreNeighbors pq sqrt target ((posKey current.pos, current.gCost) :: closedSet)
            current ((allNodes.length : Int) - 1) (pf.getNeighbors current.pos) openSet1
            allNodes).2) := by
  refine ⟨fun hc => ?_, fun hc hg => ?_, fun hc hg => ?_⟩
  · conv_lhs => unfold searchLoop
    simp only [hpop, hc, ↓reduceIte]
  · conv_lhs => unfold searchLoop
    simp only [hpop, hc, hg, Bool.false_eq_true, ↓reduceIte]
  · conv_lhs => unfold searchLoop
    simp only [hpop, hc, hg, Bool.false_eq_true, ↓reduceIte]

/-- C26: within one search no position key is expanded twice.  The keys of the
closed set are pairwise distinct in every state the loop reaches (each
expansion adds the key of the expanded node, which was not closed before); a
popped node whose key is closed is discarded, the loop going on with the same
closed set and history and without goal test or neighbour generation; and the
neighbour loop pushes exactly the neighbours whose key is not closed. -/
theorem closed_key_expanded_once (pq : PriorityQueue (PathNode α)) (sqrt : α → α)
    (pf : PathFinder3D α) (start target : Vector3D α) :
    (∀ (closedSet : List ((Int × Int × Int) × α)) (key : Int × Int × Int),
      closedContains closedSet key = true ↔ key ∈ closedSet.map (fun e => e.1)) ∧
    (∀ it openSet closedSet allNodes,
      LoopReaches pq sqrt pf start target it openSet closedSet allNodes →
      (closedSet.map (fun e => e.1)).Nodup) ∧
    (∀ left it openSet closedSet allNodes current openSet1,
      pq.pop openSet = some (current, openSet1) →
      closedContains closedSet (posKey current.pos) = true →
      searchLoop pq sqrt pf target (left + 1) it openSet closedSet allNodes =
        searchLoop pq sqrt pf target left (it + 1) openSet1 closedSet allNodes) ∧
    (∀ closedSet current currentIdx nbs openSet allNodes,
      exploreNeighbors pq sqrt target closedSet current currentIdx nbs openSet allNodes =
        (((nbs.filter (fun nb => !closedContains closedSet (posKey nb))).map
            (fun nb => (⟨nb, current.gCost + current.pos.distanceTo sqrt nb,
              nb.distanceTo sqrt target, currentIdx⟩ : PathNode α))).foldl pq.push openSet,
          allNodes ++ (nbs.filter (fun nb => !closedContains closedSet (posKey nb))).map
            (fun nb => (⟨nb, current.gCost + current.pos.distanceTo sqrt nb,
              nb.distanceTo sqrt target, currentIdx⟩ : PathNode α)))) := by
  refine ⟨?_, ?_, ?_, ?_⟩
  · intro closedSet key
    have h := closedContains_eq_false closedSet key
    constructor
    · intro ht
      by_contra hn
      rw [h.mpr hn] at ht
      exact Bool.false_ne_true ht
    · intro hm
      cases hb : closedContains closedSet key with
      | true => rfl
      | false => exact absurd hm (h.mp hb)
  · intro it openSet closedSet allNodes h
    exact (reaches_inv pq sqrt pf start target h).2.2.1
  · intro left it openSet closedSet allNodes current openSet1 hpop hc
    exact (searchLoop_round pq sqrt pf target left it openSet closedSet allNodes current
      openSet1 hpop).1 hc
  · intro closedSet current currentIdx nbs openSet allNodes
    exact exploreNeighbors_eq pq sqrt target closedSet current currentIdx nbs openSet allNodes

/-- C23: a popped node whose key is not closed ends the search as the accepted
node of that round exactly when its distance to `end` is below
`1.5 · gridStep`, and otherwise the loop goes on with its neighbours explored;
in particular, when the direct segment is blocked and
`distance(start, end) < 1.5 · gridStep`, the first round accepts the start
node with the history `[start node]`, no neighbour having been generated, and
`findPath` returns `[start, end]`. -/
theorem goal_test_spec (pq : PriorityQueue (PathNode α)) (sqrt : α → α)
    (pf : PathFinder3D α) (target : Vector3D α) :
    (∀ left it openSet closedSet allNodes current openSet1,
      pq.pop openSet = some (current, openSet1) →
      closedContains closedSet (posKey current.pos) = false →
      (searchLoop pq sqrt pf target (left + 1) it openSet closedSet allNodes =
          SearchOutcome.accepted current allNodes (it + 1) ↔
        current.pos.distanceTo sqrt target < pf.gridStep * 1.5) ∧
      (¬ current.pos.distanceTo sqrt target < pf.gridStep * 1.5 →
        searchLoop pq sqrt pf target (left + 1) it openSet closedSet allNodes =
          searchLoop pq sqrt pf target left (it + 1)
            (exploreNeighbors pq sqrt target ((posKey current.pos, current.gCost) :: closedSet)
              current ((allNodes.length : Int) - 1) (pf.getNeighbors current.pos) openSet1
              allNodes).1
            ((posKey current.pos, current.gCost) :: closedSet)
            (exploreNeighbors pq sqrt target ((posKey current.pos, current.gCost) :: closedSet)
              current ((allNodes.length : Int) - 1) (pf.getNeighbors current.pos) openSet1
              allNodes).2)) ∧
    (∀ start : Vector3D α, pq.Lawful PathNode.gt →
      pf.map.isPathClear sqrt start target 0.5 = some false →
      start.distanceTo sqrt target < pf.gridStep * 1.5 →
      searchLoop pq sqrt pf target maxIter 0
          (pq.push pq.empty ⟨start, 0, start.distanceTo sqrt target, -1⟩) []
          [⟨start, 0, start.distanceTo sqrt target, -1⟩] =
        SearchOutcome.accepted ⟨start, 0, start.distanceTo sqrt target, -1⟩
          [⟨start, 0, start.distanceTo sqrt target, -1⟩] 1 ∧
      ∃ r, pf.findPath pq sqrt start target = some r ∧ r.path = [start, target] ∧
        r.iterations = 1) := by
  constructor
  · intro left it openSet closedSet allNodes current openSet1 hpop hc
    obtain ⟨_, hacc, hgo⟩ := searchLoop_round pq sqrt pf target left it openSet closedSet
      allNodes current openSet1 hpop
    refine ⟨⟨fun h => ?_, hacc hc⟩, hgo hc⟩
    by_contra hg
    rw [hgo hc hg] at h
    have := searchLoop_accepted_count pq sqrt pf target _ _ _ _ _ _ _ _ h
    omega
  · intro start hpq hblocked hnear
    obtain ⟨r, hpop, _⟩ := lawful_pop_single pq hpq ⟨start, 0, start.distanceTo sqrt target, -1⟩
    refine ⟨?_, _, findPath_accept_start pq hpq sqrt pf start target hblocked hnear, rfl, rfl⟩
    have hm : maxIter = 9999 + 1 := rfl
    rw [hm]
    exact (searchLoop_round pq sqrt pf target 9999 0 _ [] _ _ r hpop).2.1 rfl hnear

/-- The second part of C23 at a concrete input over the reals: grid step 1,
a start outside the extents and a target at distance 1. -/
theorem goal_test_spec_witness :
    (listQueue (PathNode.gt : PathNode ℝ → PathNode ℝ → Bool)).Lawful PathNode.gt ∧
    (PathFinder3D.new (⟨50, 25, 20, []⟩ : Map3D ℝ) 1).map.isPathClear Real.sqrt
      ⟨-5, -5, -5⟩ ⟨-5, -5, -4⟩ 0.5 = some false ∧
    Vector3D.distanceTo Real.sqrt (⟨-5, -5, -5⟩ : Vector3D ℝ) ⟨-5, -5, -4⟩ <
      (PathFinder3D.new (⟨50, 25, 20, []⟩ : Map3D ℝ) 1).gridStep * 1.5 ∧
    ∃ r, (PathFinder3D.new (⟨50, 25, 20, []⟩ : Map3D ℝ) 1).findPath (listQueue PathNode.gt)
        Real.sqrt ⟨-5, -5, -5⟩ ⟨-5, -5, -4⟩ = some r ∧
      r.path = [⟨-5, -5, -5⟩, ⟨-5, -5, -4⟩] ∧ r.iterations = 1 :=
  have hnear : Vector3D.distanceTo Real.sqrt (⟨-5, -5, -5⟩ : Vector3D ℝ) ⟨-5, -5, -4⟩ <
      (PathFinder3D.new (⟨50, 25, 20, []⟩ : Map3D ℝ) 1).gridStep * 1.5 := by
    rw [outside_near_distance]; norm_num [PathFinder3D.new]
  ⟨listQueue_lawful, outside_near_blocked, hnear,
    ((goal_test_spec (listQueue PathNode.gt) Real.sqrt
      (PathFinder3D.new (⟨50, 25, 20, []⟩ : Map3D ℝ) 1) ⟨-5, -5, -4⟩).2 ⟨-5, -5, -5⟩
      listQueue_lawful outside_near_blocked hnear).2⟩

end Rounds

/-! ## Smoothing a clear path -/

section Clearance

variable {α : Type} [LinearOrderedField α] [FloorRing α]

/-- C29: when every consecutive pair of the input path is clear under
`isPathClear(·, ·, 0.5)`, `smoothPath` returns a path of which every
consecutive pair is clear under `isPathClear(·, ·, 0.5)` as well. -/
theorem smoothPath_keeps_clear (sqrt : α → α) (m : Map3D α) (path : List (Vector3D α))
    (hclear : List.Chain' (fun p q => m.isPathClear sqrt p q 0.5 = some true) path) :
    ∃ out, smoothPath sqrt m path = some out ∧
      List.Chain' (fun p q => m.isPathClear sqrt p q 0.5 = some true) out := by
  obtain ⟨out, hout, _, _⟩ := smoothPath_terminates sqrt m path
  refine ⟨out, hout, ?_⟩
  refine List.Chain'.imp ?_ (smoothPath_chain sqrt m path out hout)
  intro p q hop
  rcases hop with hc | ⟨k, hk, rfl, rfl⟩
  · exact hc
  · have h := (List.chain'_iff_get.mp hclear) k (by omega)
    have e1 : path.getD k Vector3D.zero = path.get ⟨k, by omega⟩ := by
      rw [List.getD_eq_getElem?_getD, List.getElem?_eq_getElem (by omega)]
      rfl
    have e2 : path.getD (k + 1) Vector3D.zero = path.get ⟨k + 1, hk⟩ := by
      rw [List.getD_eq_getElem?_getD, List.getElem?_eq_getElem hk]
      rfl
    rw [e1, e2]
    exact h

theorem inExtents_witness_mid :
    (⟨50, 25, 20, []⟩ : Map3D ℝ).inExtents ⟨10, 10, 1⟩ := by
  simp only [Map3D.inExtents]
  norm_num

/-- The statement of C29 for a three-point path in the empty 50×25×20
volume. -/
theorem smoothPath_keeps_clear_witness :
    List.Chain' (fun p q => (⟨50, 25, 20, []⟩ : Map3D ℝ).isPathClear Real.sqrt p q 0.5
        = some true) [⟨2, 2, 1⟩, ⟨10, 10, 1⟩, ⟨45, 20, 2⟩] ∧
    ∃ out, smoothPath Real.sqrt (⟨50, 25, 20, []⟩ : Map3D ℝ)
        [⟨2, 2, 1⟩, ⟨10, 10, 1⟩, ⟨45, 20, 2⟩] = some out ∧
      List.Chain' (fun p q => (⟨50, 25, 20, []⟩ : Map3D ℝ).isPathClear Real.sqrt p q 0.5
        = some true) out :=
  have hc : List.Chain' (fun p q => (⟨50, 25, 20, []⟩ : Map3D ℝ).isPathClear Real.sqrt p q 0.5
      = some true) [⟨2, 2, 1⟩, ⟨10, 10, 1⟩, ⟨45, 20, 2⟩] := by
    refine List.Chain'.cons ?_ (List.Chain'.cons ?_ (List.chain'_singleton _))
    · exact isPathClear_of_inExtents Real.sqrt _ rfl _ _ inExtents_witness_start
        inExtents_witness_mid
    · exact isPathClear_of_inExtents Real.sqrt _ rfl _ _ inExtents_witness_mid
        inExtents_witness_target
  ⟨hc, smoothPath_keeps_clear Real.sqrt _ _ hc⟩

end Clearance

/-! ## The recorded parent index

The neighbour loop records `allNodes.size() - 1` as the parent of every node
it creates.  The run below, in a one-cell-wide vertical shaft with a point
obstacle, shows the effect on the history and on the returned path. -/

section ParentIndex

variable {α : Type} [LinearOrderedField α] [FloorRing α]

theorem column_distance (a b : ℝ) :
    Vector3D.distanceTo Real.sqrt (⟨0, 0, a⟩ : Vector3D ℝ) ⟨0, 0, b⟩ = |a - b| := by
  simp only [Vector3D.distanceTo]
  rw [show ((0 : ℝ) - 0) ^ 2 + (0 - 0) ^ 2 + (a - b) ^ 2 = (a - b) ^ 2 by ring]
  exact Real.sqrt_sq_eq_abs _

theorem column_blocked (z : ℝ) :
    (⟨1, 1, 20, [⟨⟨0, 0, 8⟩, 0, 0, 0⟩]⟩ : Map3D ℝ).isBlocked ⟨0, 0, z⟩ 0.5 =
      decide (z < 0 ∨ 20 ≤ z ∨ (7.5 ≤ z ∧ z ≤ 8.5)) := by
  simp only [Map3D.isBlocked, Obstacle.containsPoint, List.any_cons, List.any_nil,
    Bool.or_false]
  by_cases h1 : z < 0
  · simp [h1]
  · by_cases h2 : (20 : ℝ) ≤ z
    · simp [h2]
    · have h3 : ¬ ((0 : ℝ) < 0 ∨ (0 : ℝ) ≥ ((1 : Int) : ℝ) ∨ (0 : ℝ) < 0 ∨
          (0 : ℝ) ≥ ((1 : Int) : ℝ) ∨ z < 0 ∨ z ≥ ((20 : Int) : ℝ)) := by
        push_cast
        norm_num
        exact ⟨le_of_not_lt h1, lt_of_not_le h2⟩
      rw [if_neg h3]
      simp only [h1, h2, false_or]
      norm_num

theorem off_column_blocked (m : Map3D ℝ) (hw : m.width = 1) (hd : m.depth = 1)
    (p : Vector3D ℝ) (h : p.x = 2 ∨ p.x = -2 ∨ p.y = 2 ∨ p.y = -2) :
    m.isBlocked p 0.5 = true := by
  simp only [Map3D.isBlocked, hw, hd]
  rw [if_pos]
  push_cast
  rcases h with h | h | h | h <;> rw [h] <;> norm_num

theorem column_neighbors (z : ℝ) (h0 : 2 ≤ z) (h1 : z + 2 < 20)
    (hlo : ¬ (7.5 ≤ z - 2 ∧ z - 2 ≤ 8.5)) (hhi : ¬ (7.5 ≤ z + 2 ∧ z + 2 ≤ 8.5)) :
    (PathFinder3D.new (⟨1, 1, 20, [⟨⟨0, 0, 8⟩, 0, 0, 0⟩]⟩ : Map3D ℝ) 2).getNeighbors ⟨0, 0, z⟩ =
      [⟨0, 0, z - 2⟩, ⟨0, 0, z + 2⟩] := by
  have hb : ∀ p : Vector3D ℝ, (p.x = 2 ∨ p.x = -2 ∨ p.y = 2 ∨ p.y = -2) →
      (⟨1, 1, 20, [⟨⟨0, 0, 8⟩, 0, 0, 0⟩]⟩ : Map3D ℝ).isBlocked p 0.5 = true :=
    off_column_blocked _ rfl rfl
  have hlo2 : (⟨1, 1, 20, [⟨⟨0, 0, 8⟩, 0, 0, 0⟩]⟩ : Map3D ℝ).isBlocked ⟨0, 0, z - 2⟩ 0.5
      = false := by
    rw [column_blocked]
    simp only [decide_eq_false_iff_not, not_or, not_lt, not_le]
    exact ⟨by linarith, by linarith, hlo⟩
  have hhi2 : (⟨1, 1, 20, [⟨⟨0, 0, 8⟩, 0, 0, 0⟩]⟩ : Map3D ℝ).isBlocked ⟨0, 0, z + 2⟩ 0.5
      = false := by
    rw [column_blocked]
    simp only [decide_eq_false_iff_not, not_or, not_lt, not_le]
    exact ⟨by linarith, by linarith, hhi⟩
  rw [getNeighbors_eq_filter, neighborOffsets_eq]
  simp only [PathFinder3D.new, List.map_cons, List.map_nil, Int.cast_neg, Int.cast_one,
    Int.cast_zero, zero_mul, add_zero, neg_mul, one_mul, zero_add, ← sub_eq_add_neg]
  simp only [List.filter_cons, List.filter_nil]
  simp [hb, hlo2, hhi2]

theorem isPathClear_of_blocked_sample (sqrt : α → α) (m : Map3D α) (src dst : Vector3D α)
    (hd : ¬ (dst.sub src).magnitude sqrt < 0.01) (k : Nat)
    (hk : (k : α) * 0.5 ≤ (dst.sub src).magnitude sqrt)
    (hb : m.isBlocked (src.add (((dst.sub src).normalize sqrt).mul ((k : α) * 0.5))) 0.5
      = true) :
    m.isPathClear sqrt src dst 0.5 = some false := by
  obtain ⟨b, hbv⟩ := isPathClear_terminates sqrt m src dst 0.5 half_pos_lit
  cases b with
  | false => exact hbv
  | true =>
    exfalso
    unfold Map3D.isPathClear at hbv
    simp only [hd, ↓reduceIte] at hbv
    have h0 : (0 : α) = ((0 : Nat) : α) * 0.5 := by simp
    rw [h0] at hbv
    have := (isPathClearLoop_samples m src ((dst.sub src).normalize sqrt)
      ((dst.sub src).magnitude sqrt) 0.5 half_pos_lit _ 0).1 hbv k (Nat.zero_le _) hk
    rw [this] at hb
    exact Bool.false_ne_true hb

theorem column_down_blocked (a b : ℝ) (k : Nat) (hab : b + 0.01 ≤ a)
    (hk : (k : ℝ) * 0.5 ≤ a - b) (hz : 7.5 ≤ a - (k : ℝ) * 0.5 ∧ a - (k : ℝ) * 0.5 ≤ 8.5) :
    (⟨1, 1, 20, [⟨⟨0, 0, 8⟩, 0, 0, 0⟩]⟩ : Map3D ℝ).isPathClear Real.sqrt
      ⟨0, 0, a⟩ ⟨0, 0, b⟩ 0.5 = some false := by
  have hm : ((⟨0, 0, b⟩ : Vector3D ℝ).sub ⟨0, 0, a⟩).magnitude Real.sqrt = a - b := by
    rw [magnitude_sub_eq_distanceTo, column_distance, abs_of_nonneg (by linarith)]
  have hn : ((⟨0, 0, b⟩ : Vector3D ℝ).sub ⟨0, 0, a⟩).normalize Real.sqrt = ⟨0, 0, -1⟩ := by
    unfold Vector3D.normalize
    simp only [hm]
    have hpos : a - b > 0 := by linarith
    rw [if_pos hpos]
    simp only [Vector3D.div, Vector3D.sub, sub_self, zero_div, Vector3D.mk.injEq, true_and]
    rw [div_eq_iff (ne_of_gt hpos)]
    ring
  apply isPathClear_of_blocked_sample Real.sqrt _ _ _ (by rw [hm]; linarith) k
    (by rw [hm]; exact hk)
  rw [hn]
  have e : (⟨0, 0, a⟩ : Vector3D ℝ).add ((⟨0, 0, -1⟩ : Vector3D ℝ).mul ((k : ℝ) * 0.5)) =
      ⟨0, 0, a - (k : ℝ) * 0.5⟩ := by
    simp only [Vector3D.add, Vector3D.mul, zero_mul, add_zero, Vector3D.mk.injEq, true_and]
    ring
  rw [e, column_blocked]
  simp only [decide_eq_true_eq]
  exact Or.inr (Or.inr hz)

theorem column_posKey (a b c : Nat) :
    posKey (⟨(a : ℝ), (b : ℝ), (c : ℝ)⟩ : Vector3D ℝ) = ((a : Int), (b : Int), (c : Int)) := by
  simp [posKey, toInt]

theorem slip_keys :
    posKey (⟨0, 0, 5⟩ : Vector3D ℝ) = (0, 0, 5) ∧ posKey (⟨0, 0, 7⟩ : Vector3D ℝ) = (0, 0, 7) ∧
    posKey (⟨0, 0, 9⟩ : Vector3D ℝ) = (0, 0, 9) ∧
    posKey (⟨0, 0, 11⟩ : Vector3D ℝ) = (0, 0, 11) := by
  refine ⟨?_, ?_, ?_, ?_⟩
  · simpa using column_posKey 0 0 5
  · simpa using column_posKey 0 0 7
  · simpa using column_posKey 0 0 9
  · simpa using column_posKey 0 0 11

theorem slip_round_one :
    searchLoop (listQueue PathNode.gt) Real.sqrt
      (PathFinder3D.new (⟨1, 1, 20, [⟨⟨0, 0, 8⟩, 0, 0, 0⟩]⟩ : Map3D ℝ) 2) ⟨0, 0, 3⟩ maxIter 0
      ((listQueue PathNode.gt).push (listQueue PathNode.gt).empty ⟨⟨0, 0, 9⟩, 0, 6, -1⟩) []
      [⟨⟨0, 0, 9⟩, 0, 6, -1⟩] =
    searchLoop (listQueue PathNode.gt) Real.sqrt
      (PathFinder3D.new (⟨1, 1, 20, [⟨⟨0, 0, 8⟩, 0, 0, 0⟩]⟩ : Map3D ℝ) 2) ⟨0, 0, 3⟩ 9999 1
      [⟨⟨0, 0, 7⟩, 2, 4, 0⟩, ⟨⟨0, 0, 11⟩, 2, 8, 0⟩] [((0, 0, 9), 0)]
      [⟨⟨0, 0, 9⟩, 0, 6, -1⟩, ⟨⟨0, 0, 7⟩, 2, 4, 0⟩, ⟨⟨0, 0, 11⟩, 2, 8, 0⟩] := by
  have hpop : (listQueue PathNode.gt).pop
      ((listQueue PathNode.gt).push (listQueue PathNode.gt).empty
        (⟨⟨0, 0, 9⟩, 0, 6, -1⟩ : PathNode ℝ)) = some (⟨⟨0, 0, 9⟩, 0, 6, -1⟩, []) := rfl
  obtain ⟨hk5, hk7, hk9, hk11⟩ := slip_keys
  have hm : maxIter = 9999 + 1 := rfl
  rw [hm, (searchLoop_round (listQueue PathNode.gt) Real.sqrt _ ⟨0, 0, 3⟩ 9999 0 _ [] _ _ _
    hpop).2.2 rfl (by
      simp only [column_distance, PathFinder3D.new]
      norm_num)]
  have hn := column_neighbors 9 (by norm_num) (by norm_num) (by norm_num) (by norm_num)
  rw [hk9, hn, exploreNeighbors_eq]
  norm_num [closedContains, column_distance, listQueue, List.filter_cons, hk7, hk11]
  rfl

theorem slip_round_two :
    searchLoop (listQueue PathNode.gt) Real.sqrt
      (PathFinder3D.new (⟨1, 1, 20, [⟨⟨0, 0, 8⟩, 0, 0, 0⟩]⟩ : Map3D ℝ) 2) ⟨0, 0, 3⟩ 9999 1
      [⟨⟨0, 0, 7⟩, 2, 4, 0⟩, ⟨⟨0, 0, 11⟩, 2, 8, 0⟩] [((0, 0, 9), 0)]
      [⟨⟨0, 0, 9⟩, 0, 6, -1⟩, ⟨⟨0, 0, 7⟩, 2, 4, 0⟩, ⟨⟨0, 0, 11⟩, 2, 8, 0⟩] =
    searchLoop (listQueue PathNode.gt) Real.sqrt
      (PathFinder3D.new (⟨1, 1, 20, [⟨⟨0, 0, 8⟩, 0, 0, 0⟩]⟩ : Map3D ℝ) 2) ⟨0, 0, 3⟩ 9998 2
      [⟨⟨0, 0, 11⟩, 2, 8, 0⟩, ⟨⟨0, 0, 5⟩, 4, 2, 2⟩] [((0, 0, 7), 2), ((0, 0, 9), 0)]
      [⟨⟨0, 0, 9⟩, 0, 6, -1⟩, ⟨⟨0, 0, 7⟩, 2, 4, 0⟩, ⟨⟨0, 0, 11⟩, 2, 8, 0⟩,
        ⟨⟨0, 0, 5⟩, 4, 2, 2⟩] := by
  have hpop : (listQueue PathNode.gt).pop
      ([⟨⟨0, 0, 7⟩, 2, 4, 0⟩, ⟨⟨0, 0, 11⟩, 2, 8, 0⟩] : List (PathNode ℝ)) =
      some (⟨⟨0, 0, 7⟩, 2, 4, 0⟩, [⟨⟨0, 0, 11⟩, 2, 8, 0⟩]) := by
    simp only [listQueue, extractMin, PathNode.gt, PathNode.fCost]
    norm_num
  obtain ⟨hk5, hk7, hk9, hk11⟩ := slip_keys
  have hm : 9999 = 9998 + 1 := rfl
  rw [hm, (searchLoop_round (listQueue PathNode.gt) Real.sqrt _ ⟨0, 0, 3⟩ 9998 1 _ _ _ _ _
    hpop).2.2 (by simp [closedContains, hk7]) (by
      simp only [column_distance, PathFinder3D.new]
      norm_num)]
  have hn := column_neighbors 7 (by norm_num) (by norm_num) (by norm_num) (by norm_num)
  rw [hk7, hn, exploreNeighbors_eq]
  norm_num [closedContains, column_distance, listQueue, List.filter_cons, hk5, hk9]
  rfl

theorem slip_round_three :
    searchLoop (listQueue PathNode.gt) Real.sqrt
      (PathFinder3D.new (⟨1, 1, 20, [⟨⟨0, 0, 8⟩, 0, 0, 0⟩]⟩ : Map3D ℝ) 2) ⟨0, 0, 3⟩ 9998 2
      [⟨⟨0, 0, 11⟩, 2, 8, 0⟩, ⟨⟨0, 0, 5⟩, 4, 2, 2⟩] [((0, 0, 7), 2), ((0, 0, 9), 0)]
      [⟨⟨0, 0, 9⟩, 0, 6, -1⟩, ⟨⟨0, 0, 7⟩, 2, 4, 0⟩, ⟨⟨0, 0, 11⟩, 2, 8, 0⟩,
        ⟨⟨0, 0, 5⟩, 4, 2, 2⟩] =
    SearchOutcome.accepted ⟨⟨0, 0, 5⟩, 4, 2, 2⟩
      [⟨⟨0, 0, 9⟩, 0, 6, -1⟩, ⟨⟨0, 0, 7⟩, 2, 4, 0⟩, ⟨⟨0, 0, 11⟩, 2, 8, 0⟩,
        ⟨⟨0, 0, 5⟩, 4, 2, 2⟩] 3 := by
  have hpop : (listQueue PathNode.gt).pop
      ([⟨⟨0, 0, 11⟩, 2, 8, 0⟩, ⟨⟨0, 0, 5⟩, 4, 2, 2⟩] : List (PathNode ℝ)) =
      some (⟨⟨0, 0, 5⟩, 4, 2, 2⟩, [⟨⟨0, 0, 11⟩, 2, 8, 0⟩]) := by
    simp only [listQueue, extractMin, PathNode.gt, PathNode.fCost]
    norm_num
  obtain ⟨hk5, hk7, hk9, hk11⟩ := slip_keys
  have hm : 9998 = 9997 + 1 := rfl
  rw [hm, (searchLoop_round (listQueue PathNode.gt) Real.sqrt _ ⟨0, 0, 3⟩ 9997 2 _ _ _ _ _
    hpop).2.1 (by simp [closedContains, hk5]) (by
      simp only [column_distance, PathFinder3D.new]
      norm_num)]

theorem slip_search :
    searchLoop (listQueue PathNode.gt) Real.sqrt
      (PathFinder3D.new (⟨1, 1, 20, [⟨⟨0, 0, 8⟩, 0, 0, 0⟩]⟩ : Map3D ℝ) 2) ⟨0, 0, 3⟩ maxIter 0
      ((listQueue PathNode.gt).push (listQueue PathNode.gt).empty
        ⟨⟨0, 0, 9⟩, 0, Vector3D.distanceTo Real.sqrt ⟨0, 0, 9⟩ ⟨0, 0, 3⟩, -1⟩) []
      [⟨⟨0, 0, 9⟩, 0, Vector3D.distanceTo Real.sqrt ⟨0, 0, 9⟩ ⟨0, 0, 3⟩, -1⟩] =
    SearchOutcome.accepted ⟨⟨0, 0, 5⟩, 4, 2, 2⟩
      [⟨⟨0, 0, 9⟩, 0, 6, -1⟩, ⟨⟨0, 0, 7⟩, 2, 4, 0⟩, ⟨⟨0, 0, 11⟩, 2, 8, 0⟩,
        ⟨⟨0, 0, 5⟩, 4, 2, 2⟩] 3 := by
  have hd : Vector3D.distanceTo Real.sqrt (⟨0, 0, 9⟩ : Vector3D ℝ) ⟨0, 0, 3⟩ = 6 := by
    rw [column_distance]; norm_num
  rw [hd, slip_round_one, slip_round_two, slip_round_three]

theorem slip_walk :
    reconstruct ([⟨⟨0, 0, 9⟩, 0, 6, -1⟩, ⟨⟨0, 0, 7⟩, 2, 4, 0⟩, ⟨⟨0, 0, 11⟩, 2, 8, 0⟩,
        ⟨⟨0, 0, 5⟩, 4, 2, 2⟩] : List (PathNode ℝ)) 4
      (startIndex ([⟨⟨0, 0, 9⟩, 0, 6, -1⟩, ⟨⟨0, 0, 7⟩, 2, 4, 0⟩, ⟨⟨0, 0, 11⟩, 2, 8, 0⟩,
        ⟨⟨0, 0, 5⟩, 4, 2, 2⟩] : List (PathNode ℝ)) ⟨⟨0, 0, 5⟩, 4, 2, 2⟩) [] =
      some [⟨0, 0, 5⟩, ⟨0, 0, 11⟩, ⟨0, 0, 9⟩] := by
  have hs : startIndex ([⟨⟨0, 0, 9⟩, 0, 6, -1⟩, ⟨⟨0, 0, 7⟩, 2, 4, 0⟩, ⟨⟨0, 0, 11⟩, 2, 8, 0⟩,
      ⟨⟨0, 0, 5⟩, 4, 2, 2⟩] : List (PathNode ℝ)) ⟨⟨0, 0, 5⟩, 4, 2, 2⟩ = 3 := by
    simp only [startIndex, List.findIdx?, Vector3D.eq]
    norm_num [abs_lt]
  rw [hs]
  simp [reconstruct]

theorem slip_smooth :
    smoothPath Real.sqrt (⟨1, 1, 20, [⟨⟨0, 0, 8⟩, 0, 0, 0⟩]⟩ : Map3D ℝ)
      [⟨0, 0, 9⟩, ⟨0, 0, 11⟩, ⟨0, 0, 5⟩, ⟨0, 0, 3⟩] =
      some [⟨0, 0, 9⟩, ⟨0, 0, 11⟩, ⟨0, 0, 5⟩, ⟨0, 0, 3⟩] := by
  apply smoothPath_of_noShortcut
  intro t u h1 h2
  simp only [List.length_cons, List.length_nil] at h2
  have hcases : (t = 0 ∧ u = 2) ∨ (t = 0 ∧ u = 3) ∨ (t = 1 ∧ u = 3) := by omega
  rcases hcases with ⟨rfl, rfl⟩ | ⟨rfl, rfl⟩ | ⟨rfl, rfl⟩
  · exact column_down_blocked 9 5 1 (by norm_num) (by norm_num) (by norm_num)
  · exact column_down_blocked 9 3 1 (by norm_num) (by norm_num) (by norm_num)
  · exact column_down_blocked 11 3 5 (by norm_num) (by norm_num) (by norm_num)

/-- C22 at a failing input: the 1×1×20 volume with one point obstacle at
`(0, 0, 8)`, grid step 2, start `(0, 0, 9)`, end `(0, 0, 3)`.  The search ends
in round 3 with the history `[(0,0,9), (0,0,7), (0,0,11), (0,0,5)]`; node 3,
`(0, 0, 5)`, was created by the neighbour loop of node 1, `(0, 0, 7)`, but the
index it records is 2, the last node of the history at that moment.  Node 2,
`(0, 0, 11)`, is not one lattice step from node 3, and `gCost` 4 of node 3 is
not `gCost` 2 of node 2 plus their distance 6.  The walk over the parent
indices yields `(0,0,5), (0,0,11), (0,0,9)` and `findPath` returns
`[(0,0,9), (0,0,11), (0,0,5), (0,0,3)]`, whose second hop runs through the
blocked point `(0, 0, 8)`. -/
theorem findPath_parent_index_slip :
    searchLoop (listQueue PathNode.gt) Real.sqrt
      (PathFinder3D.new (⟨1, 1, 20, [⟨⟨0, 0, 8⟩, 0, 0, 0⟩]⟩ : Map3D ℝ) 2) ⟨0, 0, 3⟩ maxIter 0
      ((listQueue PathNode.gt).push (listQueue PathNode.gt).empty
        ⟨⟨0, 0, 9⟩, 0, Vector3D.distanceTo Real.sqrt ⟨0, 0, 9⟩ ⟨0, 0, 3⟩, -1⟩) []
      [⟨⟨0, 0, 9⟩, 0, Vector3D.distanceTo Real.sqrt ⟨0, 0, 9⟩ ⟨0, 0, 3⟩, -1⟩] =
    SearchOutcome.accepted ⟨⟨0, 0, 5⟩, 4, 2, 2⟩
      [⟨⟨0, 0, 9⟩, 0, 6, -1⟩, ⟨⟨0, 0, 7⟩, 2, 4, 0⟩, ⟨⟨0, 0, 11⟩, 2, 8, 0⟩,
        ⟨⟨0, 0, 5⟩, 4, 2, 2⟩] 3 ∧
    exploreNeighbors (listQueue PathNode.gt) Real.sqrt ⟨0, 0, 3⟩
      [((0, 0, 7), 2), ((0, 0, 9), 0)] ⟨⟨0, 0, 7⟩, 2, 4, 0⟩
      ((([⟨⟨0, 0, 9⟩, 0, 6, -1⟩, ⟨⟨0, 0, 7⟩, 2, 4, 0⟩, ⟨⟨0, 0, 11⟩, 2, 8, 0⟩] :
        List (PathNode ℝ)).length : Int) - 1)
      ((PathFinder3D.new (⟨1, 1, 20, [⟨⟨0, 0, 8⟩, 0, 0, 0⟩]⟩ : Map3D ℝ) 2).getNeighbors
        ⟨0, 0, 7⟩)
      [⟨⟨0, 0, 11⟩, 2, 8, 0⟩]
      [⟨⟨0, 0, 9⟩, 0, 6, -1⟩, ⟨⟨0, 0, 7⟩, 2, 4, 0⟩, ⟨⟨0, 0, 11⟩, 2, 8, 0⟩] =
      ([⟨⟨0, 0, 11⟩, 2, 8, 0⟩, ⟨⟨0, 0, 5⟩, 4, 2, 2⟩],
        [⟨⟨0, 0, 9⟩, 0, 6, -1⟩, ⟨⟨0, 0, 7⟩, 2, 4, 0⟩, ⟨⟨0, 0, 11⟩, 2, 8, 0⟩,
          ⟨⟨0, 0, 5⟩, 4, 2, 2⟩]) ∧
    (¬ ∃ d ∈ neighborOffsets, (⟨0, 0, 5⟩ : Vector3D ℝ) =
      ⟨0 + ((d.1 : Int) : ℝ) * 2, 0 + ((d.2.1 : Int) : ℝ) * 2, 11 + ((d.2.2 : Int) : ℝ) * 2⟩) ∧
    (4 : ℝ) ≠ 2 + Vector3D.distanceTo Real.sqrt ⟨0, 0, 11⟩ ⟨0, 0, 5⟩ ∧
    reconstruct ([⟨⟨0, 0, 9⟩, 0, 6, -1⟩, ⟨⟨0, 0, 7⟩, 2, 4, 0⟩, ⟨⟨0, 0, 11⟩, 2, 8, 0⟩,
        ⟨⟨0, 0, 5⟩, 4, 2, 2⟩] : List (PathNode ℝ)) 4
      (startIndex ([⟨⟨0, 0, 9⟩, 0, 6, -1⟩, ⟨⟨0, 0, 7⟩, 2, 4, 0⟩, ⟨⟨0, 0, 11⟩, 2, 8, 0⟩,
        ⟨⟨0, 0, 5⟩, 4, 2, 2⟩] : List (PathNode ℝ)) ⟨⟨0, 0, 5⟩, 4, 2, 2⟩) [] =
      some [⟨0, 0, 5⟩, ⟨0, 0, 11⟩, ⟨0, 0, 9⟩] ∧
    (∃ r, (PathFinder3D.new (⟨1, 1, 20, [⟨⟨0, 0, 8⟩, 0, 0, 0⟩]⟩ : Map3D ℝ) 2).findPath
        (listQueue PathNode.gt) Real.sqrt ⟨0, 0, 9⟩ ⟨0, 0, 3⟩ = some r ∧
      r.path = [⟨0, 0, 9⟩, ⟨0, 0, 11⟩, ⟨0, 0, 5⟩, ⟨0, 0, 3⟩]) ∧
    (⟨1, 1, 20, [⟨⟨0, 0, 8⟩, 0, 0, 0⟩]⟩ : Map3D ℝ).isBlocked ⟨0, 0, 8⟩ 0.5 = true := by
  refine ⟨slip_search, ?_, ?_, ?_, slip_walk, ?_, ?_⟩
  · obtain ⟨hk5, hk7, hk9, hk11⟩ := slip_keys
    have hn := column_neighbors 7 (by norm_num) (by norm_num) (by norm_num) (by norm_num)
    rw [hn, exploreNeighbors_eq]
    norm_num [closedContains, column_distance, listQueue, List.filter_cons, hk5, hk9]
    rfl
  · rintro ⟨d, hd, he⟩
    simp only [Vector3D.mk.injEq] at he
    obtain ⟨_, _, hz⟩ := he
    have h1 : ((d.2.2 : Int) : ℝ) = -3 := by linarith
    have h2 : d.2.2 = -3 := by exact_mod_cast h1
    rw [neighborOffsets_eq] at hd
    simp only [List.mem_cons, List.mem_singleton, List.mem_nil_iff, or_false] at hd
    rcases hd with h | h | h | h | h | h | h | h | h | h | h | h | h | h | h | h | h | h | h |
      h | h | h | h | h | h | h <;> rw [h] at h2 <;> simp at h2
  · rw [column_distance]
    norm_num
  · have hb : (PathFinder3D.new (⟨1, 1, 20, [⟨⟨0, 0, 8⟩, 0, 0, 0⟩]⟩ : Map3D ℝ) 2).map.isPathClear
        Real.sqrt ⟨0, 0, 9⟩ ⟨0, 0, 3⟩ 0.5 = some false :=
      column_down_blocked 9 3 1 (by norm_num) (by norm_num) (by norm_num)
    have hsm : smoothPath Real.sqrt
        (PathFinder3D.new (⟨1, 1, 20, [⟨⟨0, 0, 8⟩, 0, 0, 0⟩]⟩ : Map3D ℝ) 2).map
        ([⟨0, 0, 5⟩, ⟨0, 0, 11⟩, ⟨0, 0, 9⟩].reverse ++ [⟨0, 0, 3⟩]) =
        some [⟨0, 0, 9⟩, ⟨0, 0, 11⟩, ⟨0, 0, 5⟩, ⟨0, 0, 3⟩] := slip_smooth
    have hf : (PathFinder3D.new (⟨1, 1, 20, [⟨⟨0, 0, 8⟩, 0, 0, 0⟩]⟩ : Map3D ℝ) 2).findPath
        (listQueue PathNode.gt) Real.sqrt ⟨0, 0, 9⟩ ⟨0, 0, 3⟩ =
        some ⟨[⟨0, 0, 9⟩, ⟨0, 0, 11⟩, ⟨0, 0, 5⟩, ⟨0, 0, 3⟩], 3,
          (PathFinder3D.new (⟨1, 1, 20, [⟨⟨0, 0, 8⟩, 0, 0, 0⟩]⟩ : Map3D ℝ) 2).addToCache
            ⟨0, 0, 9⟩ ⟨0, 0, 3⟩ [⟨0, 0, 9⟩, ⟨0, 0, 11⟩, ⟨0, 0, 5⟩, ⟨0, 0, 3⟩]
            (calculatePathDistance Real.sqrt
              [⟨0, 0, 9⟩, ⟨0, 0, 11⟩, ⟨0, 0, 5⟩, ⟨0, 0, 3⟩])⟩ := by
      have hw : reconstruct ([⟨⟨0, 0, 9⟩, 0, 6, -1⟩, ⟨⟨0, 0, 7⟩, 2, 4, 0⟩,
          ⟨⟨0, 0, 11⟩, 2, 8, 0⟩, ⟨⟨0, 0, 5⟩, 4, 2, 2⟩] : List (PathNode ℝ))
          ([⟨⟨0, 0, 9⟩, 0, 6, -1⟩, ⟨⟨0, 0, 7⟩, 2, 4, 0⟩, ⟨⟨0, 0, 11⟩, 2, 8, 0⟩,
            ⟨⟨0, 0, 5⟩, 4, 2, 2⟩] : List (PathNode ℝ)).length
          (startIndex ([⟨⟨0, 0, 9⟩, 0, 6, -1⟩, ⟨⟨0, 0, 7⟩, 2, 4, 0⟩, ⟨⟨0, 0, 11⟩, 2, 8, 0⟩,
            ⟨⟨0, 0, 5⟩, 4, 2, 2⟩] : List (PathNode ℝ)) ⟨⟨0, 0, 5⟩, 4, 2, 2⟩) [] =
          some [⟨0, 0, 5⟩, ⟨0, 0, 11⟩, ⟨0, 0, 9⟩] := slip_walk
      unfold PathFinder3D.findPath
      simp only [hb, slip_search, hw, hsm]
    exact ⟨_, hf, rfl⟩
  · rw [column_blocked]
    norm_num

end ParentIndex

/-! ## Smoothing and route length -/

section SmoothLength

variable {α : Type} [LinearOrderedField α] [FloorRing α]

end SmoothLength

/-! ## The safe altitude and the obstacles -/

section SafeAltitude

variable {α : Type} [LinearOrderedField α]

theorem safeAltitude_ge_top (m : Map3D α) :
    ∀ o ∈ m.obstacles, o.position.z + o.height + 2 ≤ m.getSafeAltitude := by
  intro o ho
  have h := (foldl_top_spec m.obstacles (0 : α)).2.1 o ho
  simp only [Map3D.getSafeAltitude]
  linarith

theorem containsPoint_at_safeAltitude (m : Map3D α) (o : Obstacle α) (ho : o ∈ m.obstacles)
    (p : Vector3D α) (margin : α) (hz : p.z = m.getSafeAltitude) (hm : margin < 2) :
    o.containsPoint p margin = false := by
  have h := safeAltitude_ge_top m o ho
  have hgt : ¬ p.z ≤ o.position.z + o.height + margin := by
    rw [hz]; intro hle; linarith
  simp [Obstacle.containsPoint, hgt]

theorem isBlocked_at_safeAltitude (m : Map3D α) (p : Vector3D α)
    (hz : p.z = m.getSafeAltitude) :
    m.isBlocked p 0.5 = true ↔ ¬ m.inExtents p := by
  have hany : m.obstacles.any (fun obs => obs.containsPoint p 0.5) = false := by
    rw [List.any_eq_false]
    intro o ho
    rw [containsPoint_at_safeAltitude m o ho p 0.5 hz (by norm_num)]
    simp
  unfold Map3D.isBlocked Map3D.inExtents
  by_cases hout : p.x < 0 ∨ p.x ≥ (m.width : α) ∨ p.y < 0 ∨ p.y ≥ (m.depth : α) ∨
      p.z < 0 ∨ p.z ≥ (m.height : α)
  · rw [if_pos hout]
    simp only [true_iff]
    intro hin
    obtain ⟨h1, h2, h3, h4, h5, h6⟩ := hin
    rcases hout with h | h | h | h | h | h
    · exact absurd h1 (not_le.mpr h)
    · exact absurd h2 (not_lt.mpr h)
    · exact absurd h3 (not_le.mpr h)
    · exact absurd h4 (not_lt.mpr h)
    · exact absurd h5 (not_le.mpr h)
    · exact absurd h6 (not_lt.mpr h)
  · rw [if_neg hout, hany]
    simp only [Bool.false_eq_true, false_iff, not_not]
    simp only [not_or, not_lt, ge_iff_le, not_le] at hout
    exact ⟨hout.1, hout.2.1, hout.2.2.1, hout.2.2.2.1, hout.2.2.2.2.1, hout.2.2.2.2.2⟩

theorem middle_leg_sample_z (sqrt : α → α) (a b c d z t : α) :
    ((⟨a, b, z⟩ : Vector3D α).add
      ((((⟨c, d, z⟩ : Vector3D α).sub ⟨a, b, z⟩).normalize sqrt).mul t)).z = z := by
  unfold Vector3D.normalize
  simp only [Vector3D.sub, sub_self]
  split_ifs <;> simp [Vector3D.add, Vector3D.mul, Vector3D.div, Vector3D.zero]

end SafeAltitude

/-! ## The middle leg of the fallback path -/

section SafeAltitudeLeg

variable {α : Type} [LinearOrderedField α] [FloorRing α]

/-- C32: for every map, a point whose z-coordinate equals `getSafeAltitude()`
lies in no obstacle enlarged by the margin `0.5` (nor by any margin below 2),
so `isBlocked` holds of it exactly when it lies outside the extents.  Every
point `from + unitDir * t` of the segment between the two safe-altitude
waypoints of the fallback path has that z-coordinate, so it is blocked only
when it is outside the extents; and when `isPathClear` rejects this segment,
one of its samples lies outside the extents. -/
theorem safeAltitude_clears_obstacles (sqrt : α → α) (m : Map3D α) :
    (∀ o ∈ m.obstacles, ∀ (p : Vector3D α) (margin : α), p.z = m.getSafeAltitude →
      margin < 2 → o.containsPoint p margin = false) ∧
    (∀ o ∈ m.obstacles, ∀ p : Vector3D α, p.z = m.getSafeAltitude →
      o.containsPoint p 0.5 = false) ∧
    (∀ p : Vector3D α, p.z = m.getSafeAltitude →
      (m.isBlocked p 0.5 = true ↔ ¬ m.inExtents p)) ∧
    (∀ (start target : Vector3D α) (t : α),
      ((⟨start.x, start.y, m.getSafeAltitude⟩ : Vector3D α).add
        ((((⟨target.x, target.y, m.getSafeAltitude⟩ : Vector3D α).sub
          ⟨start.x, start.y, m.getSafeAltitude⟩).normalize sqrt).mul t)).z
          = m.getSafeAltitude ∧
      (m.isBlocked ((⟨start.x, start.y, m.getSafeAltitude⟩ : Vector3D α).add
        ((((⟨target.x, target.y, m.getSafeAltitude⟩ : Vector3D α).sub
          ⟨start.x, start.y, m.getSafeAltitude⟩).normalize sqrt).mul t)) 0.5 = true ↔
        ¬ m.inExtents ((⟨start.x, start.y, m.getSafeAltitude⟩ : Vector3D α).add
          ((((⟨target.x, target.y, m.getSafeAltitude⟩ : Vector3D α).sub
            ⟨start.x, start.y, m.getSafeAltitude⟩).normalize sqrt).mul t)))) ∧
    (∀ start target : Vector3D α,
      m.isPathClear sqrt ⟨start.x, start.y, m.getSafeAltitude⟩
        ⟨target.x, target.y, m.getSafeAltitude⟩ 0.5 = some false →
      ∃ k : Nat,
        (k : α) * 0.5 ≤ ((⟨target.x, target.y, m.getSafeAltitude⟩ : Vector3D α).sub
          ⟨start.x, start.y, m.getSafeAltitude⟩).magnitude sqrt ∧
        ¬ m.inExtents ((⟨start.x, start.y, m.getSafeAltitude⟩ : Vector3D α).add
          ((((⟨target.x, target.y, m.getSafeAltitude⟩ : Vector3D α).sub
            ⟨start.x, start.y, m.getSafeAltitude⟩).normalize sqrt).mul ((k : α) * 0.5)))) := by
  refine ⟨fun o ho p margin hz hm => containsPoint_at_safeAltitude m o ho p margin hz hm,
    fun o ho p hz => containsPoint_at_safeAltitude m o ho p 0.5 hz (by norm_num),
    fun p hz => isBlocked_at_safeAltitude m p hz, ?_, ?_⟩
  · intro start target t
    have hz := middle_leg_sample_z sqrt start.x start.y target.x target.y m.getSafeAltitude t
    exact ⟨hz, isBlocked_at_safeAltitude m _ hz⟩
  · intro start target h
    unfold Map3D.isPathClear at h
    by_cases hd : ((⟨target.x, target.y, m.getSafeAltitude⟩ : Vector3D α).sub
        ⟨start.x, start.y, m.getSafeAltitude⟩).magnitude sqrt < 0.01
    · simp [hd] at h
    · simp only [hd, ↓reduceIte] at h
      have h0 : (0 : α) = ((0 : Nat) : α) * 0.5 := by simp
      rw [h0] at h
      obtain ⟨j, _, hj, hb⟩ := (isPathClearLoop_samples m _ _ _ 0.5 half_pos_lit _ 0).2 h
      refine ⟨j, hj, ?_⟩
      have hz := middle_leg_sample_z sqrt start.x start.y target.x target.y m.getSafeAltitude
        ((j : α) * 0.5)
      exact (isBlocked_at_safeAltitude m _ hz).mp hb

end SafeAltitudeLeg

/-! ## Position keys on the lattice -/

section LatticeKeys

variable {α : Type} [LinearOrderedField α] [FloorRing α]

omit [FloorRing α] in
theorem inExtents_of_unblocked (m : Map3D α) (p : Vector3D α) (margin : α)
    (h : m.isBlocked p margin = false) : m.inExtents p := by
  unfold Map3D.isBlocked at h
  by_cases hout : p.x < 0 ∨ p.x ≥ (m.width : α) ∨ p.y < 0 ∨ p.y ≥ (m.depth : α) ∨
      p.z < 0 ∨ p.z ≥ (m.height : α)
  · rw [if_pos hout] at h
    exact absurd h (by simp)
  · simp only [not_or, not_lt, ge_iff_le, not_le] at hout
    exact ⟨hout.1, hout.2.1, hout.2.2.1, hout.2.2.2.1, hout.2.2.2.2.1, hout.2.2.2.2.2⟩

theorem toInt_lt_of_step (a b : α) (ha : 0 ≤ a) (hab : a + 1 ≤ b) : toInt a < toInt b := by
  have hb : 0 ≤ b := by linarith
  simp only [toInt, ha, hb, ↓reduceIte]
  have h1 : ⌊a⌋ + 1 = ⌊a + 1⌋ := (Int.floor_add_one a).symm
  have h2 : ⌊a + 1⌋ ≤ ⌊b⌋ := Int.floor_le_floor hab
  omega

theorem toInt_ne_of_multiple (a b g : α) (i : Int) (hg : 1 ≤ g) (ha : 0 ≤ a) (hb : 0 ≤ b)
    (hab : b = a + (i : α) * g) (hi : i ≠ 0) : toInt a ≠ toInt b := by
  rcases lt_or_gt_of_ne hi with hneg | hpos
  · have h1 : (i : α) ≤ -1 := by exact_mod_cast (show i ≤ -1 by omega)
    have h2 : (i : α) * g ≤ -1 := by nlinarith
    have := toInt_lt_of_step b a hb (by linarith)
    omega
  · have h1 : (1 : α) ≤ (i : α) := by exact_mod_cast (show 1 ≤ i by omega)
    have h2 : 1 ≤ (i : α) * g := by nlinarith
    have := toInt_lt_of_step a b ha (by linarith)
    omega


/-- C35: for a grid step of at least 1, two unblocked positions whose
coordinates differ by integer multiples of the grid step, not all zero, have
different keys, so a closed set that holds the key of one of them does not
report the other as closed. -/
theorem posKey_separates_lattice (m : Map3D α) (g : α) (hg : 1 ≤ g) (p q : Vector3D α)
    (hp : m.isBlocked p 0.5 = false) (hq : m.isBlocked q 0.5 = false) (i j k : Int)
    (hx : q.x = p.x + (i : α) * g) (hy : q.y = p.y + (j : α) * g)
    (hz : q.z = p.z + (k : α) * g) (hne : ¬ (i = 0 ∧ j = 0 ∧ k = 0)) :
    posKey p ≠ posKey q ∧ ∀ c : α, closedContains [(posKey p, c)] (posKey q) = false := by
  obtain ⟨px, _, py, _, pz, _⟩ := inExtents_of_unblocked m p 0.5 hp
  obtain ⟨qx, _, qy, _, qz, _⟩ := inExtents_of_unblocked m q 0.5 hq
  have hkey : posKey p ≠ posKey q := by
    intro he
    simp only [posKey, Prod.mk.injEq] at he
    obtain ⟨ex, ey, ez⟩ := he
    by_cases hi : i = 0
    · by_cases hj : j = 0
      · have hk : k ≠ 0 := fun hk => hne ⟨hi, hj, hk⟩
        exact toInt_ne_of_multiple p.z q.z g k hg pz qz hz hk ez
      · exact toInt_ne_of_multiple p.y q.y g j hg py qy hy hj ey
    · exact toInt_ne_of_multiple p.x q.x g i hg px qx hx hi ex
  refine ⟨hkey, fun c => ?_⟩
  simp [closedContains, hkey]

/-- The statement of C35 for two neighbouring lattice points of the empty
50×25×20 volume with grid step 1. -/
theorem posKey_separates_lattice_witness :
    (1 : ℝ) ≤ 1 ∧ (⟨50, 25, 20, []⟩ : Map3D ℝ).isBlocked ⟨2, 2, 1⟩ 0.5 = false ∧
    (⟨50, 25, 20, []⟩ : Map3D ℝ).isBlocked ⟨3, 2, 1⟩ 0.5 = false ∧
    posKey (⟨2, 2, 1⟩ : Vector3D ℝ) ≠ posKey (⟨3, 2, 1⟩ : Vector3D ℝ) ∧
    ∀ c : ℝ, closedContains [(posKey (⟨2, 2, 1⟩ : Vector3D ℝ), c)]
      (posKey (⟨3, 2, 1⟩ : Vector3D ℝ)) = false :=
  have h1 : (⟨50, 25, 20, []⟩ : Map3D ℝ).isBlocked ⟨2, 2, 1⟩ 0.5 = false :=
    isBlocked_of_inExtents _ rfl _ _ inExtents_witness_start
  have h2 : (⟨50, 25, 20, []⟩ : Map3D ℝ).isBlocked ⟨3, 2, 1⟩ 0.5 = false :=
    isBlocked_of_inExtents _ rfl _ _ (by simp only [Map3D.inExtents]; norm_num)
  ⟨le_refl 1, h1, h2,
    posKey_separates_lattice (⟨50, 25, 20, []⟩ : Map3D ℝ) 1 (le_refl 1) ⟨2, 2, 1⟩ ⟨3, 2, 1⟩
      h1 h2 1 0 0 (by norm_num) (by norm_num) (by norm_num) (by decide)⟩

end LatticeKeys

/-! ## The battery charge -/

section BatteryCharge

variable {α : Type} [LinearOrderedField α]

theorem zero_lit : (0.0 : α) = 0 := by norm_num

theorem battery_consume_nonneg (b : Battery α) (d : α) : 0 ≤ (b.consume d).currentCharge := by
  simp only [Battery.consume, zero_lit]
  exact le_max_left _ _

theorem battery_call_inv (b : Battery α) (c : BatteryCall α)
    (hc : ∀ d, c = BatteryCall.consume d → 0 ≤ d)
    (h : 0 ≤ b.currentCharge ∧ b.currentCharge ≤ b.capacity ∧ 0 ≤ b.consumptionRate) :
    (0 ≤ (b.call c).currentCharge ∧ (b.call c).currentCharge ≤ (b.call c).capacity ∧
      0 ≤ (b.call c).consumptionRate) ∧ (b.call c).capacity = b.capacity := by
  obtain ⟨h0, h1, h2⟩ := h
  cases c with
  | consume d =>
    have hd : 0 ≤ d := hc d rfl
    have hm : 0 ≤ d * b.consumptionRate := mul_nonneg hd h2
    refine ⟨⟨battery_consume_nonneg b d, ?_, h2⟩, rfl⟩
    simp only [Battery.call, Battery.consume, zero_lit]
    exact max_le (le_trans h0 h1) (by linarith)
  | recharge =>
    exact ⟨⟨le_trans h0 h1, le_refl _, h2⟩, rfl⟩

theorem battery_run_inv : ∀ (calls : List (BatteryCall α)) (b : Battery α),
    (∀ d, BatteryCall.consume d ∈ calls → 0 ≤ d) →
    0 ≤ b.currentCharge ∧ b.currentCharge ≤ b.capacity ∧ 0 ≤ b.consumptionRate →
    (0 ≤ (b.run calls).currentCharge ∧ (b.run calls).currentCharge ≤ (b.run calls).capacity) ∧
      (b.run calls).capacity = b.capacity := by
  intro calls
  induction calls with
  | nil => intro b _ h; exact ⟨⟨h.1, h.2.1⟩, rfl⟩
  | cons c rest ih =>
    intro b hc h
    obtain ⟨hi, hcap⟩ := battery_call_inv b c
      (fun d hd => hc d (by rw [hd]; exact List.mem_cons_self _ _)) h
    have := ih (b.call c) (fun d hd => hc d (List.mem_cons_of_mem _ hd)) hi
    simp only [Battery.run, List.foldl_cons] at this ⊢
    exact ⟨this.1, this.2.trans hcap⟩

/-- C34: a battery constructed with capacity `cap ≥ 0` and consumption rate
`rate ≥ 0` keeps `0 ≤ currentCharge ≤ capacity` through every sequence of
`consume(d)` calls with `d ≥ 0` and `recharge()` calls, its capacity staying
`cap`; `consume` never leaves the charge below 0, whatever its argument, and
`recharge` sets the charge to exactly the capacity.  The other two
constructors are the three-argument one at rate 0.5. -/
theorem battery_charge_bounds (cap rate : α) (type : String) (hcap : 0 ≤ cap) (hrate : 0 ≤ rate)
    (calls : List (BatteryCall α)) (hcalls : ∀ d, BatteryCall.consume d ∈ calls → 0 ≤ d) :
    0 ≤ ((Battery.new cap rate type).run calls).getCharge ∧
    ((Battery.new cap rate type).run calls).getCharge ≤ cap ∧
    ((Battery.new cap rate type).run calls).capacity = cap ∧
    (∀ (b : Battery α) (d : α), 0 ≤ (b.consume d).getCharge) ∧
    (∀ b : Battery α, b.recharge.getCharge = b.capacity) ∧
    (Battery.default : Battery α) = Battery.new 100.0 0.5 "Li-Ion" ∧
    (∀ c : α, Battery.ofCapacity c = Battery.new c 0.5 "Li-Ion") := by
  obtain ⟨⟨h0, h1⟩, h2⟩ := battery_run_inv calls (Battery.new cap rate type) hcalls
    ⟨hcap, le_refl _, hrate⟩
  have h3 : ((Battery.new cap rate type).run calls).capacity = cap := h2
  refine ⟨h0, ?_, h3, fun b d => battery_consume_nonneg b d, fun b => rfl, rfl, fun c => rfl⟩
  rw [h3] at h1
  exact h1

/-- The statement of C34 for the default battery values (capacity 100, rate
0.5) and the calls `consume(50)`, `recharge()`, `consume(300)`. -/
theorem battery_charge_bounds_witness :
    (0 : ℝ) ≤ 100 ∧ (0 : ℝ) ≤ 0.5 ∧
    (∀ d : ℝ, BatteryCall.consume d ∈
      [BatteryCall.consume 50, BatteryCall.recharge, BatteryCall.consume 300] → 0 ≤ d) ∧
    0 ≤ ((Battery.new (100 : ℝ) 0.5 "Li-Ion").run
      [BatteryCall.consume 50, BatteryCall.recharge, BatteryCall.consume 300]).getCharge ∧
    ((Battery.new (100 : ℝ) 0.5 "Li-Ion").run
      [BatteryCall.consume 50, BatteryCall.recharge, BatteryCall.consume 300]).getCharge ≤ 100 :=
  have hc : ∀ d : ℝ, BatteryCall.consume d ∈
      [BatteryCall.consume 50, BatteryCall.recharge, BatteryCall.consume 300] → 0 ≤ d := by
    intro d hd
    simp only [List.mem_cons, BatteryCall.consume.injEq, List.mem_singleton, List.mem_nil_iff,
      or_false, false_or, reduceCtorEq] at hd
    rcases hd with rfl | rfl <;> norm_num
  have h := battery_charge_bounds (100 : ℝ) 0.5 "Li-Ion" (by norm_num) (by norm_num)
    [BatteryCall.consume 50, BatteryCall.recharge, BatteryCall.consume 300] hc
  ⟨by norm_num, by norm_num, hc, h.1, h.2.1⟩

end BatteryCharge

/-! ## Steps of the library heap -/

section HeapSteps

variable {α : Type} [LinearOrderedField α]

theorem pushHeap_stop (topIndex : Nat) (value : PathNode α) (fuel holeIndex : Nat)
    (c : List (PathNode α))
    (h : ¬ (holeIndex > topIndex ∧
      (c.getD ((holeIndex - 1) / 2) PathNode.default).gt value = true)) :
    pushHeap topIndex value fuel holeIndex c = c.set holeIndex value := by
  cases fuel with
  | zero => rfl
  | succ fuel => simp only [pushHeap, h, ↓reduceIte]

theorem pushHeap_fuel (topIndex : Nat) (value : PathNode α) (extra : Nat) :
    ∀ (fuel holeIndex : Nat) (c : List (PathNode α)), holeIndex ≤ fuel →
      pushHeap topIndex value (fuel + extra) holeIndex c =
        pushHeap topIndex value fuel holeIndex c := by
  intro fuel
  induction fuel with
  | zero =>
    intro holeIndex c h
    have h0 : holeIndex = 0 := by omega
    subst h0
    rw [pushHeap_stop _ _ _ _ _ (by simp), pushHeap_stop _ _ _ _ _ (by simp)]
  | succ fuel ih =>
    intro holeIndex c h
    have e : fuel + 1 + extra = (fuel + extra) + 1 := by omega
    rw [e]
    simp only [pushHeap]
    split
    · exact ih _ _ (by omega)
    · rfl

theorem adjustHeapLoop_fuel (len extra : Nat) :
    ∀ (fuel holeIndex secondChild : Nat) (c : List (PathNode α)),
      (len - 1) / 2 ≤ secondChild + fuel →
      adjustHeapLoop len (fuel + extra) holeIndex secondChild c =
        adjustHeapLoop len fuel holeIndex secondChild c := by
  intro fuel
  induction fuel with
  | zero =>
    intro holeIndex secondChild c h
    have hn : ¬ secondChild < (len - 1) / 2 := by omega
    cases extra with
    | zero => rfl
    | succ extra => simp [adjustHeapLoop, hn]
  | succ fuel ih =>
    intro holeIndex secondChild c h
    have e : fuel + 1 + extra = (fuel + extra) + 1 := by omega
    rw [e]
    simp only [adjustHeapLoop]
    split
    · split
      · exact ih _ _ _ (by omega)
      · exact ih _ _ _ (by omega)
    · rfl

end HeapSteps

/-! ## A run with two nodes of equal priority

The 13×1×8 volume with a wall over `x ≤ 6` and four point obstacles, grid
step 2, start `(10, 0, 4)` and end `(17/8, 0, 4)`; every distance that enters a
comparison is rational or is compared with itself. -/

section TieScenario

end TieScenario

/-! ## The order among nodes of equal priority -/

section TieOrder

variable {α : Type} [LinearOrderedField α]

end TieOrder

/-! ## Rounding at the boundary of the map

The samples of `Map3D::isPathClear` between two points inside the extents are
convex combinations of the two points and stay inside the extents when the
arithmetic is exact.  In `double` arithmetic the unit direction is rounded, and
a sample next to a face of the map can land outside. -/

section BoundaryRounding

theorem roundHalfEven_eq (q : ℚ) (f : Int) (h1 : (f : ℚ) ≤ q) (h2 : q < (f : ℚ) + 1) :
    roundHalfEven q =
      if q - f < 1 / 2 then f else if 1 / 2 < q - f then f + 1
      else if f % 2 = 0 then f else f + 1 := by
  have hf : ⌊q⌋ = f := Int.floor_eq_iff.mpr ⟨h1, h2⟩
  simp only [roundHalfEven, hf]

theorem log_two_eq (x : ℚ) (e : Int) (h1 : (2 : ℚ) ^ e ≤ x) (h2 : x < (2 : ℚ) ^ (e + 1)) :
    Int.log 2 x = e := by
  have hx : 0 < x := lt_of_lt_of_le (by positivity) h1
  have a1 : e ≤ Int.log 2 x := (Int.zpow_le_iff_le_log (by norm_num) hx).mp (by exact_mod_cast h1)
  have a2 : Int.log 2 x < e + 1 :=
    (Int.lt_zpow_iff_log_lt (by norm_num) hx).mp (by exact_mod_cast h2)
  omega

theorem roundDouble_eq (x : ℚ) (e : Int) (h1 : (2 : ℚ) ^ e ≤ |x|) (h2 : |x| < (2 : ℚ) ^ (e + 1)) :
    roundDouble x = (roundHalfEven (x / 2 ^ (e - 52)) : ℚ) * 2 ^ (e - 52) := by
  have hx : x ≠ 0 := by
    intro h
    rw [h, abs_zero] at h1
    exact absurd h1 (not_le.mpr (by positivity))
  simp only [roundDouble, hx, ↓reduceIte, log_two_eq |x| e h1 h2]

theorem roundDouble_zero : roundDouble 0 = 0 := by simp [roundDouble]

theorem roundHalfEven_int (k : Int) : roundHalfEven (k : ℚ) = k := by
  rw [roundHalfEven_eq (k : ℚ) k le_rfl (by linarith)]
  norm_num

theorem roundDouble_exact (m e : Int) (hm : |m| < 2 ^ 53) :
    roundDouble ((m : ℚ) * 2 ^ e) = (m : ℚ) * 2 ^ e := by
  by_cases h0 : m = 0
  · subst h0
    simp [roundDouble]
  have hx : (m : ℚ) * 2 ^ e ≠ 0 := by
    have : (m : ℚ) ≠ 0 := by exact_mod_cast h0
    positivity
  have habs : |(m : ℚ) * 2 ^ e| = |(m : ℚ)| * 2 ^ e := by
    rw [abs_mul, abs_of_pos (by positivity : (0 : ℚ) < 2 ^ e)]
  have hpos : 0 < |(m : ℚ) * 2 ^ e| := abs_pos.mpr hx
  have hm2 : |(m : ℚ)| < 2 ^ (53 : ℤ) := by
    have : ((|m| : Int) : ℚ) < ((2 ^ 53 : Int) : ℚ) := by exact_mod_cast hm
    rw [Int.cast_abs] at this
    norm_num at this ⊢
    exact this
  have hL1 : (2 : ℚ) ^ (Int.log 2 |(m : ℚ) * 2 ^ e|) ≤ |(m : ℚ) * 2 ^ e| := by
    have := Int.zpow_log_le_self (b := 2) (r := |(m : ℚ) * 2 ^ e|) (by norm_num) hpos
    exact_mod_cast this
  have hlt : (2 : ℚ) ^ (Int.log 2 |(m : ℚ) * 2 ^ e|) < 2 ^ (53 + e) := by
    refine lt_of_le_of_lt hL1 ?_
    rw [habs, zpow_add₀ (by norm_num : (2 : ℚ) ≠ 0)]
    exact mul_lt_mul_of_pos_right hm2 (by positivity)
  have hL : Int.log 2 |(m : ℚ) * 2 ^ e| < 53 + e :=
    (zpow_lt_zpow_iff_right₀ (by norm_num : (1 : ℚ) < 2)).mp hlt
  obtain ⟨n, hn⟩ : ∃ n : Nat, (n : Int) = e - (Int.log 2 |(m : ℚ) * 2 ^ e| - 52) :=
    ⟨(e - (Int.log 2 |(m : ℚ) * 2 ^ e| - 52)).toNat, Int.toNat_of_nonneg (by omega)⟩
  have hq : (m : ℚ) * 2 ^ e / 2 ^ (Int.log 2 |(m : ℚ) * 2 ^ e| - 52) =
      ((m * 2 ^ n : Int) : ℚ) := by
    rw [mul_div_assoc, ← zpow_sub₀ (by norm_num : (2 : ℚ) ≠ 0), ← hn]
    push_cast
    rw [zpow_natCast]
  simp only [roundDouble, hx, ↓reduceIte, hq, roundHalfEven_int]
  push_cast
  rw [mul_assoc, ← zpow_natCast, ← zpow_add₀ (by norm_num : (2 : ℚ) ≠ 0), hn]
  congr 2
  ring

theorem roundDouble_int (m : Int) (hm : |m| < 2 ^ 53) : roundDouble (m : ℚ) = m := by
  have := roundDouble_exact m 0 hm
  simpa using this

theorem roundDouble_half (k : Nat) (hk : k < 2 ^ 53) :
    roundDouble ((k : ℚ) / 2) = (k : ℚ) / 2 := by
  have := roundDouble_exact (k : Int) (-1) (by
    rw [abs_of_nonneg (by positivity)]
    exact_mod_cast hk)
  simpa [div_eq_mul_inv] using this

theorem roundDouble_unit_x :
    roundDouble (-7 / 25) = -1261007895663739 / 4503599627370496 := by
  rw [roundDouble_eq (-7 / 25) (-2) (by norm_num [abs_of_neg]) (by norm_num [abs_of_neg]),
    roundHalfEven_eq _ (-5044031582654956) (by norm_num) (by norm_num)]
  norm_num

theorem roundDouble_unit_x_end :
    roundDouble (-1261007895663739 / 4503599627370496 * 25) =
      -7881299347898369 / 1125899906842624 := by
  rw [roundDouble_eq _ 2 (by norm_num [abs_of_neg]) (by norm_num [abs_of_neg]),
    roundHalfEven_eq _ (-7881299347898369) (by norm_num) (by norm_num)]
  norm_num

theorem roundDouble_sample_x :
    roundDouble (7 + -7881299347898369 / 1125899906842624) = -1 / 1125899906842624 := by
  have h := roundDouble_exact (-1) (-50) (by norm_num)
  have e : (7 : ℚ) + -7881299347898369 / 1125899906842624 = ((-1 : Int) : ℚ) * 2 ^ (-50 : Int) := by
    norm_num
  rw [e, h]
  norm_num

theorem roundDouble_hundredth :
    roundDouble 0.01 = 5764607523034235 / 576460752303423488 := by
  rw [roundDouble_eq _ (-7) (by norm_num [abs_of_pos]) (by norm_num [abs_of_pos]),
    roundHalfEven_eq _ 5764607523034234 (by norm_num) (by norm_num)]
  norm_num

theorem sqrtDouble_625 : sqrtDouble 625 = 25 := by
  have hl : Int.log 2 (625 : ℚ) = 9 := log_two_eq 625 9 (by norm_num) (by norm_num)
  have hs : (625 : ℚ) / (2 ^ ((9 : Int) / 2 - 52) * 2 ^ ((9 : Int) / 2 - 52)) =
      ((7036874417766400 * 7036874417766400 : Nat) : ℚ) := by
    norm_num
  simp only [sqrtDouble, hl]
  rw [if_neg (by norm_num), hs, Nat.floor_natCast, Nat.sqrt_eq]
  norm_num

theorem isPathClearLoopD_blocked (m : Map3D ℚ) (src u : Vector3D ℚ) (dist : ℚ) :
    ∀ (n fuel k : Nat), n < fuel → k + n < 2 ^ 53 → ((k + n : Nat) : ℚ) / 2 ≤ dist →
      m.isBlockedD (src.addD (u.mulD (((k + n : Nat) : ℚ) / 2))) 0.5 = true →
      m.isPathClearLoopD src u dist 0.5 fuel ((k : ℚ) / 2) = some false := by
  intro n
  induction n with
  | zero =>
    intro fuel k hf _ hd hb
    obtain ⟨f, rfl⟩ : ∃ f, fuel = f + 1 := ⟨fuel - 1, by omega⟩
    simp only [Nat.add_zero] at hd hb
    simp only [Map3D.isPathClearLoopD, hd, ↓reduceIte, hb]
  | succ n ih =>
    intro fuel k hf hk hd hb
    obtain ⟨f, rfl⟩ : ∃ f, fuel = f + 1 := ⟨fuel - 1, by omega⟩
    have hle : (k : ℚ) / 2 ≤ dist := by
      refine le_trans ?_ hd
      have hn : (0 : ℚ) ≤ (n : ℚ) := Nat.cast_nonneg n
      push_cast
      linarith
    have hstep : roundDouble ((k : ℚ) / 2 + 0.5) = ((k + 1 : Nat) : ℚ) / 2 := by
      have e : (k : ℚ) / 2 + 0.5 = ((k + 1 : Nat) : ℚ) / 2 := by push_cast; norm_num; ring
      rw [e]
      exact roundDouble_half (k + 1) (by omega)
    have e2 : k + 1 + n = k + (n + 1) := by omega
    simp only [Map3D.isPathClearLoopD, hle, ↓reduceIte]
    by_cases hb0 : m.isBlockedD (src.addD (u.mulD ((k : ℚ) / 2))) 0.5 = true
    · simp only [hb0, ↓reduceIte]
    · simp only [hb0, Bool.false_eq_true, ↓reduceIte, hstep]
      exact ih f (k + 1) (by omega) (by omega) (by rw [e2]; exact hd) (by rw [e2]; exact hb)

theorem boundary_direction :
    ((⟨0, 24, 1⟩ : Vector3D ℚ).subD ⟨7, 0, 1⟩) = ⟨-7, 24, 0⟩ ∧
    ((⟨0, 24, 1⟩ : Vector3D ℚ).subD ⟨7, 0, 1⟩).magnitudeD = 25 ∧
    (((⟨0, 24, 1⟩ : Vector3D ℚ).subD ⟨7, 0, 1⟩).normalizeD).x =
      -1261007895663739 / 4503599627370496 := by
  have i7 : roundDouble (-7 : ℚ) = -7 := by
    have := roundDouble_int (-7) (by norm_num)
    simpa using this
  have i24 : roundDouble (24 : ℚ) = 24 := by
    have := roundDouble_int 24 (by norm_num)
    simpa using this
  have i49 : roundDouble (49 : ℚ) = 49 := by
    have := roundDouble_int 49 (by norm_num)
    simpa using this
  have i576 : roundDouble (576 : ℚ) = 576 := by
    have := roundDouble_int 576 (by norm_num)
    simpa using this
  have i625 : roundDouble (625 : ℚ) = 625 := by
    have := roundDouble_int 625 (by norm_num)
    simpa using this
  have hdir : ((⟨0, 24, 1⟩ : Vector3D ℚ).subD ⟨7, 0, 1⟩) = ⟨-7, 24, 0⟩ := by
    simp only [Vector3D.subD]
    norm_num [i7, i24, roundDouble_zero]
  have hmag : (⟨-7, 24, 0⟩ : Vector3D ℚ).magnitudeD = 25 := by
    simp only [Vector3D.magnitudeD]
    norm_num [i49, i576, i625, roundDouble_zero, sqrtDouble_625]
  refine ⟨hdir, by rw [hdir, hmag], ?_⟩
  rw [hdir]
  simp only [Vector3D.normalizeD, hmag]
  rw [if_pos (by norm_num)]
  simp only [Vector3D.divD]
  exact roundDouble_unit_x

theorem boundary_sample_x :
    ((⟨7, 0, 1⟩ : Vector3D ℚ).addD
      ((((⟨0, 24, 1⟩ : Vector3D ℚ).subD ⟨7, 0, 1⟩).normalizeD).mulD 25)).x =
      -1 / 1125899906842624 := by
  simp only [Vector3D.addD, Vector3D.mulD, boundary_direction.2.2, roundDouble_unit_x_end,
    roundDouble_sample_x]

theorem boundary_blocked :
    (⟨50, 25, 20, []⟩ : Map3D ℚ).isPathClearD ⟨7, 0, 1⟩ ⟨0, 24, 1⟩ 0.5 = some false := by
  have hmag := boundary_direction.2.1
  simp only [Map3D.isPathClearD, hmag, roundDouble_hundredth]
  rw [if_neg (by norm_num)]
  have hfuel : ⌊(25 : ℚ) / 0.5⌋₊ + 1 = 51 := by
    have e : (25 : ℚ) / 0.5 = ((50 : Nat) : ℚ) := by norm_num
    rw [e, Nat.floor_natCast]
  rw [hfuel]
  have h := isPathClearLoopD_blocked (⟨50, 25, 20, []⟩ : Map3D ℚ) ⟨7, 0, 1⟩
    (((⟨0, 24, 1⟩ : Vector3D ℚ).subD ⟨7, 0, 1⟩).normalizeD) 25 50 51 0 (by norm_num)
    (by norm_num) (by norm_num) (by
      have e : (((0 + 50 : Nat) : ℚ)) / 2 = 25 := by norm_num
      rw [e]
      simp only [Map3D.isBlockedD, boundary_sample_x]
      norm_num)
  simpa using h

theorem roundDouble_sample_fused :
    roundDouble (7 + -1261007895663739 / 4503599627370496 * 25) = -3 / 4503599627370496 := by
  have h := roundDouble_exact (-3) (-52) (by norm_num)
  have e : (7 : ℚ) + -1261007895663739 / 4503599627370496 * 25 = ((-3 : Int) : ℚ) * 2 ^ (-52 : Int) := by
    norm_num
  rw [e, h]
  norm_num

theorem inExtents_boundary_start :
    (⟨50, 25, 20, []⟩ : Map3D ℚ).inExtents ⟨7, 0, 1⟩ := by
  simp only [Map3D.inExtents]
  norm_num

theorem inExtents_boundary_target :
    (⟨50, 25, 20, []⟩ : Map3D ℚ).inExtents ⟨0, 24, 1⟩ := by
  simp only [Map3D.inExtents]
  norm_num

theorem inExtents_boundary_start_real :
    (⟨50, 25, 20, []⟩ : Map3D ℝ).inExtents ⟨7, 0, 1⟩ := by
  simp only [Map3D.inExtents]
  norm_num

theorem inExtents_boundary_target_real :
    (⟨50, 25, 20, []⟩ : Map3D ℝ).inExtents ⟨0, 24, 1⟩ := by
  simp only [Map3D.inExtents]
  norm_num

/-- C3: the claim fails in `double` arithmetic.  On the empty 50×25×20 map,
for start `(7, 0, 1)` and end `(0, 24, 1)`, both inside the extents, the
direction `(-7, 24, 0)` has magnitude 25 and the x component of the unit
vector is `-7 / 25` rounded to 53 bits, `-1261007895663739 / 2 ^ 52`, which is
below `-7 / 25`.  The last sample of `isPathClear`, at `t = 25`, is therefore
`x = 7 + unitDir.x * 25 = -2 ^ (-50) < 0` (and `-3 * 2 ^ (-52)` when the product
and the sum are fused into one rounding), `isBlocked` answers true there and
`isPathClear(start, end)` returns false, so `findPath` does not take the branch
that returns `[start, end]`.  With exact arithmetic the same call of
`isPathClear` returns true and `findPath` returns `[start, end]`. -/
theorem isPathClear_boundary_rounding :
    (⟨50, 25, 20, []⟩ : Map3D ℚ).obstacles = [] ∧
    (⟨50, 25, 20, []⟩ : Map3D ℚ).inExtents ⟨7, 0, 1⟩ ∧
    (⟨50, 25, 20, []⟩ : Map3D ℚ).inExtents ⟨0, 24, 1⟩ ∧
    ((⟨0, 24, 1⟩ : Vector3D ℚ).subD ⟨7, 0, 1⟩).magnitudeD = 25 ∧
    (((⟨0, 24, 1⟩ : Vector3D ℚ).subD ⟨7, 0, 1⟩).normalizeD).x =
      -1261007895663739 / 2 ^ 52 ∧
    ((⟨7, 0, 1⟩ : Vector3D ℚ).addD
      ((((⟨0, 24, 1⟩ : Vector3D ℚ).subD ⟨7, 0, 1⟩).normalizeD).mulD 25)).x = -(1 / 2 ^ 50) ∧
    roundDouble (7 + (((⟨0, 24, 1⟩ : Vector3D ℚ).subD ⟨7, 0, 1⟩).normalizeD).x * 25) =
      -(3 / 2 ^ 52) ∧
    (⟨50, 25, 20, []⟩ : Map3D ℚ).isBlockedD
      ((⟨7, 0, 1⟩ : Vector3D ℚ).addD
        ((((⟨0, 24, 1⟩ : Vector3D ℚ).subD ⟨7, 0, 1⟩).normalizeD).mulD 25)) 0.5 = true ∧
    (⟨50, 25, 20, []⟩ : Map3D ℚ).isPathClearD ⟨7, 0, 1⟩ ⟨0, 24, 1⟩ 0.5 = some false ∧
    (⟨50, 25, 20, []⟩ : Map3D ℝ).isPathClear Real.sqrt ⟨7, 0, 1⟩ ⟨0, 24, 1⟩ 0.5 = some true ∧
    ∃ r, (PathFinder3D.new (⟨50, 25, 20, []⟩ : Map3D ℝ) 1).findPath (listQueue PathNode.gt)
        Real.sqrt ⟨7, 0, 1⟩ ⟨0, 24, 1⟩ = some r ∧ r.path = [⟨7, 0, 1⟩, ⟨0, 24, 1⟩] := by
  refine ⟨rfl, inExtents_boundary_start, inExtents_boundary_target, boundary_direction.2.1,
    ?_, ?_, ?_, ?_, boundary_blocked, ?_, ?_⟩
  · rw [boundary_direction.2.2]; norm_num
  · rw [boundary_sample_x]; norm_num
  · rw [boundary_direction.2.2, roundDouble_sample_fused]; norm_num
  · simp only [Map3D.isBlockedD, boundary_sample_x]
    norm_num
  · exact isPathClear_of_inExtents Real.sqrt (⟨50, 25, 20, []⟩ : Map3D ℝ) rfl _ _
      inExtents_boundary_start_real inExtents_boundary_target_real
  · exact ⟨_, findPath_of_clear (listQueue PathNode.gt) Real.sqrt
      (PathFinder3D.new (⟨50, 25, 20, []⟩ : Map3D ℝ) 1) ⟨7, 0, 1⟩ ⟨0, 24, 1⟩
      (isPathClear_of_inExtents Real.sqrt (⟨50, 25, 20, []⟩ : Map3D ℝ) rfl _ _
        inExtents_boundary_start_real inExtents_boundary_target_real), rfl⟩

end BoundaryRounding

end DronePlanner
